import Mathlib

/-!
Verification of the Core-language interpreter (tokenizer, parser,
pretty-printer, evaluator) against its specification.

The Lean definitions below are a shallow embedding of the Python sources:
  src/core-interpreter/src/core.py        (class Tokenizer)
  src/core-interpreter/src/enums.py       (token enumerations)
  src/core-interpreter/src/bnf_grammar.py (grammar classes, evaluator)
  src/core-interpreter/interpret.py       (pipeline entry point)

Modelling conventions:
  * Python text streams are lists of lines, each line exactly as
    `readline()` would return it (trailing newline included); `readline`
    on an exhausted stream returns the empty string, and `readline` on a
    closed stream raises ValueError.
  * Python `SystemExit`-style fatal errors become `Except`/result values
    carrying the structured content of the diagnostic.
  * Token payloads (the `_integers` / `_identifiers` dictionaries keyed
    by token index) are carried directly on the token constructors,
    which is observationally the same bookkeeping.
  * All recursive functions are structural (where the source recursion is
    not obviously bounded, a fuel parameter is used) so that every
    definition evaluates by kernel reduction on concrete inputs.
-/

/-- Tokens of Core, mirroring `enums.Token` and `enums.StopToken`
(`core.py`).  `INTEGER`/`IDENTIFIER` carry the source text that the
Python tokenizer stores in `_integers`/`_identifiers`; `ILLEGAL` carries
the offending token text used in the lexical diagnostic. -/
inductive PTok where
  | PROGRAM | BEGIN | END | INT | IF | THEN | ELSE | WHILE | LOOP | READ | WRITE
  | SEMICOLON | COMMA | ASSIGNMENT | LOGICAL_NOT | LEFT_BRACKET | RIGHT_BRACKET
  | LOGICAL_AND | LOGICAL_OR | LEFT_PARENTHESIS | RIGHT_PARENTHESIS
  | ADDITION | SUBTRACTION | MULTIPLICATION | NOT_EQUAL | EQUAL | LESS_THAN
  | GREATER_THAN | LESS_THAN_OR_EQUAL | GREATER_THAN_OR_EQUAL
  | INTEGER (text : String) | IDENTIFIER (text : String)
  | EOF | ILLEGAL (text : String)
deriving DecidableEq

/-- The numeric value of a token, as in `enums.py` (`Token` 1..32,
`StopToken` EOF=33 / ILLEGAL=34). -/
def tokNum : PTok → Nat
  | .PROGRAM => 1 | .BEGIN => 2 | .END => 3 | .INT => 4 | .IF => 5
  | .THEN => 6 | .ELSE => 7 | .WHILE => 8 | .LOOP => 9 | .READ => 10
  | .WRITE => 11 | .SEMICOLON => 12 | .COMMA => 13 | .ASSIGNMENT => 14
  | .LOGICAL_NOT => 15 | .LEFT_BRACKET => 16 | .RIGHT_BRACKET => 17
  | .LOGICAL_AND => 18 | .LOGICAL_OR => 19 | .LEFT_PARENTHESIS => 20
  | .RIGHT_PARENTHESIS => 21 | .ADDITION => 22 | .SUBTRACTION => 23
  | .MULTIPLICATION => 24 | .NOT_EQUAL => 25 | .EQUAL => 26 | .LESS_THAN => 27
  | .GREATER_THAN => 28 | .LESS_THAN_OR_EQUAL => 29
  | .GREATER_THAN_OR_EQUAL => 30 | .INTEGER _ => 31 | .IDENTIFIER _ => 32
  | .EOF => 33 | .ILLEGAL _ => 34

/-- `RESERVED` of `core.py` (values, in dictionary order). -/
def RESERVED_WORDS : List String :=
  ["program", "begin", "end", "int", "if", "then", "else", "while", "loop",
   "read", "write"]

/-- `SPECIAL` of `core.py` (values, in dictionary order). -/
def SPECIAL_SYMBOLS : List String :=
  [";", ",", "=", "!", "[", "]", "&&", "||", "(", ")", "+", "-", "*",
   "!=", "==", "<", ">", "<=", ">="]

/-- `WHITE_SPACE` of `core.py`. -/
def WHITE_SPACE : List Char := [' ', '\t', '\r', '\n']

/-- `DECIMAL_DIGITS` of `core.py`. -/
def DECIMAL_DIGITS : List Char := ['0', '1', '2', '3', '4', '5', '6', '7', '8', '9']

/-- `SPECIAL_INTERMEDIATE_STATES` of `core.py`. -/
def SPECIAL_INTERMEDIATE_STATES : List Char := ['&', '|']

/-- `SPECIAL_AMBIGUOUS_FINAL_STATES` of `core.py`. -/
def SPECIAL_AMBIGUOUS_FINAL_STATES : List Char := ['=', '!', '<', '>']

/-- `CAPITALS` of `core.py`. -/
def CAPITALS : List Char :=
  ['A', 'B', 'C', 'D', 'E', 'F', 'G', 'H', 'I', 'J', 'K', 'L', 'M',
   'N', 'O', 'P', 'Q', 'R', 'S', 'T', 'U', 'V', 'W', 'X', 'Y', 'Z']

/-- `set([word[0] for word in RESERVED.values()])` in `_tokenize_line`. -/
def reservedFirstChars : List Char := (RESERVED_WORDS.filterMap (·.data.head?)).dedup

/-- `set([symbol[0] for symbol in SPECIAL.values()])` in
`_tokenize_line` / `_token_delimiter`. -/
def specialFirstChars : List Char := (SPECIAL_SYMBOLS.filterMap (·.data.head?)).dedup

/-- Map a completed reserved-word text to its token, as
`_legal_token('reserved')` does via the `RESERVED` dictionary.  The
function is only called on members of `RESERVED_WORDS`; other strings
map to `ILLEGAL` (unreachable). -/
def reservedTok (s : List Char) : PTok :=
  if s = "program".data then .PROGRAM else if s = "begin".data then .BEGIN
  else if s = "end".data then .END else if s = "int".data then .INT
  else if s = "if".data then .IF else if s = "then".data then .THEN
  else if s = "else".data then .ELSE else if s = "while".data then .WHILE
  else if s = "loop".data then .LOOP else if s = "read".data then .READ
  else if s = "write".data then .WRITE else .ILLEGAL (String.mk s)

/-- Map a completed special-symbol text to its token, as
`_legal_token('special')` does via the `SPECIAL` dictionary. -/
def specialTok (s : List Char) : PTok :=
  if s = ";".data then .SEMICOLON else if s = ",".data then .COMMA
  else if s = "=".data then .ASSIGNMENT else if s = "!".data then .LOGICAL_NOT
  else if s = "[".data then .LEFT_BRACKET else if s = "]".data then .RIGHT_BRACKET
  else if s = "&&".data then .LOGICAL_AND else if s = "||".data then .LOGICAL_OR
  else if s = "(".data then .LEFT_PARENTHESIS else if s = ")".data then .RIGHT_PARENTHESIS
  else if s = "+".data then .ADDITION else if s = "-".data then .SUBTRACTION
  else if s = "*".data then .MULTIPLICATION else if s = "!=".data then .NOT_EQUAL
  else if s = "==".data then .EQUAL else if s = "<".data then .LESS_THAN
  else if s = ">".data then .GREATER_THAN else if s = "<=".data then .LESS_THAN_OR_EQUAL
  else if s = ">=".data then .GREATER_THAN_OR_EQUAL else .ILLEGAL (String.mk s)

/-- The per-line DFA state of `Tokenizer._tokenize_line`: the token
accumulator `_token`, the four classification flags, the line-local
`special_final_state`, and the line-local `is_line_all_white`. -/
structure DfaSt where
  token : List Char
  isReserved : Bool
  isSpecial : Bool
  isInteger : Bool
  isIdentifier : Bool
  specialFinal : Bool
  allWhite : Bool
deriving DecidableEq

/-- The DFA starting state at the beginning of a line. -/
def dfaStart : DfaSt :=
  { token := [], isReserved := false, isSpecial := false, isInteger := false,
    isIdentifier := false, specialFinal := true, allWhite := true }

/-- `Tokenizer._legal_token`: emit the token for the accumulated text of
the given type and reset the four classification flags and the
accumulator. -/
def legal_token (st : DfaSt) (ttype : String) : PTok × DfaSt :=
  let t : PTok :=
    if ttype = "reserved" then reservedTok st.token
    else if ttype = "special" then specialTok st.token
    else if ttype = "integer" then .INTEGER (String.mk st.token)
    else .IDENTIFIER (String.mk st.token)
  (t, { st with token := [], isReserved := false, isSpecial := false,
                isInteger := false, isIdentifier := false })

/-- `Tokenizer._token_delimiter`: legalize the accumulated token when it
is delimited by end of line, whitespace, or the start of a special
symbol (for the two-character intermediates `&`/`|` only when the next
two characters complete the symbol).  `look2` is `line[index + 2]` when
that index is in range. -/
def token_delimiter (st : DfaSt) (ttype : String) (endOfLine : Bool)
    (nextChar : Char) (look2 : Option Char) : Option PTok × DfaSt :=
  if endOfLine then
    let (t, st') := legal_token st ttype
    (some t, st')
  else if nextChar ∈ WHITE_SPACE then
    let (t, st') := legal_token st ttype
    (some t, st')
  else if nextChar ∈ specialFirstChars then
    if nextChar ∉ SPECIAL_INTERMEDIATE_STATES then
      let (t, st') := legal_token st ttype
      (some t, st')
    else
      match look2 with
      | some c2 =>
          if nextChar = c2 then
            let (t, st') := legal_token st ttype
            (some t, st')
          else (none, st)
      | none => (none, st)
  else (none, st)

/-- The special-symbol block of the `_tokenize_line` character loop. -/
def specialBlock (st : DfaSt) (endOfLine : Bool) (nextChar : Char) :
    List PTok × DfaSt :=
  if ¬st.specialFinal then
    let (t, st') := legal_token st "special"
    ([t], { st' with specialFinal := true })
  else
    let st1 :=
      if st.token = ['&'] ∨ st.token = ['|'] then
        if ¬endOfLine then
          if st.token = [nextChar] then { st with specialFinal := false }
          else { st with token := st.token ++ [nextChar], isSpecial := false,
                         specialFinal := false }
        else { st with isSpecial := false, specialFinal := false }
      else st
    let st2 :=
      if st1.token = ['='] ∨ st1.token = ['!'] ∨ st1.token = ['<'] ∨ st1.token = ['>'] then
        if ¬endOfLine then
          if nextChar = '=' then { st1 with specialFinal := false } else st1
        else st1
      else st1
    if st2.specialFinal then
      let (t, st') := legal_token st2 "special"
      ([t], st')
    else ([], st2)

/-- The character loop of `Tokenizer._tokenize_line` over one line.
Returns the tokens recognized on the line (ending with an `ILLEGAL`
token exactly when the loop hit `_illegal_token` and broke) together
with the final value of `is_line_all_white`. -/
def lineLoop : DfaSt → List Char → List PTok × Bool
  | st, [] => ([], st.allWhite)
  | st, c :: rest =>
    let endOfLine := rest.isEmpty
    let nextChar := rest.headD ' '
    let look2 := (rest.drop 1).head?
    if st.token.isEmpty ∧ c ∈ WHITE_SPACE then lineLoop st rest
    else
      let st1 :=
        if st.token.isEmpty then
          { st with isReserved := decide (c ∈ reservedFirstChars),
                    isSpecial := decide (c ∈ specialFirstChars),
                    isInteger := decide (c ∈ DECIMAL_DIGITS),
                    isIdentifier := decide (c ∈ CAPITALS) }
        else st
      let st2 := { st1 with token := st1.token ++ [c], allWhite := false }
      let (acc3, st3) :=
        if st2.isReserved then
          if RESERVED_WORDS.any (fun w => st2.token = w.data.take st2.token.length) then
            let (o, stA) :=
              if RESERVED_WORDS.any (fun w => st2.token = w.data) then
                token_delimiter st2 "reserved" endOfLine nextChar look2
              else (none, st2)
            let stB := if endOfLine then { stA with isReserved := false } else stA
            (o.toList, stB)
          else ([], { st2 with isReserved := false })
        else ([], st2)
      let (acc4, st4) :=
        if st3.isSpecial then specialBlock st3 endOfLine nextChar else ([], st3)
      if st4.isInteger ∧ ¬endOfLine ∧ nextChar ∈ DECIMAL_DIGITS then
        let (ts, aw) := lineLoop st4 rest
        (acc3 ++ acc4 ++ ts, aw)
      else
        let (acc5, st5) :=
          if st4.isInteger then
            let (o, stA) := token_delimiter st4 "integer" endOfLine nextChar look2
            let stB :=
              if stA.isInteger then
                { stA with token := stA.token ++ [nextChar], isInteger := false }
              else stA
            (o.toList, stB)
          else ([], st4)
        if st5.isIdentifier ∧ ¬endOfLine ∧ nextChar ∈ DECIMAL_DIGITS ++ CAPITALS then
          let (ts, aw) := lineLoop st5 rest
          (acc3 ++ acc4 ++ acc5 ++ ts, aw)
        else
          let (acc6, st6) :=
            if st5.isIdentifier then
              let (o, stA) := token_delimiter st5 "identifier" endOfLine nextChar look2
              let stB :=
                if stA.isIdentifier then
                  { stA with token := stA.token ++ [nextChar], isIdentifier := false }
                else stA
              (o.toList, stB)
            else ([], st5)
          if ¬st6.token.isEmpty ∧ st6.isReserved = st6.isSpecial ∧
              st6.isSpecial = st6.isInteger ∧ st6.isInteger = st6.isIdentifier then
            (acc3 ++ acc4 ++ acc5 ++ acc6 ++ [.ILLEGAL (String.mk st6.token)],
             st6.allWhite)
          else
            let (ts, aw) := lineLoop st6 rest
            (acc3 ++ acc4 ++ acc5 ++ acc6 ++ ts, aw)

/-- The cursor state of a `Tokenizer` instance: the unread remainder of
the source stream, whether the stream has been closed, `line_number`,
the token list `_tokens` of the current line, `_token_index`, and the
`_eof` flag. -/
structure TokSt where
  lines : List String
  closed : Bool
  lineNumber : Nat
  toks : List PTok
  tokenIndex : Nat
  eof : Bool
deriving DecidableEq

/-- Failures of the underlying stream: `readline` on a closed stream
raises ValueError. -/
inductive TkFail where
  | valueError
deriving DecidableEq

/-- `Tokenizer._tokenize_line` (together with `_end_of_file`): read the
next line, run the character loop, recurse over all-whitespace lines,
and materialize EOF (closing the stream) when `readline` returns the
empty string. -/
def tokenizeLines : List String → Nat → Bool → Except TkFail TokSt
  | _, _, true => .error .valueError
  | [], lineNumber, _ =>
      .ok { lines := [], closed := true, lineNumber := lineNumber + 1,
            toks := [.EOF], tokenIndex := 0, eof := true }
  | l :: rest, lineNumber, closed =>
      let (ts, allWhite) := lineLoop dfaStart l.data
      if allWhite then tokenizeLines rest (lineNumber + 1) closed
      else
        .ok { lines := rest, closed := closed, lineNumber := lineNumber + 1,
              toks := ts, tokenIndex := 0, eof := false }

/-- `Tokenizer.__init__`: open the file and tokenize its first line. -/
def mkTokenizer (file : List String) : Except TkFail TokSt :=
  tokenizeLines file 0 false

/-- Failures surfaced by `Tokenizer.get_token`: the fatal lexical
diagnostic for an illegal token (carrying `line_number` and the
offending text, as `_illegal_token` stored them), or an index error
(unreachable in practice). -/
inductive LexE where
  | illegalTok (line : Nat) (text : String)
  | indexErr
deriving DecidableEq

/-- `Tokenizer.get_token`: return the token at the current index,
aborting with the stored lexical diagnostic on an illegal token. -/
def get_token (st : TokSt) : Except LexE PTok :=
  match st.toks.get? st.tokenIndex with
  | none => .error .indexErr
  | some (.ILLEGAL s) => .error (.illegalTok st.lineNumber s)
  | some t => .ok t

/-- `Tokenizer.skip_token`: advance the token index within the current
line, or tokenize the next line. -/
def skip_token (st : TokSt) : Except TkFail TokSt :=
  if st.tokenIndex < st.toks.length - 1 then
    .ok { st with tokenIndex := st.tokenIndex + 1 }
  else
    tokenizeLines st.lines st.lineNumber st.closed

/-- `Tokenizer.token_type` (the `ILLEGAL` case, which raises in Python
and is unreachable behind `get_token`, is mapped to the empty string). -/
def token_type (st : TokSt) : String :=
  match st.toks.get? st.tokenIndex with
  | some (.INTEGER _) => "integer"
  | some (.IDENTIFIER _) => "identifier"
  | some .EOF => "eof"
  | some t => if tokNum t ≤ 11 then "reserved word"
              else if tokNum t ≤ 30 then "special symbol" else ""
  | none => ""

/-! ## Python integer conversion and printing -/

/-- The whitespace characters stripped by Python `int(str)`. -/
def pyWs : List Char := [' ', '\t', '\n', '\r', '\x0c', '\x0b']

/-- Digit value of an ASCII digit character. -/
def charVal (c : Char) : Nat := c.toNat - 48

/-- Continuation of the digit scanner of Python `int(str)`: decimal
digits, with single underscores allowed only between digits. -/
def pyDigitsCore : List Char → Nat → Option Nat
  | [], acc => some acc
  | c :: rest, acc =>
      if c = '_' then
        match rest with
        | [] => none
        | c2 :: rest2 =>
            if c2 ∈ DECIMAL_DIGITS then pyDigitsCore rest2 (acc * 10 + charVal c2)
            else none
      else if c ∈ DECIMAL_DIGITS then pyDigitsCore rest (acc * 10 + charVal c)
      else none

/-- The digit scanner of Python `int(str)`: at least one digit first. -/
def pyFirstDigit : List Char → Option Nat
  | [] => none
  | c :: rest => if c ∈ DECIMAL_DIGITS then pyDigitsCore rest (charVal c) else none

/-- Python `int(str)` (base 10): strip whitespace, optional single sign,
then decimal digits with underscore grouping.  `none` models the
ValueError raised on anything else. -/
def pyInt (s : String) : Option Int :=
  match ((s.data.dropWhile (· ∈ pyWs)).reverse.dropWhile (· ∈ pyWs)).reverse with
  | [] => none
  | c :: rest =>
      if c = '+' then (pyFirstDigit rest).map Int.ofNat
      else if c = '-' then (pyFirstDigit rest).map (fun n => -(n : Int))
      else (pyFirstDigit (c :: rest)).map Int.ofNat

/-- Decimal digits of a natural number (most significant first), with
explicit fuel so that the definition is structural; `natRepr` supplies
sufficient fuel. -/
def natDigitsAux : Nat → Nat → List Char
  | 0, _ => []
  | fuel + 1, n =>
      if n < 10 then [Char.ofNat (48 + n)]
      else natDigitsAux fuel (n / 10) ++ [Char.ofNat (48 + n % 10)]

/-- Python `str` of a non-negative integer. -/
def natRepr (n : Nat) : String := String.mk (natDigitsAux (n + 1) n)

/-- Python `str` of an integer (as used by `print`). -/
def intRepr (v : Int) : String :=
  if v < 0 then "-" ++ natRepr v.natAbs else natRepr v.toNat

/-! ## The abstract parse tree

The grammar classes of `bnf_grammar.py` are modelled by inductives.  The
`<exp>`/`<fac>`/`<op>` stratification (classes `Exp`, `Fac`, `Op`,
`ParenthExp`, `Int`) is collapsed into the single inductive `Exp`; the
parser only ever constructs stratified trees (`mul`'s left child an
`<op>` form, `add`/`sub`'s left child a `<fac>` form), and the
constructors record which production produced them exactly as the
optional-attribute pattern of the Python classes does.  `Id` nodes are
references into the interpreter's identifier table (`Id._declared_ids`);
since declared names are unique, the reference is modelled by the name. -/

inductive Exp where
  | intL (v : Int)
  | idL (name : String)
  | paren (e : Exp)
  | mul (l r : Exp)
  | add (l r : Exp)
  | sub (l r : Exp)
deriving DecidableEq

/-- The `<comp op>` alternators (class `CompOp` stores the operator's
enum name). -/
inductive CmpOp where
  | NOT_EQUAL | EQUAL | LESS_THAN | GREATER_THAN
  | LESS_THAN_OR_EQUAL | GREATER_THAN_OR_EQUAL
deriving DecidableEq

/-- The `<cond>` alternators (class `Cond`); `comp` is the `<comp>`
production (class `Comp`) with its two `<op>` operands. -/
inductive Cond where
  | comp (l : Exp) (o : CmpOp) (r : Exp)
  | notC (c : Cond)
  | andC (l r : Cond)
  | orC (l r : Cond)
deriving DecidableEq

/-- The `<stmt>` alternators (classes `Assign`, `If`, `Loop`, `In`,
`Out`).  Each statement records the `line_number` the parser stored in
`self._line`; statement sequences (class `StmtSeq`) are the nonempty
lists the parser builds. -/
inductive Stmt where
  | assign (line : Nat) (target : String) (e : Exp)
  | ifS (line : Nat) (c : Cond) (thenB : List Stmt) (elseB : Option (List Stmt))
  | whileS (line : Nat) (c : Cond) (body : List Stmt)
  | readS (line : Nat) (targets : List String)
  | writeS (line : Nat) (targets : List String)

/-- The root of the parse tree (class `Prog`): the declarations (each
`<decl>` an `<id list>` of names) and the body. -/
structure ProgA where
  decls : List (List String)
  body : List Stmt

/-! ## The identifier table and the evaluator -/

/-- One `Id` instance: `_name`, `_initialized`, `_value` (0 until first
assigned; Python leaves the attribute unset, and it is only read when
`initialized`), and the `line` dictionary mapping a statement's line
(`None` for declaration occurrences) to the tokenizer line recorded
when the occurrence was parsed. -/
structure IdRec where
  name : String
  initialized : Bool
  value : Int
  lineMap : List (Option Nat × Nat)
deriving DecidableEq

/-- `Id._declared_ids`: the identifier table, in declaration order. -/
abbrev Env := List IdRec

/-- Find the record of a declared identifier. -/
def envFind (env : Env) (x : String) : Option IdRec :=
  List.find? (fun r => r.name = x) env

/-- Dictionary update for the `line` dictionary of an `Id`. -/
def lineMapSet (m : List (Option Nat × Nat)) (k : Option Nat) (v : Nat) :
    List (Option Nat × Nat) :=
  if m.any (fun p => p.1 = k) then
    m.map (fun p => if p.1 = k then (k, v) else p)
  else m ++ [(k, v)]

/-- Dictionary lookup in the `line` dictionary of an `Id`. -/
def lineMapGet (m : List (Option Nat × Nat)) (k : Option Nat) : Option Nat :=
  (List.find? (fun p => p.1 = k) m).map (·.2)

/-- `Id.set_value`: mark the identifier initialized and store the value. -/
def envSet (env : Env) (x : String) (v : Int) : Env :=
  env.map (fun r => if r.name = x then { r with initialized := true, value := v } else r)

/-- Record a parse-time line for an identifier occurrence
(`self._id.line[self._line] = tokenizer.line_number`). -/
def envSetLine (env : Env) (x : String) (k : Option Nat) (v : Nat) : Env :=
  env.map (fun r => if r.name = x then { r with lineMap := lineMapSet r.lineMap k v } else r)

/-- Runtime errors (`runtime_error` in `bnf_grammar.py`), carrying the
data interpolated into the diagnostics: the text of an invalid data
line, and the cited line and identifier name for an uninitialized use.
`keyErr` models a Python `KeyError` on a `line` dictionary lookup
(unreachable for parsed programs). -/
inductive RtErr where
  | inputEof
  | inputEmptyLine
  | inputInvalidLine (text : String)
  | uninitId (line : Nat) (name : String)
  | keyErr
deriving DecidableEq

/-- `Id.get_value`: the identifier's value if initialized, else the
fatal uninitialized-identifier error citing `self.line[line_number]`. -/
def getValue (env : Env) (x : String) (stmtLine : Nat) : Except RtErr Int :=
  match envFind env x with
  | none => .error .keyErr
  | some r =>
      if r.initialized then .ok r.value
      else
        match lineMapGet r.lineMap (some stmtLine) with
        | none => .error .keyErr
        | some l => .error (.uninitId l r.name)

/-- `Op.evaluate` / `Fac.evaluate` / `Exp.evaluate` /
`ParenthExp.evaluate` / `Int.get_value`: expression evaluation over the
identifier table.  Each binary node evaluates its left child first, as
the Python operators do. -/
def evalExp (env : Env) (stmtLine : Nat) : Exp → Except RtErr Int
  | .intL v => .ok v
  | .idL x => getValue env x stmtLine
  | .paren e => evalExp env stmtLine e
  | .mul l r => do
      let a ← evalExp env stmtLine l
      let b ← evalExp env stmtLine r
      .ok (a * b)
  | .add l r => do
      let a ← evalExp env stmtLine l
      let b ← evalExp env stmtLine r
      .ok (a + b)
  | .sub l r => do
      let a ← evalExp env stmtLine l
      let b ← evalExp env stmtLine r
      .ok (a - b)

/-- `Comp.evaluate`: each operator branch evaluates the left operand,
then the right, then compares. -/
def evalComp (env : Env) (stmtLine : Nat) (l : Exp) (o : CmpOp) (r : Exp) :
    Except RtErr Bool := do
  let a ← evalExp env stmtLine l
  let b ← evalExp env stmtLine r
  match o with
  | .NOT_EQUAL => .ok (a ≠ b)
  | .EQUAL => .ok (a = b)
  | .LESS_THAN => .ok (a < b)
  | .GREATER_THAN => .ok (a > b)
  | .LESS_THAN_OR_EQUAL => .ok (a ≤ b)
  | .GREATER_THAN_OR_EQUAL => .ok (a ≥ b)

/-- `Cond.evaluate`: negation, and Python's short-circuiting `and`/`or`
for the conjunction and disjunction alternators. -/
def evalCond (env : Env) (stmtLine : Nat) : Cond → Except RtErr Bool
  | .comp l o r => evalComp env stmtLine l o r
  | .notC c => do
      let b ← evalCond env stmtLine c
      .ok (!b)
  | .andC l r => do
      let a ← evalCond env stmtLine l
      if a then evalCond env stmtLine r else .ok false
  | .orC l r => do
      let a ← evalCond env stmtLine l
      if a then .ok true else evalCond env stmtLine r

/-- Modelled from the spec: strict (non-short-circuit) evaluation of
`And`/`Or`, evaluating "both operands strictly" left to right; the
alternative the specification declares observationally equivalent. -/
def evalCondStrict (env : Env) (stmtLine : Nat) : Cond → Except RtErr Bool
  | .comp l o r => evalComp env stmtLine l o r
  | .notC c => do
      let b ← evalCondStrict env stmtLine c
      .ok (!b)
  | .andC l r => do
      let a ← evalCondStrict env stmtLine l
      let b ← evalCondStrict env stmtLine r
      .ok (a && b)
  | .orC l r => do
      let a ← evalCondStrict env stmtLine l
      let b ← evalCondStrict env stmtLine r
      .ok (a || b)

/-! ## Statement execution -/

/-- The evaluator state threaded through `execute` methods: the
identifier table, the unread remainder of the data stream, the lines
written to standard output during execution, and the class flag
`IdList._is_output`. -/
structure EvalSt where
  env : Env
  data : List String
  out : List String
  isOutput : Bool

/-- Result of executing statements: normal completion, a fatal runtime
error, or fuel exhaustion of the model (a still-running program). -/
inductive ExecRes where
  | ok
  | err (e : RtErr)
  | fuelOut
deriving DecidableEq

/-- The input branch of `IdList.execute`: for each target read one line
from the data stream, reject end of file, a line consisting solely of a
newline, and lines that fail `int()`, otherwise store the value. -/
def readIds : List String → EvalSt → ExecRes × EvalSt
  | [], st => (.ok, st)
  | x :: rest, st =>
      match st.data with
      | [] => (.err .inputEof, st)
      | line :: drest =>
          let st1 := { st with data := drest }
          if line = "" then (.err .inputEof, st1)
          else if line = "\n" then (.err .inputEmptyLine, st1)
          else
            match pyInt line with
            | none => (.err (.inputInvalidLine line), st1)
            | some v => readIds rest { st1 with env := envSet st1.env x v }

/-- The banner emitted before the first program output. -/
def bannerLine : String := "----------Program Output----------"

/-- The output branch of `IdList.execute`: on the first output in the
program emit a blank line and the banner, then print `NAME = VALUE` for
each target in order (reading the value may fail with the
uninitialized-identifier error). -/
def writeIds (line : Nat) : List String → EvalSt → ExecRes × EvalSt
  | [], st => (.ok, st)
  | x :: rest, st =>
      let st1 :=
        if ¬st.isOutput then
          { st with isOutput := true, out := st.out ++ ["", bannerLine] }
        else st
      match getValue st1.env x line with
      | .error e => (.err e, st1)
      | .ok v => writeIds line rest { st1 with out := st1.out ++ [x ++ " = " ++ intRepr v] }

/-- `StmtSeq.execute`: run the statements in order, stopping at the
first non-normal result. -/
def runList (f : Stmt → EvalSt → ExecRes × EvalSt) :
    List Stmt → EvalSt → ExecRes × EvalSt
  | [], st => (.ok, st)
  | s :: rest, st =>
      match f s st with
      | (.ok, st') => runList f rest st'
      | r => r

/-- `Stmt.execute` together with `Assign.execute`, `If.execute`,
`Loop.execute`, `In.execute`, and `Out.execute`.  The fuel bounds the
number of statement entries (in particular `while` iterations); every
terminating Python run is reproduced by every sufficiently large fuel. -/
def execStmt : Nat → Stmt → EvalSt → ExecRes × EvalSt
  | 0, _, st => (.fuelOut, st)
  | fuel + 1, s, st =>
      match s with
      | .assign line x e =>
          match evalExp st.env line e with
          | .error er => (.err er, st)
          | .ok v => (.ok, { st with env := envSet st.env x v })
      | .ifS line c t e =>
          match evalCond st.env line c with
          | .error er => (.err er, st)
          | .ok true => runList (execStmt fuel) t st
          | .ok false =>
              match e with
              | some el => runList (execStmt fuel) el st
              | none => (.ok, st)
      | .whileS line c b =>
          match evalCond st.env line c with
          | .error er => (.err er, st)
          | .ok false => (.ok, st)
          | .ok true =>
              match runList (execStmt fuel) b st with
              | (.ok, st') => execStmt fuel (.whileS line c b) st'
              | r => r
      | .readS _ xs => readIds xs st
      | .writeS line xs => writeIds line xs st

/-- The evaluator state at the start of `Prog.execute`. -/
def initEvalSt (env : Env) (dataFile : List String) : EvalSt :=
  { env := env, data := dataFile, out := [], isOutput := false }

/-- `Prog.execute`: run the body. -/
def execProg (fuel : Nat) (p : ProgA) (st : EvalSt) : ExecRes × EvalSt :=
  runList (execStmt fuel) p.body st

/-! ## The parser -/

/-- Fatal parser-stage failures: `fuelOut` is model fuel exhaustion;
`lexical` is the illegal-token exit surfaced by `get_token`;
`streamClosed` a ValueError from `skip_token`; `unexpected` the
context-free diagnostic of `context_free_error_checker` (whether EOF
was hit, the line, the token's type and text, and the optional
`Expected an identifier/integer` suffix); `declErr` the
context-sensitive diagnostic of `Id._context_sensitive_error` (line,
name, and whether the complaint is `already`/`not` declared);
`notAnInteger`/`notAnIdentifier` the exits of `int_val`/`id_name`;
`bug` marks internal result-shape mismatches (unreachable). -/
inductive PErr where
  | fuelOut
  | lexical (line : Nat) (text : String)
  | streamClosed
  | indexErr
  | unexpected (eofHit : Bool) (line : Nat) (ttype : String) (text : String)
      (expectedSuffix : String)
  | declErr (line : Nat) (name : String) (already : Bool)
  | notAnInteger
  | notAnIdentifier
  | bug
deriving DecidableEq

/-- `Tokenizer.int_val`: the `int()` of the text of the current integer
token (`none` models the SystemExit when the current token is not an
integer). -/
def int_val (st : TokSt) : Option Int :=
  match st.toks.get? st.tokenIndex with
  | some (.INTEGER s) => pyInt s
  | _ => none

/-- `Tokenizer.id_name`: the text of the current identifier token. -/
def id_name (st : TokSt) : Option String :=
  match st.toks.get? st.tokenIndex with
  | some (.IDENTIFIER s) => some s
  | _ => none

/-- Parser state: the tokenizer cursor, `Id._declared_ids`, and
`Prog.decl_seq_path`. -/
structure ParseSt where
  tk : TokSt
  ids : Env
  declPath : Bool

/-- Lift `get_token` to the parser. -/
def pGetTok (ps : ParseSt) : Except PErr PTok :=
  match get_token ps.tk with
  | .error (.illegalTok l s) => .error (.lexical l s)
  | .error .indexErr => .error .indexErr
  | .ok t => .ok t

/-- Lift `skip_token` to the parser. -/
def pSkip (ps : ParseSt) : Except PErr ParseSt :=
  match skip_token ps.tk with
  | .error .valueError => .error .streamClosed
  | .ok tk' => .ok { ps with tk := tk' }

/-- The token text interpolated into a context-free diagnostic (the
`RESERVED`/`SPECIAL` table entry, the formatted integer, or the
identifier name). -/
def tokText (st : TokSt) : String :=
  match st.toks.get? st.tokenIndex with
  | some (.INTEGER s) =>
      match pyInt s with
      | some v => intRepr v
      | none => ""
  | some (.IDENTIFIER s) => s
  | some t =>
      if tokNum t ≤ 11 then (RESERVED_WORDS.getD (tokNum t - 1) "")
      else if tokNum t ≤ 30 then (SPECIAL_SYMBOLS.getD (tokNum t - 12) "")
      else ""
  | none => ""

/-- Build the context-free diagnostic of `context_free_error_checker`. -/
def mkUnexpected (ps : ParseSt) (expectedType : String) : PErr :=
  let ttype := token_type ps.tk
  let suffix :=
    if expectedType = "identifier" then "identifier"
    else if expectedType = "integer" then "integer" else ""
  .unexpected (ttype = "eof") ps.tk.lineNumber ttype (tokText ps.tk) suffix

/-- `context_free_error_checker`: compare the current token's number
with the expected one, fail with the context-free diagnostic on
mismatch, and skip the token on match when the expected type is a
reserved word, special symbol, or integer. -/
def checker (expectedNum : Nat) (expectedType : String) (ps : ParseSt) :
    Except PErr ParseSt := do
  let t ← pGetTok ps
  if tokNum t ≠ expectedNum then .error (mkUnexpected ps expectedType)
  else if expectedType = "reserved word" ∨ expectedType = "special symbol" ∨
      expectedType = "integer" then pSkip ps
  else .ok ps

/-- `Id.parse`: check the current token is an identifier; on the
declaration path append a fresh record (or fail on redeclaration), on
the statement path find the declared record (or fail on a use of an
undeclared name); skip the token and return the identifier. -/
def idParse (ps : ParseSt) : Except PErr (String × ParseSt) := do
  let ps ← checker 32 "identifier" ps
  match id_name ps.tk with
  | none => .error .notAnIdentifier
  | some name =>
      if ps.declPath then
        if (ps.ids.map (·.name)).contains name then
          .error (.declErr ps.tk.lineNumber name true)
        else do
          let ps' ← pSkip { ps with ids :=
            ps.ids ++ [{ name := name, initialized := false, value := 0, lineMap := [] }] }
          .ok (name, ps')
      else
        match envFind ps.ids name with
        | some _ => do
            let ps' ← pSkip ps
            .ok (name, ps')
        | none => .error (.declErr ps.tk.lineNumber name false)

/-- Parse requests: one constructor per `parse` method of the grammar
classes (`Prog`, `DeclSeq`, `Decl`, `IdList`, `StmtSeq`, `Stmt`,
`Assign`, `In`, `Out`, `Loop`, `If`, `Cond`, `Comp`, `CompOp`, `Exp`,
`Fac`, `Op`, `ParenthExp`), with the constructor arguments the Python
class-constructor arguments (the statement line passed to expression
and condition nodes, the indent level passed to statement sequences). -/
inductive PReq where
  | prog
  | declSeq
  | decl
  | idList (line : Option Nat)
  | stmtSeq (indent : Nat)
  | stmt (indent : Nat)
  | assignS
  | inS
  | outS
  | loopS (indent : Nat)
  | ifS (indent : Nat)
  | cond (line : Nat)
  | compC (line : Nat)
  | compOp
  | exp (line : Nat)
  | fac (line : Nat)
  | op (line : Nat)
  | parenthExp (line : Nat)

/-- Parse results, one constructor per result shape. -/
inductive PRes where
  | prog (p : ProgA)
  | declSeq (ds : List (List String))
  | decl (ns : List String)
  | idList (ns : List String)
  | stmtSeq (ss : List Stmt)
  | stmt (s : Stmt)
  | cond (c : Cond)
  | compOp (o : CmpOp)
  | exp (e : Exp)

/-- The recursive-descent parser: the `parse` methods of the grammar
classes of `bnf_grammar.py`, as one fuel-structural function dispatching
on the requested nonterminal.  Every terminating Python parse is
reproduced by every sufficiently large fuel. -/
def parseStep : Nat → PReq → ParseSt → Except PErr (PRes × ParseSt)
  | 0, _, _ => .error .fuelOut
  | fuel + 1, req, ps =>
      match req with
      | .prog => do
          -- Prog.parse
          let ps ← checker (tokNum .PROGRAM) "reserved word" ps
          match ← parseStep fuel .declSeq ps with
          | (.declSeq ds, ps) => do
              let ps := { ps with declPath := false }
              let ps ← checker (tokNum .BEGIN) "reserved word" ps
              match ← parseStep fuel (.stmtSeq 1) ps with
              | (.stmtSeq body, ps) => do
                  let ps ← checker (tokNum .END) "reserved word" ps
                  let ps ← checker (tokNum .EOF) "eof" ps
                  .ok (.prog ⟨ds, body⟩, ps)
              | _ => .error .bug
          | _ => .error .bug
      | .declSeq => do
          -- DeclSeq.parse
          match ← parseStep fuel .decl ps with
          | (.decl ns, ps) => do
              let t ← pGetTok ps
              if tokNum t = tokNum .INT then
                match ← parseStep fuel .declSeq ps with
                | (.declSeq ds, ps) => .ok (.declSeq (ns :: ds), ps)
                | _ => .error .bug
              else .ok (.declSeq [ns], ps)
          | _ => .error .bug
      | .decl => do
          -- Decl.parse
          let ps ← checker (tokNum .INT) "reserved word" ps
          match ← parseStep fuel (.idList none) ps with
          | (.idList ns, ps) => do
              let ps ← checker (tokNum .SEMICOLON) "special symbol" ps
              .ok (.decl ns, ps)
          | _ => .error .bug
      | .idList line => do
          -- IdList.parse
          let (name, ps) ← idParse ps
          let ps := { ps with ids := envSetLine ps.ids name line ps.tk.lineNumber }
          let t ← pGetTok ps
          if tokNum t = tokNum .COMMA then do
            let ps ← pSkip ps
            match ← parseStep fuel (.idList line) ps with
            | (.idList ns, ps) => .ok (.idList (name :: ns), ps)
            | _ => .error .bug
          else .ok (.idList [name], ps)
      | .stmtSeq indent => do
          -- StmtSeq.parse
          match ← parseStep fuel (.stmt indent) ps with
          | (.stmt s, ps) => do
              let t ← pGetTok ps
              if tokNum t ≠ tokNum .END ∧ tokNum t ≠ tokNum .ELSE then
                match ← parseStep fuel (.stmtSeq indent) ps with
                | (.stmtSeq ss, ps) => .ok (.stmtSeq (s :: ss), ps)
                | _ => .error .bug
              else .ok (.stmtSeq [s], ps)
          | _ => .error .bug
      | .stmt indent => do
          -- Stmt.parse
          let t ← pGetTok ps
          if tokNum t = 32 then parseStep fuel .assignS ps
          else if tokNum t = tokNum .IF then parseStep fuel (.ifS indent) ps
          else if tokNum t = tokNum .WHILE then parseStep fuel (.loopS indent) ps
          else if tokNum t = tokNum .READ then parseStep fuel .inS ps
          else if tokNum t = tokNum .WRITE then parseStep fuel .outS ps
          else
            match checker 0 "multiple" ps with
            | .error e => .error e
            | .ok _ => .error .bug
      | .assignS => do
          -- Assign.parse
          let line := ps.tk.lineNumber
          let (x, ps) ← idParse ps
          let ps ← checker (tokNum .ASSIGNMENT) "special symbol" ps
          match ← parseStep fuel (.exp line) ps with
          | (.exp e, ps) => do
              let ps ← checker (tokNum .SEMICOLON) "special symbol" ps
              .ok (.stmt (.assign line x e), ps)
          | _ => .error .bug
      | .inS => do
          -- In.parse
          let line := ps.tk.lineNumber
          let ps ← checker (tokNum .READ) "reserved word" ps
          match ← parseStep fuel (.idList (some line)) ps with
          | (.idList ns, ps) => do
              let ps ← checker (tokNum .SEMICOLON) "special symbol" ps
              .ok (.stmt (.readS line ns), ps)
          | _ => .error .bug
      | .outS => do
          -- Out.parse
          let line := ps.tk.lineNumber
          let ps ← checker (tokNum .WRITE) "reserved word" ps
          match ← parseStep fuel (.idList (some line)) ps with
          | (.idList ns, ps) => do
              let ps ← checker (tokNum .SEMICOLON) "special symbol" ps
              .ok (.stmt (.writeS line ns), ps)
          | _ => .error .bug
      | .loopS indent => do
          -- Loop.parse
          let line := ps.tk.lineNumber
          let ps ← checker (tokNum .WHILE) "reserved word" ps
          match ← parseStep fuel (.cond line) ps with
          | (.cond c, ps) => do
              let ps ← checker (tokNum .LOOP) "reserved word" ps
              match ← parseStep fuel (.stmtSeq (indent + 2)) ps with
              | (.stmtSeq b, ps) => do
                  let ps ← checker (tokNum .END) "reserved word" ps
                  let ps ← checker (tokNum .SEMICOLON) "special symbol" ps
                  .ok (.stmt (.whileS line c b), ps)
              | _ => .error .bug
          | _ => .error .bug
      | .ifS indent => do
          -- If.parse
          let line := ps.tk.lineNumber
          let ps ← checker (tokNum .IF) "reserved word" ps
          match ← parseStep fuel (.cond line) ps with
          | (.cond c, ps) => do
              let ps ← checker (tokNum .THEN) "reserved word" ps
              match ← parseStep fuel (.stmtSeq (indent + 1)) ps with
              | (.stmtSeq tb, ps) => do
                  let t ← pGetTok ps
                  if tokNum t = tokNum .ELSE then do
                    let ps ← pSkip ps
                    match ← parseStep fuel (.stmtSeq (indent + 1)) ps with
                    | (.stmtSeq eb, ps) => do
                        let ps ← checker (tokNum .END) "reserved word" ps
                        let ps ← checker (tokNum .SEMICOLON) "special symbol" ps
                        .ok (.stmt (.ifS line c tb (some eb)), ps)
                    | _ => .error .bug
                  else do
                    let ps ← checker (tokNum .END) "reserved word" ps
                    let ps ← checker (tokNum .SEMICOLON) "special symbol" ps
                    .ok (.stmt (.ifS line c tb none), ps)
              | _ => .error .bug
          | _ => .error .bug
      | .cond line => do
          -- Cond.parse
          let t ← pGetTok ps
          if tokNum t = tokNum .LEFT_PARENTHESIS then
            parseStep fuel (.compC line) ps
          else if tokNum t = tokNum .LOGICAL_NOT then do
            let ps ← pSkip ps
            match ← parseStep fuel (.cond line) ps with
            | (.cond c, ps) => .ok (.cond (.notC c), ps)
            | _ => .error .bug
          else if tokNum t = tokNum .LEFT_BRACKET then do
            let ps ← pSkip ps
            match ← parseStep fuel (.cond line) ps with
            | (.cond l, ps) => do
                let t2 ← pGetTok ps
                if tokNum t2 = tokNum .LOGICAL_AND then do
                  let ps ← pSkip ps
                  match ← parseStep fuel (.cond line) ps with
                  | (.cond r, ps) => do
                      let ps ← checker (tokNum .RIGHT_BRACKET) "special symbol" ps
                      .ok (.cond (.andC l r), ps)
                  | _ => .error .bug
                else if tokNum t2 = tokNum .LOGICAL_OR then do
                  let ps ← pSkip ps
                  match ← parseStep fuel (.cond line) ps with
                  | (.cond r, ps) => do
                      let ps ← checker (tokNum .RIGHT_BRACKET) "special symbol" ps
                      .ok (.cond (.orC l r), ps)
                  | _ => .error .bug
                else
                  match checker 0 "multiple" ps with
                  | .error e => .error e
                  | .ok _ => .error .bug
            | _ => .error .bug
          else
            match checker 0 "multiple" ps with
            | .error e => .error e
            | .ok _ => .error .bug
      | .compC line => do
          -- Comp.parse
          let ps ← checker (tokNum .LEFT_PARENTHESIS) "special symbol" ps
          match ← parseStep fuel (.op line) ps with
          | (.exp l, ps) =>
              match ← parseStep fuel .compOp ps with
              | (.compOp o, ps) =>
                  match ← parseStep fuel (.op line) ps with
                  | (.exp r, ps) => do
                      let ps ← checker (tokNum .RIGHT_PARENTHESIS) "special symbol" ps
                      .ok (.cond (.comp l o r), ps)
                  | _ => .error .bug
              | _ => .error .bug
          | _ => .error .bug
      | .compOp => do
          -- CompOp.parse
          let t ← pGetTok ps
          let n := tokNum t
          if n ≠ tokNum .NOT_EQUAL ∧ n ≠ tokNum .EQUAL ∧ n ≠ tokNum .LESS_THAN ∧
              n ≠ tokNum .GREATER_THAN ∧ n ≠ tokNum .LESS_THAN_OR_EQUAL ∧
              n ≠ tokNum .GREATER_THAN_OR_EQUAL then
            match checker 0 "multiple" ps with
            | .error e => .error e
            | .ok _ => .error .bug
          else do
            let o : CmpOp :=
              if n = tokNum .NOT_EQUAL then .NOT_EQUAL
              else if n = tokNum .EQUAL then .EQUAL
              else if n = tokNum .LESS_THAN then .LESS_THAN
              else if n = tokNum .GREATER_THAN then .GREATER_THAN
              else if n = tokNum .LESS_THAN_OR_EQUAL then .LESS_THAN_OR_EQUAL
              else .GREATER_THAN_OR_EQUAL
            let ps ← pSkip ps
            .ok (.compOp o, ps)
      | .exp line => do
          -- Exp.parse
          match ← parseStep fuel (.fac line) ps with
          | (.exp f, ps) => do
              let t ← pGetTok ps
              if tokNum t = tokNum .ADDITION then do
                let ps ← pSkip ps
                match ← parseStep fuel (.exp line) ps with
                | (.exp e2, ps) => .ok (.exp (.add f e2), ps)
                | _ => .error .bug
              else if tokNum t = tokNum .SUBTRACTION then do
                let ps ← pSkip ps
                match ← parseStep fuel (.exp line) ps with
                | (.exp e2, ps) => .ok (.exp (.sub f e2), ps)
                | _ => .error .bug
              else .ok (.exp f, ps)
          | _ => .error .bug
      | .fac line => do
          -- Fac.parse
          match ← parseStep fuel (.op line) ps with
          | (.exp o, ps) => do
              let t ← pGetTok ps
              if tokNum t = tokNum .MULTIPLICATION then do
                let ps ← pSkip ps
                match ← parseStep fuel (.fac line) ps with
                | (.exp f2, ps) => .ok (.exp (.mul o f2), ps)
                | _ => .error .bug
              else .ok (.exp o, ps)
          | _ => .error .bug
      | .op line => do
          -- Op.parse
          let t ← pGetTok ps
          if tokNum t = 31 then
            match int_val ps.tk with
            | none => .error .notAnInteger
            | some v => do
                -- Int.parse
                let ps ← checker 31 "integer" ps
                .ok (.exp (.intL v), ps)
          else if tokNum t = 32 then do
            let (x, ps) ← idParse ps
            let ps := { ps with ids := envSetLine ps.ids x (some line) ps.tk.lineNumber }
            .ok (.exp (.idL x), ps)
          else if tokNum t = tokNum .LEFT_PARENTHESIS then
            match ← parseStep fuel (.parenthExp line) ps with
            | (.exp e, ps) => do
                let ps ← checker (tokNum .RIGHT_PARENTHESIS) "special symbol" ps
                .ok (.exp (.paren e), ps)
            | _ => .error .bug
          else
            match checker 0 "multiple" ps with
            | .error e => .error e
            | .ok _ => .error .bug
      | .parenthExp line => do
          -- ParenthExp.parse
          let ps ← checker (tokNum .LEFT_PARENTHESIS) "special symbol" ps
          match ← parseStep fuel (.exp line) ps with
          | (.exp e, ps) => .ok (.exp e, ps)
          | _ => .error .bug

/-- The parser state at the start of `Prog.parse` (`Id._declared_ids`
empty, `Prog.decl_seq_path` true). -/
def mkParseSt (tk : TokSt) : ParseSt := { tk := tk, ids := [], declPath := true }

/-- Tokenize a source file and parse it, returning the parse tree
together with the populated identifier table. -/
def parsePipeline (fuel : Nat) (file : List String) : Except PErr (ProgA × Env) :=
  match mkTokenizer file with
  | .error .valueError => .error .streamClosed
  | .ok tk =>
      match parseStep fuel .prog (mkParseSt tk) with
      | .error e => .error e
      | .ok (.prog p, ps) => .ok (p, ps.ids)
      | .ok _ => .error .bug

/-- The interpreter pipeline of `interpret.py` after pretty-printing:
tokenize, parse, then execute over the data file. -/
def runCore (fuel : Nat) (file dataFile : List String) :
    Except PErr (ProgA × (ExecRes × EvalSt)) :=
  match parsePipeline fuel file with
  | .error e => .error e
  | .ok (p, env) => .ok (p, execProg fuel p (initEvalSt env dataFile))

/-! ## The pretty printer

Each function returns exactly the text its Python `print` method writes
to standard output (a Python `print` call appends a newline unless
`end = ''`).  The indent level that `StmtSeq`, `If`, and `Loop` store at
parse time is determined by nesting (the parser passes `1` for the
program body, `+ 1` inside `if`/`else` bodies, `+ 2` inside `while`
bodies); the print functions take that level as a parameter. -/

/-- `Prog.pretty_print_indent`. -/
def INDENT : String := "  "

/-- `IdList.print` (also used by `Decl.print` and `In`/`Out`). -/
def printIdList : List String → String
  | [] => ""
  | [x] => x
  | x :: rest => x ++ ", " ++ printIdList rest

/-- `Op.print` / `Fac.print` / `Exp.print` / `Int.print` /
`ParenthExp.print` / `Id.print`. -/
def printExp : Exp → String
  | .intL v => intRepr v
  | .idL x => x
  | .paren e => "( " ++ printExp e ++ " )"
  | .mul l r => printExp l ++ " * " ++ printExp r
  | .add l r => printExp l ++ " + " ++ printExp r
  | .sub l r => printExp l ++ " - " ++ printExp r

/-- The source text of a comparison operator (`SPECIAL[self._operator]`). -/
def cmpOpSym : CmpOp → String
  | .NOT_EQUAL => "!=" | .EQUAL => "==" | .LESS_THAN => "<"
  | .GREATER_THAN => ">" | .LESS_THAN_OR_EQUAL => "<="
  | .GREATER_THAN_OR_EQUAL => ">="

/-- `Cond.print` / `Comp.print` / `CompOp.print` (`CompOp.print` emits
the operator with one space on each side). -/
def printCond : Cond → String
  | .comp l o r =>
      "( " ++ printExp l ++ " " ++ cmpOpSym o ++ " " ++ printExp r ++ " )"
  | .notC c => "!" ++ printCond c
  | .andC l r => "[ " ++ printCond l ++ " && " ++ printCond r ++ " ]"
  | .orC l r => "[ " ++ printCond l ++ " || " ++ printCond r ++ " ]"

/-- `String.replicate`-style repetition of the indent unit
(`Prog.pretty_print_indent * level`). -/
def indStr : Nat → String
  | 0 => ""
  | n + 1 => INDENT ++ indStr n

mutual
/-- `Stmt.print` together with `Assign.print`, `If.print`,
`Loop.print`, `In.print`, and `Out.print` (the statement's own indent
is printed by `StmtSeq.print`). -/
def printStmt : Stmt → Nat → String
  | .assign _ x e, _ => x ++ " = " ++ printExp e ++ ";\n"
  | .readS _ ns, _ => "read " ++ printIdList ns ++ ";\n"
  | .writeS _ ns, _ => "write " ++ printIdList ns ++ ";\n"
  | .ifS _ c tb eb, lvl =>
      "if " ++ printCond c ++ " then\n" ++ printSeq tb (lvl + 1) ++
      (match eb with
       | some el => indStr lvl ++ "else\n" ++ printSeq el (lvl + 1)
       | none => "") ++
      indStr lvl ++ "end;\n"
  | .whileS _ c b, lvl =>
      "while " ++ printCond c ++ "\n" ++ indStr (lvl + 1) ++ "loop\n" ++
      printSeq b (lvl + 2) ++ indStr lvl ++ "end;\n"

/-- `StmtSeq.print`: the indent, the statement, then the rest. -/
def printSeq : List Stmt → Nat → String
  | [], _ => ""
  | s :: rest, lvl => indStr lvl ++ printStmt s lvl ++ printSeq rest lvl
end

/-- `Prog.print` together with `DeclSeq.print` and `Decl.print`. -/
def printProg (p : ProgA) : String :=
  "program\n" ++
  String.join (p.decls.map (fun ns => INDENT ++ "int " ++ printIdList ns ++ ";\n")) ++
  "begin\n" ++ printSeq p.body 1 ++ "end\n"

/-! ## Claim theorems -/

/-- The tokenizer state after EOF is materialized on an empty source
file: the EOF token is the sole current token and the stream is closed. -/
def eofTokSt : TokSt :=
  { lines := [], closed := true, lineNumber := 1, toks := [.EOF],
    tokenIndex := 0, eof := true }

/-- Claim C1, counterexample: in the state where the EOF token has just
been materialized (here reached from the empty source file),
`get_token` does return the EOF token, but already the first
`skip_token` call fails — it re-enters line tokenization, which reads
the stream that `_end_of_file` closed (a ValueError).  So it is not the
case that any number of further `skip_token` calls is allowed. -/
theorem C1_counterexample :
    mkTokenizer [] = .ok eofTokSt ∧ get_token eofTokSt = .ok .EOF ∧
    skip_token eofTokSt = .error .valueError :=
  ⟨rfl, rfl, rfl⟩

/-- Claim C1, amended: once the EOF token has been materialized,
`get_token` (which does not mutate the cursor) returns the EOF token —
and keeps doing so as long as the token is not skipped — but every
`skip_token` call in such a state fails with the closed-stream error
rather than yielding EOF again. -/
theorem C1_amended (lines : List String) (n : Nat) (closed : Bool) (st : TokSt)
    (h : tokenizeLines lines n closed = .ok st) (heof : st.eof = true) :
    get_token st = .ok .EOF ∧ skip_token st = .error .valueError := by
  induction lines generalizing n with
  | nil =>
      cases closed with
      | false =>
          simp only [tokenizeLines] at h
          cases h
          exact ⟨rfl, rfl⟩
      | true => simp [tokenizeLines] at h
  | cons l rest ih =>
      cases closed with
      | false =>
          simp only [tokenizeLines] at h
          by_cases hw : (lineLoop dfaStart l.data).2
          · rw [if_pos] at h
            · exact ih _ h
            · exact hw
          · rw [if_neg hw] at h
            cases h
            simp at heof
      | true => simp [tokenizeLines] at h

/-- Claim C1, witness for the amended theorem at the empty file. -/
theorem C1_amended_witness :
    get_token eofTokSt = .ok .EOF ∧ skip_token eofTokSt = .error .valueError :=
  C1_amended [] 0 false eofTokSt rfl rfl

/-- A state in which `X` is declared but uninitialized (with a parse
line recorded for statement line 1). -/
def c2env : Env :=
  [{ name := "X", initialized := false, value := 0, lineMap := [(some 1, 1)] }]

/-- `[ ( 1 < 2 ) || ( X < 1 ) ]` — the left disjunct is true, the right
one reads the uninitialized `X`. -/
def c2cond : Cond :=
  .orC (.comp (.intL 1) .LESS_THAN (.intL 2)) (.comp (.idL "X") .LESS_THAN (.intL 1))

/-- Claim C2, counterexample: on the condition
`[ ( 1 < 2 ) || ( X < 1 ) ]` in a state where `X` is uninitialized,
short-circuit evaluation (the source's) succeeds with `true` while
strict evaluation of both operands aborts with the
uninitialized-identifier runtime error, so the two strategies do not
yield the same observable outcome in every state. -/
theorem C2_counterexample :
    evalCond c2env 1 c2cond = .ok true ∧
    evalCondStrict c2env 1 c2cond = .error (.uninitId 1 "X") ∧
    evalCond c2env 1 c2cond ≠ evalCondStrict c2env 1 c2cond := by
  refine ⟨rfl, rfl, ?_⟩
  intro h
  rw [show evalCond c2env 1 c2cond = .ok true from rfl,
      show evalCondStrict c2env 1 c2cond = .error (.uninitId 1 "X") from rfl] at h
  exact Except.noConfusion h


theorem evalCond_and_unfold (env : Env) (line : Nat) (l r : Cond) :
    evalCond env line (.andC l r) =
      match evalCond env line l with
      | .error e => .error e
      | .ok a => if a then evalCond env line r else .ok false := by
  cases h : evalCond env line l <;> simp only [evalCond, bind, Except.bind, h]

theorem evalCond_or_unfold (env : Env) (line : Nat) (l r : Cond) :
    evalCond env line (.orC l r) =
      match evalCond env line l with
      | .error e => .error e
      | .ok a => if a then .ok true else evalCond env line r := by
  cases h : evalCond env line l <;> simp only [evalCond, bind, Except.bind, h]

theorem evalCond_not_unfold (env : Env) (line : Nat) (c : Cond) :
    evalCond env line (.notC c) =
      match evalCond env line c with
      | .error e => .error e
      | .ok b => .ok (!b) := by
  cases h : evalCond env line c <;> simp only [evalCond, bind, Except.bind, h]

theorem evalCondStrict_and_unfold (env : Env) (line : Nat) (l r : Cond) :
    evalCondStrict env line (.andC l r) =
      match evalCondStrict env line l with
      | .error e => .error e
      | .ok a =>
        match evalCondStrict env line r with
        | .error e => .error e
        | .ok b => .ok (a && b) := by
  cases h : evalCondStrict env line l <;> cases h2 : evalCondStrict env line r <;>
    simp only [evalCondStrict, bind, Except.bind, h, h2]

theorem evalCondStrict_or_unfold (env : Env) (line : Nat) (l r : Cond) :
    evalCondStrict env line (.orC l r) =
      match evalCondStrict env line l with
      | .error e => .error e
      | .ok a =>
        match evalCondStrict env line r with
        | .error e => .error e
        | .ok b => .ok (a || b) := by
  cases h : evalCondStrict env line l <;> cases h2 : evalCondStrict env line r <;>
    simp only [evalCondStrict, bind, Except.bind, h, h2]

theorem evalCondStrict_not_unfold (env : Env) (line : Nat) (c : Cond) :
    evalCondStrict env line (.notC c) =
      match evalCondStrict env line c with
      | .error e => .error e
      | .ok b => .ok (!b) := by
  cases h : evalCondStrict env line c <;> simp only [evalCondStrict, bind, Except.bind, h]

/-- Claim C2, amended: short-circuit and strict evaluation agree
whenever strict evaluation completes normally (they then return the
same boolean), and whenever short-circuit evaluation hits a runtime
error strict evaluation hits one too (possibly a different diagnostic,
since strict evaluation may surface an error that short-circuiting
masked in an earlier operand).  The divergence is exactly the one of
the counterexample: a skipped operand whose strict evaluation errs. -/
theorem C2_amended (env : Env) (line : Nat) (c : Cond) :
    (∀ b, evalCondStrict env line c = .ok b → evalCond env line c = .ok b) ∧
    (∀ e, evalCond env line c = .error e →
      ∃ e', evalCondStrict env line c = .error e') := by
  induction c with
  | comp l o r => exact ⟨fun b h => h, fun e h => ⟨e, h⟩⟩
  | notC c ih =>
      rw [evalCond_not_unfold, evalCondStrict_not_unfold]
      constructor
      · intro b h
        cases hc : evalCondStrict env line c with
        | error e => rw [hc] at h; simp at h
        | ok v => rw [hc] at h; rw [ih.1 v hc]; exact h
      · intro e h
        cases hc : evalCond env line c with
        | error e0 =>
            obtain ⟨e', he'⟩ := ih.2 e0 hc
            exact ⟨e', by rw [he']⟩
        | ok v => rw [hc] at h; simp at h
  | andC l r ihl ihr =>
      rw [evalCond_and_unfold, evalCondStrict_and_unfold]
      constructor
      · intro b h
        cases hl : evalCondStrict env line l with
        | error e => rw [hl] at h; simp at h
        | ok a =>
            rw [hl] at h
            cases hr : evalCondStrict env line r with
            | error e => rw [hr] at h; simp at h
            | ok b2 =>
                rw [hr] at h
                simp at h
                rw [ihl.1 a hl]
                cases a with
                | true =>
                    simp only [Bool.true_and] at h
                    subst h
                    simp [ihr.1 b2 hr]
                | false =>
                    simp only [Bool.false_and] at h
                    subst h
                    rfl
      · intro e h
        cases hl : evalCond env line l with
        | error e0 =>
            obtain ⟨e', he'⟩ := ihl.2 e0 hl
            exact ⟨e', by rw [he']⟩
        | ok a =>
            rw [hl] at h
            cases a with
            | false => simp at h
            | true =>
                simp at h
                obtain ⟨e', he'⟩ := ihr.2 e h
                cases hsl : evalCondStrict env line l with
                | error e1 => exact ⟨e1, rfl⟩
                | ok a1 => exact ⟨e', by rw [he']⟩
  | orC l r ihl ihr =>
      rw [evalCond_or_unfold, evalCondStrict_or_unfold]
      constructor
      · intro b h
        cases hl : evalCondStrict env line l with
        | error e => rw [hl] at h; simp at h
        | ok a =>
            rw [hl] at h
            cases hr : evalCondStrict env line r with
            | error e => rw [hr] at h; simp at h
            | ok b2 =>
                rw [hr] at h
                simp at h
                rw [ihl.1 a hl]
                cases a with
                | true =>
                    simp only [Bool.true_or] at h
                    subst h
                    rfl
                | false =>
                    simp only [Bool.false_or] at h
                    subst h
                    simp [ihr.1 b2 hr]
      · intro e h
        cases hl : evalCond env line l with
        | error e0 =>
            obtain ⟨e', he'⟩ := ihl.2 e0 hl
            exact ⟨e', by rw [he']⟩
        | ok a =>
            rw [hl] at h
            cases a with
            | true => simp at h
            | false =>
                simp at h
                obtain ⟨e', he'⟩ := ihr.2 e h
                cases hsl : evalCondStrict env line l with
                | error e1 => exact ⟨e1, rfl⟩
                | ok a1 => exact ⟨e', by rw [he']⟩

/-- Claim C2, witness for the amended theorem on `( 1 < 2 )`. -/
theorem C2_amended_witness :
    evalCond [] 1 (.comp (.intL 1) .LESS_THAN (.intL 2)) = .ok true :=
  (C2_amended [] 1 (.comp (.intL 1) .LESS_THAN (.intL 2))).1 true rfl

/-- Claim C10: `Assign.execute` evaluates the right-hand side completely
before calling `set_value`; if evaluation aborts with a runtime error
the whole evaluator state — in particular the target's value and
initialized flag — is exactly as before the statement, and on success
the single update is performed afterwards. -/
theorem C10_assign_eval_first (fuel line : Nat) (x : String) (e : Exp) (st : EvalSt) :
    (∀ er, evalExp st.env line e = .error er →
      execStmt (fuel + 1) (.assign line x e) st = (.err er, st)) ∧
    (∀ v, evalExp st.env line e = .ok v →
      execStmt (fuel + 1) (.assign line x e) st =
        (.ok, { st with env := envSet st.env x v })) := by
  constructor
  · intro er h
    simp only [execStmt, h]
  · intro v h
    simp only [execStmt, h]

/-- The evaluator state with `X` declared but uninitialized (parse line
1 recorded for statement line 1) and an empty data file. -/
def c10st : EvalSt :=
  initEvalSt [{ name := "X", initialized := false, value := 0, lineMap := [(some 1, 1)] }] []

/-- Claim C10, witness: `X = X + 1` with `X` uninitialized aborts with
the uninitialized-identifier error and leaves the state untouched,
while `X = 7` updates it. -/
theorem C10_assign_eval_first_witness :
    execStmt 1 (.assign 1 "X" (.add (.idL "X") (.intL 1))) c10st =
      (.err (.uninitId 1 "X"), c10st) ∧
    execStmt 1 (.assign 1 "X" (.intL 7)) c10st =
      (.ok, { c10st with env := envSet c10st.env "X" 7 }) :=
  ⟨(C10_assign_eval_first 0 1 "X" (.add (.idL "X") (.intL 1)) c10st).1
      (.uninitId 1 "X") rfl,
   (C10_assign_eval_first 0 1 "X" (.intL 7) c10st).2 7 rfl⟩

/-- The source file of the C3 counterexample: the `write` statement
begins on line 4, its identifier use `X` sits on line 5. -/
def c3file : List String :=
  ["program\n", "  int X;\n", "begin\n", "  write\n", "  X;\n", "end\n"]

/-- Claim C3, counterexample: for this program the statement containing
the uninitialized use begins at source line 4 (recorded in the parsed
`write` statement), but the fatal runtime error cites line 5 — the
tokenizer's line right after the identifier use was parsed — so the
cited line is not the line at which the statement begins. -/
theorem C3_counterexample :
    (runCore 100 c3file []).map (fun r => (r.1.body, r.2.1)) =
      .ok ([Stmt.writeS 4 ["X"]], .err (.uninitId 5 "X")) ∧ (5 : Nat) ≠ 4 :=
  ⟨rfl, by decide⟩

/-- Claim C3, amended: reading an uninitialized identifier aborts with a
fatal runtime error that names the identifier and cites the line the
parser recorded in the identifier's line map for the statement — the
tokenizer's current line immediately after that identifier use was
parsed (the statement's own line only when no line break intervenes).
Concretely, for `c3file` the map entry recorded for the statement
beginning at line 4 is line 5. -/
theorem C3_amended :
    (∀ (env : Env) (x : String) (line : Nat) (r : IdRec) (l : Nat),
      envFind env x = some r → r.initialized = false →
      lineMapGet r.lineMap (some line) = some l →
      getValue env x line = .error (.uninitId l r.name)) ∧
    (parsePipeline 100 c3file).map (fun p => p.2) =
      .ok [{ name := "X", initialized := false, value := 0,
             lineMap := [(none, 2), (some 4, 5)] }] := by
  constructor
  · intro env x line r l h1 h2 h3
    simp [getValue, h1, h2, h3]
  · rfl

/-- Claim C3, witness for the amended theorem: the uninitialized read of
`X` under the table produced by parsing `c3file` errs citing line 5. -/
theorem C3_amended_witness :
    getValue [{ name := "X", initialized := false, value := 0,
                lineMap := [(none, 2), (some 4, 5)] }] "X" 4 =
      .error (.uninitId 5 "X") :=
  C3_amended.1 _ "X" 4
    { name := "X", initialized := false, value := 0,
      lineMap := [(none, 2), (some 4, 5)] } 5 rfl rfl rfl

/-- Every character emitted by `natDigitsAux` is a decimal digit. -/
theorem natDigitsAux_digits (f n : Nat) : ∀ c ∈ natDigitsAux f n, c ∈ DECIMAL_DIGITS := by
  induction f generalizing n with
  | zero => simp [natDigitsAux]
  | succ f ih =>
      intro c hc
      simp only [natDigitsAux] at hc
      by_cases h : n < 10
      · rw [if_pos h] at hc
        simp at hc
        subst hc
        interval_cases n <;> decide
      · rw [if_neg h] at hc
        rcases List.mem_append.mp hc with h1 | h2
        · exact ih _ c h1
        · simp at h2
          subst h2
          have hm : n % 10 < 10 := Nat.mod_lt _ (by norm_num)
          interval_cases hmod : n % 10 <;> simp_all <;> decide

/-- The decimal accumulation step of the digit scanner. -/
def digitStep (a : Nat) (c : Char) : Nat := a * 10 + charVal c

/-- On an all-digit tail the scanner of `int()` folds up the decimal value. -/
theorem pyDigitsCore_digits (ds : List Char) :
    (∀ c ∈ ds, c ∈ DECIMAL_DIGITS) → ∀ acc,
      pyDigitsCore ds acc = some (ds.foldl digitStep acc) := by
  induction ds with
  | nil => intro _ acc; simp [pyDigitsCore]
  | cons c rest ih =>
      intro h acc
      have hc : c ∈ DECIMAL_DIGITS := h c (by simp)
      have hne : c ≠ '_' := by rintro rfl; revert hc; decide
      rw [pyDigitsCore.eq_def]
      simp only [if_neg hne, if_pos hc]
      rw [ih (fun x hx => h x (by simp [hx])) (acc * 10 + charVal c)]
      rfl

/-- With positive fuel, `natDigitsAux` emits at least one digit. -/
theorem natDigitsAux_length_pos (f n : Nat) : (natDigitsAux (f + 1) n).length > 0 := by
  simp only [natDigitsAux]
  by_cases h : n < 10 <;> simp [h]

/-- Folding the decimal steps over the digits of `n` recovers `n` (shifted
past the accumulator). -/
theorem natDigitsAux_foldl (f : Nat) : ∀ n, n < 10 ^ f → ∀ acc,
    (natDigitsAux f n).foldl digitStep acc =
      acc * 10 ^ (natDigitsAux f n).length + n := by
  induction f with
  | zero => intro n hn acc; interval_cases n; simp [natDigitsAux]
  | succ f ih =>
      intro n hn acc
      simp only [natDigitsAux]
      by_cases h : n < 10
      · rw [if_pos h]
        have : charVal (Char.ofNat (48 + n)) = n := by interval_cases n <;> decide
        simp [digitStep, this]
      · rw [if_neg h]
        have hdiv : n / 10 < 10 ^ f := by
          rw [pow_succ'] at hn
          exact Nat.div_lt_of_lt_mul hn
        have hm : charVal (Char.ofNat (48 + n % 10)) = n % 10 := by
          have : n % 10 < 10 := Nat.mod_lt _ (by norm_num)
          interval_cases hmod : n % 10 <;> simp_all <;> decide
        rw [List.foldl_append, ih (n / 10) hdiv acc]
        simp only [List.foldl_cons, List.foldl_nil, List.length_append,
          List.length_cons, List.length_nil, Nat.zero_add, digitStep, hm]
        have hdm : n / 10 * 10 + n % 10 = n := Nat.div_add_mod' n 10
        calc (acc * 10 ^ (natDigitsAux f (n / 10)).length + n / 10) * 10 + n % 10
            = acc * (10 ^ (natDigitsAux f (n / 10)).length * 10) +
                (n / 10 * 10 + n % 10) := by ring
          _ = acc * 10 ^ ((natDigitsAux f (n / 10)).length + 1) + n := by
                rw [hdm, pow_succ]

/-- Stripping whitespace from an all-digit list is the identity. -/
theorem dropWhile_digits (l : List Char) (h : ∀ c ∈ l, c ∈ DECIMAL_DIGITS) :
    l.dropWhile (· ∈ pyWs) = l := by
  cases l with
  | nil => rfl
  | cons c rest =>
      have hc : c ∈ DECIMAL_DIGITS := h c (by simp)
      have hnw : ¬ (c ∈ pyWs) := by fin_cases hc <;> decide
      simp [List.dropWhile_cons, hnw]

/-- Fuel adequacy for `natRepr`. -/
theorem natRepr_lt_pow (n : Nat) : n < 10 ^ (n + 1) :=
  lt_of_lt_of_le (Nat.lt_pow_self (by norm_num) n)
    (Nat.pow_le_pow_right (by norm_num) (Nat.le_succ n))

/-- Python `int()` parses Python's decimal rendering of `n` back to `n`. -/
theorem pyInt_natRepr (n : Nat) : pyInt (natRepr n) = some (Int.ofNat n) := by
  have hds : ∀ c ∈ natDigitsAux (n + 1) n, c ∈ DECIMAL_DIGITS :=
    natDigitsAux_digits _ _
  obtain ⟨c, rest, hcr⟩ : ∃ c rest, natDigitsAux (n + 1) n = c :: rest := by
    cases h : natDigitsAux (n + 1) n with
    | nil =>
        have := natDigitsAux_length_pos n n
        rw [h] at this
        simp at this
    | cons a l => exact ⟨a, l, rfl⟩
  have hrev : ∀ c' ∈ (natDigitsAux (n + 1) n).reverse, c' ∈ DECIMAL_DIGITS := by
    intro c' hc'
    exact hds c' (List.mem_reverse.mp hc')
  have hstrip :
      (((natRepr n).data.dropWhile (· ∈ pyWs)).reverse.dropWhile (· ∈ pyWs)).reverse =
        natDigitsAux (n + 1) n := by
    show (((natDigitsAux (n + 1) n).dropWhile (· ∈ pyWs)).reverse.dropWhile
        (· ∈ pyWs)).reverse = _
    rw [dropWhile_digits _ hds, dropWhile_digits _ hrev, List.reverse_reverse]
  rw [pyInt, hstrip, hcr]
  have hc : c ∈ DECIMAL_DIGITS := by
    have := hds c (by rw [hcr]; simp)
    exact this
  have hplus : ¬ (c = '+') := by fin_cases hc <;> decide
  have hminus : ¬ (c = '-') := by fin_cases hc <;> decide
  simp only [if_neg hplus, if_neg hminus]
  have hrest : ∀ x ∈ rest, x ∈ DECIMAL_DIGITS := by
    intro x hx
    exact hds x (by rw [hcr]; simp [hx])
  rw [show pyFirstDigit (c :: rest) =
        (if c ∈ DECIMAL_DIGITS then pyDigitsCore rest (charVal c) else none) from rfl]
  rw [if_pos hc, pyDigitsCore_digits rest hrest (charVal c)]
  have hfold : (c :: rest).foldl digitStep 0 = n := by
    rw [← hcr]
    have := natDigitsAux_foldl (n + 1) n (natRepr_lt_pow n) 0
    simpa using this
  rw [show rest.foldl digitStep (charVal c) = (c :: rest).foldl digitStep 0 by
        simp [digitStep]]
  rw [hfold]
  rfl

/-- In a clean DFA state, the two characters `<=` always lex as the single
less-than-or-equal token, whatever follows on the line. -/
theorem C8_le_general (rest : List Char) :
    (lineLoop dfaStart ('<' :: '=' :: rest)).1 =
      .LESS_THAN_OR_EQUAL :: (lineLoop { dfaStart with allWhite := false } rest).1 := by
  simp [lineLoop, dfaStart, specialBlock, legal_token, token_delimiter, specialTok,
    reservedFirstChars, specialFirstChars, RESERVED_WORDS, SPECIAL_SYMBOLS,
    WHITE_SPACE, DECIMAL_DIGITS, CAPITALS, SPECIAL_INTERMEDIATE_STATES,
    SPECIAL_AMBIGUOUS_FINAL_STATES]

/-- A cursor whose current line holds the tokens of `A - B - C ;`. -/
def subTokSt (a b c : Nat) : TokSt :=
  { lines := [], closed := false, lineNumber := 1,
    toks := [.INTEGER (natRepr a), .SUBTRACTION, .INTEGER (natRepr b),
             .SUBTRACTION, .INTEGER (natRepr c), .SEMICOLON],
    tokenIndex := 0, eof := false }

/-- `A - B - C` (as tokens, quantified over the literals) parses
right-recursively as `A - (B - C)` and evaluates accordingly. -/
theorem C5_right_assoc (a b c : Nat) :
    ∃ ps' : ParseSt,
      parseStep 9 (.exp 1) { tk := subTokSt a b c, ids := [], declPath := false } =
        .ok (.exp (.sub (.intL (Int.ofNat a))
          (.sub (.intL (Int.ofNat b)) (.intL (Int.ofNat c)))), ps') ∧
      evalExp [] 1 (.sub (.intL (Int.ofNat a))
          (.sub (.intL (Int.ofNat b)) (.intL (Int.ofNat c)))) =
        .ok ((a : Int) - ((b : Int) - (c : Int))) := by
  refine ⟨{ tk := { subTokSt a b c with tokenIndex := 5 }, ids := [],
            declPath := false }, ?_, rfl⟩
  simp [parseStep, checker, pGetTok, pSkip, get_token, skip_token, int_val,
    tokNum, subTokSt, tokenizeLines, pyInt_natRepr, bind, Except.bind]

/-- Claim C8: maximal munch.  `12AB` lexes as a single illegal token
(whose materialization through `get_token` aborts with the lexical
error), `AB12` as one identifier, `12 AB` as an integer followed by an
identifier; each two-character special symbol lexes as one token, and in
particular `<=` always wins over `<` then `=` on any line. -/
theorem C8_maximal_munch :
    lineLoop dfaStart "12AB\n".data = ([.ILLEGAL "12A"], false) ∧
    (mkTokenizer ["12AB\n"]).map (fun st => get_token st) =
      .ok (.error (.illegalTok 1 "12A")) ∧
    lineLoop dfaStart "AB12\n".data = ([.IDENTIFIER "AB12"], false) ∧
    lineLoop dfaStart "12 AB\n".data = ([.INTEGER "12", .IDENTIFIER "AB"], false) ∧
    lineLoop dfaStart "<=\n".data = ([.LESS_THAN_OR_EQUAL], false) ∧
    lineLoop dfaStart "!=\n".data = ([.NOT_EQUAL], false) ∧
    lineLoop dfaStart "==\n".data = ([.EQUAL], false) ∧
    lineLoop dfaStart ">=\n".data = ([.GREATER_THAN_OR_EQUAL], false) ∧
    lineLoop dfaStart "&&\n".data = ([.LOGICAL_AND], false) ∧
    lineLoop dfaStart "||\n".data = ([.LOGICAL_OR], false) ∧
    (∀ rest : List Char, (lineLoop dfaStart ('<' :: '=' :: rest)).1 =
      .LESS_THAN_OR_EQUAL :: (lineLoop { dfaStart with allWhite := false } rest).1) :=
  ⟨rfl, rfl, rfl, rfl, rfl, rfl, rfl, rfl, rfl, rfl, C8_le_general⟩

/-- Claim C5: `+`, `-`, `*` parse and evaluate right-recursively —
`A - B - C` comes out as `A - (B - C)` for all literals — `*` binds
tighter than `+`/`-` and parentheses override (`2 + 3 * 4` gives 14,
`( 2 + 3 ) * 4` gives 20), and the spec's arithmetic program prints
`X = 14` then `Y = 13` and exits normally. -/
theorem C5_exp_grammar_semantics :
    (∀ a b c : Nat, ∃ ps' : ParseSt,
      parseStep 9 (.exp 1) { tk := subTokSt a b c, ids := [], declPath := false } =
        .ok (.exp (.sub (.intL (Int.ofNat a))
          (.sub (.intL (Int.ofNat b)) (.intL (Int.ofNat c)))), ps') ∧
      evalExp [] 1 (.sub (.intL (Int.ofNat a))
          (.sub (.intL (Int.ofNat b)) (.intL (Int.ofNat c)))) =
        .ok ((a : Int) - ((b : Int) - (c : Int)))) ∧
    (runCore 100 ["program int X, Y; begin X = 2 + 3 * 4; Y = X - 1; write X, Y; end\n"]
        []).map (fun r => (r.2.1, r.2.2.out)) =
      .ok (.ok, ["", bannerLine, "X = 14", "Y = 13"]) ∧
    (runCore 100 ["program int X; begin X = ( 2 + 3 ) * 4; write X; end\n"]
        []).map (fun r => (r.2.1, r.2.2.out)) =
      .ok (.ok, ["", bannerLine, "X = 20"]) :=
  ⟨C5_right_assoc, rfl, rfl⟩

/-- Whether an identifier is initialized in the table. -/
def idInit (env : Env) (x : String) : Bool :=
  match envFind env x with
  | some r => r.initialized
  | none => false

/-- `set_value` on `x` updates exactly `x`'s record. -/
theorem envFind_envSet_self (env : Env) (x : String) (v : Int) :
    envFind (envSet env x v) x =
      (envFind env x).map (fun r => { r with initialized := true, value := v }) := by
  induction env with
  | nil => rfl
  | cons r rest ih =>
      simp only [envSet, List.map_cons]
      by_cases h : r.name = x
      · simp only [if_pos h, envFind, List.find?_cons]
        simp [h]
      · simp only [if_neg h, envFind, List.find?_cons, decide_eq_false h]
        simpa [envFind, envSet] using ih

/-- `set_value` on another identifier leaves `x`'s record unchanged. -/
theorem envFind_envSet_other (env : Env) (x y : String) (v : Int) (h : y ≠ x) :
    envFind (envSet env y v) x = envFind env x := by
  induction env with
  | nil => rfl
  | cons r rest ih =>
      simp only [envSet, List.map_cons]
      by_cases hr : r.name = y
      · have hrx : ¬ (r.name = x) := by rw [hr]; exact h
        simp only [if_pos hr, envFind, List.find?_cons, decide_eq_false h,
          decide_eq_false hrx]
        simpa [envFind, envSet] using ih
      · simp only [if_neg hr, envFind, List.find?_cons]
        by_cases hrx : r.name = x
        · simp [hrx]
        · simp only [decide_eq_false hrx]
          simpa [envFind, envSet] using ih

/-- Initialization flags only ever grow. -/
def envLe (e1 e2 : Env) : Prop :=
  ∀ x, idInit e1 x = true → idInit e2 x = true

theorem envLe_refl (e : Env) : envLe e e := fun _ h => h

theorem envLe_trans {e1 e2 e3 : Env} (h1 : envLe e1 e2) (h2 : envLe e2 e3) :
    envLe e1 e3 := fun x h => h2 x (h1 x h)

/-- `set_value` only raises initialized flags. -/
theorem envLe_envSet (env : Env) (x : String) (v : Int) :
    envLe env (envSet env x v) := by
  intro y hy
  unfold idInit at hy ⊢
  by_cases hxy : y = x
  · subst hxy
    rw [envFind_envSet_self]
    cases h : envFind env y with
    | none => rw [h] at hy; exact absurd hy (by simp)
    | some r => simp
  · rw [envFind_envSet_other env y x v (fun he => hxy he.symm)]
    exact hy

/-- `read` execution only raises initialized flags. -/
theorem readIds_envLe (xs : List String) (st : EvalSt) :
    envLe st.env (readIds xs st).2.env := by
  induction xs generalizing st with
  | nil => exact envLe_refl _
  | cons x rest ih =>
      obtain ⟨env, data, out, isOut⟩ := st
      cases data with
      | nil => exact envLe_refl _
      | cons line drest =>
          by_cases h0 : line = ""
          · simp [readIds, h0]
            exact envLe_refl _
          · by_cases h1 : line = "\n"
            · simp [readIds, h0, h1]
              exact envLe_refl _
            · cases hp : pyInt line with
              | none =>
                  simp [readIds, h0, h1, hp]
                  exact envLe_refl _
              | some v =>
                  simp only [readIds, if_neg h0, if_neg h1, hp]
                  exact envLe_trans (envLe_envSet env x v)
                    (ih { env := envSet env x v, data := drest, out := out,
                          isOutput := isOut })

/-- `write` execution never touches the identifier table. -/
theorem writeIds_env_eq (line : Nat) (xs : List String) (st : EvalSt) :
    (writeIds line xs st).2.env = st.env := by
  induction xs generalizing st with
  | nil => rfl
  | cons x rest ih =>
      obtain ⟨env, data, out, isOut⟩ := st
      cases isOut with
      | true =>
          cases hg : getValue env x line with
          | error e => simp [writeIds, hg]
          | ok v => simp [writeIds, hg, ih]
      | false =>
          cases hg : getValue env x line with
          | error e => simp [writeIds, hg]
          | ok v => simp [writeIds, hg, ih]

/-- Statement sequences preserve flag monotonicity of their step. -/
theorem runList_envLe (f : Stmt → EvalSt → ExecRes × EvalSt)
    (hf : ∀ s st, envLe st.env (f s st).2.env) :
    ∀ ss st, envLe st.env (runList f ss st).2.env := by
  intro ss
  induction ss with
  | nil => intro st; exact envLe_refl _
  | cons s rest ih =>
      intro st
      simp only [runList]
      split
      · rename_i st' heq
        exact envLe_trans (by simpa [heq] using hf s st) (ih st')
      · exact hf s st

/-- No statement execution ever lowers an initialized flag. -/
theorem execStmt_envLe : ∀ (fuel : Nat) (s : Stmt) (st : EvalSt),
    envLe st.env (execStmt fuel s st).2.env := by
  intro fuel
  induction fuel with
  | zero => intro s st; exact envLe_refl _
  | succ fuel ih =>
      intro s st
      cases s with
      | assign line x e =>
          simp only [execStmt]
          split
          · exact envLe_refl _
          · exact envLe_envSet _ _ _
      | ifS line c tb eb =>
          simp only [execStmt]
          split
          · exact envLe_refl _
          · exact runList_envLe _ ih tb st
          · cases eb with
            | some el => exact runList_envLe _ ih el st
            | none => exact envLe_refl _
      | whileS line c b =>
          simp only [execStmt]
          split
          · exact envLe_refl _
          · exact envLe_refl _
          · split
            · rename_i st' heq
              exact envLe_trans (by simpa [heq] using runList_envLe _ ih b st)
                (ih _ st')
            · exact runList_envLe _ ih b st
      | readS line xs => exact readIds_envLe xs st
      | writeS line xs =>
          have := writeIds_env_eq line xs st
          intro x hx
          rw [show (execStmt (fuel + 1) (.writeS line xs) st).2.env =
            (writeIds line xs st).2.env from rfl, this]
          exact hx

mutual
/-- Whether a statement assigns or reads into identifier `x` anywhere
(the two operations that call `Id.set_value`). -/
def stmtWrites : Stmt → String → Bool
  | .assign _ t _, x => t == x
  | .ifS _ _ tb eb, x =>
      seqWrites tb x ||
        (match eb with
         | some el => seqWrites el x
         | none => false)
  | .whileS _ _ b, x => seqWrites b x
  | .readS _ ns, x => ns.contains x
  | .writeS _ _, _ => false

/-- `stmtWrites` over a statement sequence. -/
def seqWrites : List Stmt → String → Bool
  | [], _ => false
  | s :: rest, x => stmtWrites s x || seqWrites rest x
end

/-- A `read` whose target list avoids `x` leaves `x`'s record unchanged. -/
theorem readIds_frame (xs : List String) (x : String) (st : EvalSt)
    (h : xs.contains x = false) :
    envFind (readIds xs st).2.env x = envFind st.env x := by
  induction xs generalizing st with
  | nil => rfl
  | cons y rest ih =>
      have hy : ¬ (y = x) := by
        intro he
        rw [List.contains_cons, he] at h
        simp at h
      have hrest : rest.contains x = false := by
        rw [List.contains_cons] at h
        exact (Bool.or_eq_false_iff.mp h).2
      obtain ⟨env, data, out, isOut⟩ := st
      cases data with
      | nil => rfl
      | cons line drest =>
          by_cases h0 : line = ""
          · simp [readIds, h0]
          · by_cases h1 : line = "\n"
            · simp [readIds, h0, h1]
            · cases hp : pyInt line with
              | none => simp [readIds, h0, h1, hp]
              | some v =>
                  simp only [readIds, if_neg h0, if_neg h1, hp]
                  rw [ih { env := envSet env y v, data := drest, out := out,
                           isOutput := isOut } hrest]
                  exact envFind_envSet_other env x y v hy

/-- Frame property of statement sequences. -/
theorem runList_frame (f : Stmt → EvalSt → ExecRes × EvalSt) (x : String)
    (hf : ∀ s st, stmtWrites s x = false → envFind (f s st).2.env x = envFind st.env x) :
    ∀ ss st, seqWrites ss x = false →
      envFind (runList f ss st).2.env x = envFind st.env x := by
  intro ss
  induction ss with
  | nil => intro st _; rfl
  | cons s rest ih =>
      intro st h
      rw [seqWrites.eq_def] at h
      obtain ⟨h1, h2⟩ := Bool.or_eq_false_iff.mp h
      simp only [runList]
      split
      · rename_i st' heq
        rw [ih st' h2]
        have := hf s st h1
        rw [heq] at this
        exact this
      · exact hf s st h1

/-- Executing a statement that never assigns or reads into `x` leaves
`x`'s record unchanged. -/
theorem execStmt_frame : ∀ (fuel : Nat) (s : Stmt) (st : EvalSt) (x : String),
    stmtWrites s x = false →
    envFind (execStmt fuel s st).2.env x = envFind st.env x := by
  intro fuel
  induction fuel with
  | zero => intro s st x _; rfl
  | succ fuel ih =>
      intro s st x h
      cases s with
      | assign line t e =>
          rw [stmtWrites.eq_def] at h
          have ht : ¬ (t = x) := by
            intro he
            rw [he] at h
            simp at h
          simp only [execStmt]
          split
          · rfl
          · exact envFind_envSet_other st.env x t _ ht
      | ifS line c tb eb =>
          rw [stmtWrites.eq_def] at h
          obtain ⟨h1, h2⟩ := Bool.or_eq_false_iff.mp h
          simp only [execStmt]
          split
          · rfl
          · exact runList_frame _ x (fun s st hs => ih s st x hs) tb st h1
          · cases eb with
            | some el =>
                exact runList_frame _ x (fun s st hs => ih s st x hs) el st h2
            | none => rfl
      | whileS line c b =>
          rw [stmtWrites.eq_def] at h
          simp only [execStmt]
          split
          · rfl
          · rfl
          · split
            · rename_i st' heq
              rw [ih _ st' x (by rw [stmtWrites.eq_def]; exact h)]
              have := runList_frame _ x (fun s st hs => ih s st x hs) b st h
              rw [heq] at this
              exact this
            · exact runList_frame _ x (fun s st hs => ih s st x hs) b st h
      | readS line xs =>
          rw [stmtWrites.eq_def] at h
          exact readIds_frame xs x st h
      | writeS line xs =>
          rw [show (execStmt (fuel + 1) (.writeS line xs) st).2.env =
            (writeIds line xs st).2.env from rfl, writeIds_env_eq]

/-- Claim C9: (a) after `set_value` the identifier reads back exactly
the assigned value; (b) the initialized flag never reverts to false
under any statement execution; (c) executing a statement that contains
no assignment or `read` targeting `x` leaves `x`'s record (initialized
flag and value) untouched — so the assigned value persists until the
next assignment or read of `x`. -/
theorem C9_symbol_invariants :
    (∀ (env : Env) (x : String) (v : Int) (r : IdRec) (line : Nat),
      envFind env x = some r → getValue (envSet env x v) x line = .ok v) ∧
    (∀ (fuel : Nat) (s : Stmt) (st : EvalSt) (x : String),
      idInit st.env x = true → idInit (execStmt fuel s st).2.env x = true) ∧
    (∀ (fuel : Nat) (s : Stmt) (st : EvalSt) (x : String),
      stmtWrites s x = false →
      envFind (execStmt fuel s st).2.env x = envFind st.env x) := by
  refine ⟨?_, ?_, ?_⟩
  · intro env x v r line h
    unfold getValue
    rw [envFind_envSet_self, h]
    simp
  · intro fuel s st x hx
    exact execStmt_envLe fuel s st x hx
  · intro fuel s st x h
    exact execStmt_frame fuel s st x h

/-- Claim C9, witness: with `X` and `Y` declared and `Y` initialized to
3, setting `X := 5` reads back 5; executing `write X` preserves `Y`'s
initialized flag; and executing `X = 1;` (which does not write `Y`)
leaves `Y`'s record unchanged. -/
theorem C9_symbol_invariants_witness :
    getValue (envSet [{ name := "X", initialized := false, value := 0, lineMap := [] },
                      { name := "Y", initialized := true, value := 3, lineMap := [] }] "X" 5)
        "X" 1 = .ok 5 ∧
    idInit (execStmt 1 (.writeS 1 ["X"])
      (initEvalSt [{ name := "X", initialized := false, value := 0, lineMap := [] },
                   { name := "Y", initialized := true, value := 3, lineMap := [] }] [])).2.env
      "Y" = true ∧
    envFind (execStmt 1 (.assign 1 "X" (.intL 1))
      (initEvalSt [{ name := "X", initialized := false, value := 0, lineMap := [] },
                   { name := "Y", initialized := true, value := 3, lineMap := [] }] [])).2.env
      "Y" =
      some { name := "Y", initialized := true, value := 3, lineMap := [] } :=
  ⟨C9_symbol_invariants.1 _ "X" 5
      { name := "X", initialized := false, value := 0, lineMap := [] } 1 rfl,
   C9_symbol_invariants.2.1 1 (.writeS 1 ["X"]) _ "Y" rfl,
   by
     rw [C9_symbol_invariants.2.2 1 (.assign 1 "X" (.intL 1)) _ "Y"
       (by rw [stmtWrites.eq_def]; rfl)]
     rfl⟩

/-- A data line that a `read` target consumes successfully: not the
end-of-stream marker, not a bare newline, and parsed by `int()`. -/
def goodLine (l : String) : Prop := l ≠ "" ∧ l ≠ "\n" ∧ (pyInt l).isSome

/-- The runtime error a bad data line produces. -/
def lineErr (l : String) : RtErr :=
  if l = "" then .inputEof
  else if l = "\n" then .inputEmptyLine
  else .inputInvalidLine l

/-- The table update a successful `read` performs: targets and consumed
lines in lockstep, left to right. -/
def readFold : Env → List String → List String → Env
  | env, x :: xs, l :: ls => readFold (envSet env x ((pyInt l).getD 0)) xs ls
  | env, _, _ => env

/-- `readFold` only raises initialized flags. -/
theorem readFold_envLe : ∀ (xs ls : List String) (env : Env),
    envLe env (readFold env xs ls) := by
  intro xs
  induction xs with
  | nil => intro ls env; exact envLe_refl _
  | cons x rest ih =>
      intro ls env
      cases ls with
      | nil => exact envLe_refl _
      | cons l ls' =>
          exact envLe_trans (envLe_envSet env x _) (ih ls' _)

/-- `set_value` preserves presence in the table. -/
theorem envFind_isSome_envSet (env : Env) (x y : String) (v : Int)
    (h : (envFind env x).isSome) : (envFind (envSet env y v) x).isSome := by
  by_cases hxy : y = x
  · subst hxy
    rw [envFind_envSet_self]
    cases he : envFind env y with
    | none => rw [he] at h; simp at h
    | some r => simp
  · rw [envFind_envSet_other env x y v hxy]
    exact h

/-- Every target covered by consumed lines ends up initialized. -/
theorem readFold_init : ∀ (xs ls : List String) (env : Env) (x : String),
    x ∈ xs → xs.length ≤ ls.length → (envFind env x).isSome →
    idInit (readFold env xs ls) x = true := by
  intro xs
  induction xs with
  | nil => intro ls env x hx; simp at hx
  | cons y rest ih =>
      intro ls env x hx hlen hsome
      cases ls with
      | nil => simp at hlen
      | cons l ls' =>
          rcases List.mem_cons.mp hx with hxy | hxr
          · subst hxy
            refine readFold_envLe rest ls' (envSet env x _) x ?_
            unfold idInit
            rw [envFind_envSet_self]
            cases he : envFind env x with
            | none => rw [he] at hsome; simp at hsome
            | some r => simp
          · exact ih ls' (envSet env y _) x hxr (by simpa using hlen)
              (envFind_isSome_envSet env x y _ hsome)

/-- Success case of `read` execution: one line per target, in order. -/
theorem readIds_ok : ∀ (xs : List String) (st : EvalSt),
    xs.length ≤ st.data.length →
    (∀ l ∈ st.data.take xs.length, goodLine l) →
    readIds xs st =
      (.ok, { st with data := st.data.drop xs.length,
                      env := readFold st.env xs (st.data.take xs.length) }) := by
  intro xs
  induction xs with
  | nil =>
      intro st _ _
      simp [readIds, readFold]
  | cons x rest ih =>
      intro st hlen hgood
      obtain ⟨env, data, out, isOut⟩ := st
      cases data with
      | nil => simp at hlen
      | cons line drest =>
          have hg : goodLine line := hgood line (by simp)
          obtain ⟨h0, h1, h2⟩ := hg
          obtain ⟨v, hv⟩ := Option.isSome_iff_exists.mp h2
          simp only [readIds, if_neg h0, if_neg h1, hv]
          rw [ih { env := envSet env x v, data := drest, out := out, isOutput := isOut }
            (by simpa using hlen)
            (by
              intro l hl
              exact hgood l (by simpa using List.mem_cons_of_mem line hl))]
          simp only [List.length_cons, List.drop_succ_cons, List.take_succ_cons]
          rw [show readFold env (x :: rest) (line :: drest.take rest.length) =
            readFold (envSet env x ((pyInt line).getD 0)) rest (drest.take rest.length)
            from rfl]
          rw [hv]
          rfl

/-- An exhausted data stream aborts a `read` with the input-eof error. -/
theorem readIds_eof : ∀ (xs : List String) (st : EvalSt),
    (∀ l ∈ st.data, goodLine l) → st.data.length < xs.length →
    (readIds xs st).1 = .err .inputEof := by
  intro xs
  induction xs with
  | nil => intro st _ h; simp at h
  | cons x rest ih =>
      intro st hgood hlen
      obtain ⟨env, data, out, isOut⟩ := st
      cases data with
      | nil => rfl
      | cons line drest =>
          have hg : goodLine line := hgood line (by simp)
          obtain ⟨h0, h1, h2⟩ := hg
          obtain ⟨v, hv⟩ := Option.isSome_iff_exists.mp h2
          simp only [readIds, if_neg h0, if_neg h1, hv]
          exact ih { env := envSet env x v, data := drest, out := out, isOutput := isOut }
            (fun l hl => hgood l (by simpa using List.mem_cons_of_mem line hl))
            (by simpa using Nat.lt_of_succ_lt_succ (by simpa using hlen))

/-- The first bad data line aborts a `read` with the matching error. -/
theorem readIds_badline : ∀ (xs : List String) (st : EvalSt)
    (pre : List String) (l : String) (post : List String),
    st.data = pre ++ l :: post → pre.length < xs.length →
    (∀ m ∈ pre, goodLine m) → ¬ goodLine l →
    (readIds xs st).1 = .err (lineErr l) := by
  intro xs
  induction xs with
  | nil => intro st pre l post _ h _ _; simp at h
  | cons x rest ih =>
      intro st pre l post hdata hlen hpre hbad
      obtain ⟨env, data, out, isOut⟩ := st
      simp only at hdata
      subst hdata
      cases pre with
      | nil =>
          simp only [List.nil_append]
          by_cases h0 : l = ""
          · simp [readIds, h0, lineErr]
          · by_cases h1 : l = "\n"
            · simp [readIds, h0, h1, lineErr]
            · have h2 : pyInt l = none := by
                cases hp : pyInt l with
                | none => rfl
                | some v => exact absurd ⟨h0, h1, by rw [hp]; rfl⟩ hbad
              simp [readIds, h0, h1, h2, lineErr]
      | cons p pre' =>
          have hg : goodLine p := hpre p (by simp)
          obtain ⟨h0, h1, h2⟩ := hg
          obtain ⟨v, hv⟩ := Option.isSome_iff_exists.mp h2
          simp only [List.cons_append, readIds, if_neg h0, if_neg h1, hv]
          exact ih { env := envSet env x v, data := pre' ++ l :: post, out := out,
                     isOutput := isOut } pre' l post rfl
            (by simpa using Nat.lt_of_succ_lt_succ (by simpa using hlen))
            (fun m hm => hpre m (by simp [hm])) hbad

/-- Claim C4: executing a `read` with targets `xs` consumes exactly one
data line per target in left-to-right order — on success the stream
advances by `xs.length` and each target receives its line's parsed
value (and is marked initialized); when the stream is exhausted before
the targets are the run aborts with the input-eof error; and at the
first bad line the run aborts with the matching error (input-eof for an
empty read, empty-line for a bare newline, invalid-line otherwise), all
fatal. -/
theorem C4_read_statement (xs : List String) (st : EvalSt) :
    (xs.length ≤ st.data.length →
      (∀ l ∈ st.data.take xs.length, goodLine l) →
      readIds xs st =
        (.ok, { st with data := st.data.drop xs.length,
                        env := readFold st.env xs (st.data.take xs.length) })) ∧
    (xs.length ≤ st.data.length →
      (∀ l ∈ st.data.take xs.length, goodLine l) →
      ∀ x ∈ xs, (envFind st.env x).isSome →
        idInit (readIds xs st).2.env x = true) ∧
    ((∀ l ∈ st.data, goodLine l) → st.data.length < xs.length →
      (readIds xs st).1 = .err .inputEof) ∧
    (∀ pre l post, st.data = pre ++ l :: post → pre.length < xs.length →
      (∀ m ∈ pre, goodLine m) → ¬ goodLine l →
      (readIds xs st).1 = .err (lineErr l)) := by
  refine ⟨readIds_ok xs st, ?_, readIds_eof xs st, readIds_badline xs st⟩
  intro hlen hgood x hx hsome
  rw [readIds_ok xs st hlen hgood]
  exact readFold_init xs (st.data.take xs.length) st.env x hx
    (by simp [List.length_take]; omega) hsome

/-- Claim C4, witness: reading `X, Y` from the data lines `5` and `-7`
consumes both lines and initializes both targets; from a single line it
aborts with input-eof; and with a bare-newline second line it aborts
with the empty-line error. -/
theorem C4_read_statement_witness :
    readIds ["X", "Y"]
      (initEvalSt [{ name := "X", initialized := false, value := 0, lineMap := [] },
                   { name := "Y", initialized := false, value := 0, lineMap := [] }]
        ["5\n", "-7\n"]) =
      (.ok, { initEvalSt
                [{ name := "X", initialized := false, value := 0, lineMap := [] },
                 { name := "Y", initialized := false, value := 0, lineMap := [] }]
                ["5\n", "-7\n"] with
              data := [],
              env := readFold
                [{ name := "X", initialized := false, value := 0, lineMap := [] },
                 { name := "Y", initialized := false, value := 0, lineMap := [] }]
                ["X", "Y"] ["5\n", "-7\n"] }) ∧
    idInit (readIds ["X", "Y"]
      (initEvalSt [{ name := "X", initialized := false, value := 0, lineMap := [] },
                   { name := "Y", initialized := false, value := 0, lineMap := [] }]
        ["5\n", "-7\n"])).2.env "Y" = true ∧
    (readIds ["X", "Y"]
      (initEvalSt [{ name := "X", initialized := false, value := 0, lineMap := [] },
                   { name := "Y", initialized := false, value := 0, lineMap := [] }]
        ["5\n"])).1 = .err .inputEof ∧
    (readIds ["X", "Y"]
      (initEvalSt [{ name := "X", initialized := false, value := 0, lineMap := [] },
                   { name := "Y", initialized := false, value := 0, lineMap := [] }]
        ["5\n", "\n"])).1 = .err .inputEmptyLine := by
  refine ⟨(C4_read_statement _ _).1 (by decide) ?_,
          (C4_read_statement _ _).2.1 (by decide) ?_ "Y" (by decide) (by decide),
          (C4_read_statement _ _).2.2.1 ?_ (by decide),
          ?_⟩
  · intro l hl
    fin_cases hl <;> exact ⟨by decide, by decide, by decide⟩
  · intro l hl
    fin_cases hl <;> exact ⟨by decide, by decide, by decide⟩
  · intro l hl
    fin_cases hl <;> exact ⟨by decide, by decide, by decide⟩
  · have := (C4_read_statement ["X", "Y"]
      (initEvalSt [{ name := "X", initialized := false, value := 0, lineMap := [] },
                   { name := "Y", initialized := false, value := 0, lineMap := [] }]
        ["5\n", "\n"])).2.2.2 ["5\n"] "\n" [] rfl (by decide) ?_ ?_
    · simpa [lineErr] using this
    · intro m hm
      fin_cases hm
      exact ⟨by decide, by decide, by decide⟩
    · intro hg
      exact absurd rfl hg.2.1

/-- A program-output line as `IdList.execute` prints it. -/
def IsWriteLine (w : String) : Prop := ∃ x v, w = x ++ " = " ++ intRepr v

/-- The output invariant: before the first `write` nothing has been
printed; afterwards the output is a blank line, the banner, and
program-output lines only. -/
def WriteInv (st : EvalSt) : Prop :=
  (st.isOutput = false ∧ st.out = []) ∨
  (st.isOutput = true ∧ ∃ ws, st.out = "" :: bannerLine :: ws ∧ ∀ w ∈ ws, IsWriteLine w)

/-- The banner is not of `NAME = VALUE` shape (it contains no space-equals). -/
theorem banner_not_writeline : ¬ IsWriteLine bannerLine := by
  rintro ⟨x, v, h⟩
  have hmem : '=' ∈ bannerLine.data := by
    rw [h]
    simp only [String.data_append]
    refine List.mem_append.mpr (.inl (List.mem_append.mpr (.inr ?_)))
    decide
  revert hmem
  decide

/-- `read` execution prints nothing. -/
theorem readIds_out_eq (xs : List String) (st : EvalSt) :
    (readIds xs st).2.out = st.out ∧ (readIds xs st).2.isOutput = st.isOutput := by
  induction xs generalizing st with
  | nil => exact ⟨rfl, rfl⟩
  | cons x rest ih =>
      obtain ⟨env, data, out, isOut⟩ := st
      cases data with
      | nil => exact ⟨rfl, rfl⟩
      | cons line drest =>
          by_cases h0 : line = ""
          · simp [readIds, h0]
          · by_cases h1 : line = "\n"
            · simp [readIds, h0, h1]
            · cases hp : pyInt line with
              | none => simp [readIds, h0, h1, hp]
              | some v =>
                  simp only [readIds, if_neg h0, if_neg h1, hp]
                  exact ih _

/-- `write` execution preserves the output invariant. -/
theorem writeIds_inv (line : Nat) (xs : List String) (st : EvalSt)
    (h : WriteInv st) : WriteInv (writeIds line xs st).2 := by
  induction xs generalizing st with
  | nil => exact h
  | cons x rest ih =>
      obtain ⟨env, data, out, isOut⟩ := st
      cases isOut with
      | true =>
          obtain ⟨-, ws, hws, hall⟩ := h.resolve_left (by simp)
          simp only [writeIds, Bool.not_true]
          split
          · exact .inr ⟨rfl, ws, by simpa using hws, hall⟩
          · rename_i v heq
            refine ih _ (.inr ⟨rfl, ws ++ [x ++ " = " ++ intRepr v], ?_, ?_⟩)
            · simp [hws]
            · intro w hw
              rcases List.mem_append.mp hw with h1 | h2
              · exact hall w h1
              · simp at h2
                exact ⟨x, v, h2⟩
      | false =>
          obtain ⟨-, hout⟩ := h.resolve_right (by simp)
          subst hout
          simp only [writeIds, Bool.not_false]
          split
          · exact .inr ⟨rfl, [], by simp, by simp⟩
          · rename_i v heq
            refine ih _ (.inr ⟨rfl, [x ++ " = " ++ intRepr v], by simp, ?_⟩)
            intro w hw
            simp at hw
            exact ⟨x, v, hw⟩

/-- The output invariant only depends on the output fields. -/
theorem WriteInv_of_eq {a b : EvalSt} (h1 : a.out = b.out)
    (h2 : a.isOutput = b.isOutput) (h : WriteInv b) : WriteInv a := by
  unfold WriteInv at h ⊢
  rw [h1, h2]
  exact h

/-- Statement sequences preserve the output invariant of their step. -/
theorem runList_inv (f : Stmt → EvalSt → ExecRes × EvalSt)
    (hf : ∀ s st, WriteInv st → WriteInv (f s st).2) :
    ∀ ss st, WriteInv st → WriteInv (runList f ss st).2 := by
  intro ss
  induction ss with
  | nil => intro st h; exact h
  | cons s rest ih =>
      intro st h
      simp only [runList]
      split
      · rename_i st' heq
        refine ih st' ?_
        have := hf s st h
        rw [heq] at this
        exact this
      · exact hf s st h

/-- Every statement execution preserves the output invariant. -/
theorem execStmt_inv : ∀ (fuel : Nat) (s : Stmt) (st : EvalSt),
    WriteInv st → WriteInv (execStmt fuel s st).2 := by
  intro fuel
  induction fuel with
  | zero => intro s st h; exact h
  | succ fuel ih =>
      intro s st h
      cases s with
      | assign line t e =>
          simp only [execStmt]
          split
          · exact h
          · exact WriteInv_of_eq rfl rfl h
      | ifS line c tb eb =>
          simp only [execStmt]
          split
          · exact h
          · exact runList_inv _ ih tb st h
          · cases eb with
            | some el => exact runList_inv _ ih el st h
            | none => exact h
      | whileS line c b =>
          simp only [execStmt]
          split
          · exact h
          · exact h
          · split
            · rename_i st' heq
              refine ih _ st' ?_
              have := runList_inv _ ih b st h
              rw [heq] at this
              exact this
            · exact runList_inv _ ih b st h
      | readS line xs =>
          exact WriteInv_of_eq (readIds_out_eq xs st).1 (readIds_out_eq xs st).2 h
      | writeS line xs => exact writeIds_inv line xs st h

/-- The stored value of a declared identifier. -/
def valOf (env : Env) (x : String) : Int :=
  match envFind env x with
  | some r => r.value
  | none => 0

/-- Reading an initialized identifier yields its stored value. -/
theorem getValue_initialized (env : Env) (x : String) (line : Nat) (r : IdRec)
    (hr : envFind env x = some r) (hinit : r.initialized = true) :
    getValue env x line = .ok (valOf env x) := by
  unfold getValue valOf
  simp [hr, hinit]

/-- With output already begun, a `write` appends exactly one
`NAME = VALUE` line per target, in order. -/
theorem writeIds_emits (line : Nat) : ∀ (xs : List String) (st : EvalSt),
    st.isOutput = true →
    (∀ x ∈ xs, ∃ r, envFind st.env x = some r ∧ r.initialized = true) →
    writeIds line xs st =
      (.ok, { st with
              out := st.out ++ xs.map (fun x => x ++ " = " ++ intRepr (valOf st.env x)) }) := by
  intro xs
  induction xs with
  | nil => intro st _ _; simp [writeIds]
  | cons x rest ih =>
      intro st hout hinit
      obtain ⟨r, hr, hri⟩ := hinit x (by simp)
      obtain ⟨env, data, out, isOut⟩ := st
      simp only at hout
      subst hout
      simp only [writeIds, Bool.not_true, not_true, if_false,
        getValue_initialized env x line r hr hri]
      have hrw := ih ⟨env, data, out ++ [x ++ " = " ++ intRepr (valOf env x)], true⟩
        rfl (fun y hy => hinit y (by simp [hy]))
      rw [hrw]
      simp

/-- The program's first `write` emits the blank line and the banner
before its `NAME = VALUE` lines. -/
theorem writeIds_first (line : Nat) (x : String) (xs : List String) (st : EvalSt)
    (hout : st.isOutput = false)
    (hinit : ∀ y ∈ x :: xs, ∃ r, envFind st.env y = some r ∧ r.initialized = true) :
    writeIds line (x :: xs) st =
      (.ok, { st with
              out := st.out ++ ["", bannerLine] ++ (x :: xs).map (fun y => y ++ " = " ++ intRepr (valOf st.env y)),
              isOutput := true }) := by
  obtain ⟨r, hr, hri⟩ := hinit x (by simp)
  obtain ⟨env, data, out, isOut⟩ := st
  simp only at hout
  subst hout
  simp only [writeIds, Bool.false_eq_true, not_false_eq_true, if_true,
    getValue_initialized env x line r hr hri]
  have hrw := writeIds_emits line xs
    ⟨env, data, (out ++ ["", bannerLine]) ++ [x ++ " = " ++ intRepr (valOf env x)], true⟩
    rfl (fun y hy => hinit y (by simp [hy]))
  rw [hrw]
  simp

/-- Claim C7: in every execution, the program output is either empty (no
write target ever executed) or consists of a blank line and the banner
— emitted exactly once, the banner never reappearing — followed only by
`NAME = VALUE` lines; an executed `write` with all targets initialized
appends exactly one `NAME = VALUE` line per target in left-to-right
order, preceded (exactly at the program's first write) by the blank
line and the banner. -/
theorem C7_output_banner (fuel : Nat) (p : ProgA) (env : Env) (dataFile : List String) :
    ((execProg fuel p (initEvalSt env dataFile)).2.out = [] ∨
      ∃ ws, (execProg fuel p (initEvalSt env dataFile)).2.out = "" :: bannerLine :: ws ∧
        bannerLine ∉ ws ∧ ∀ w ∈ ws, IsWriteLine w) ∧
    (∀ (line : Nat) (xs : List String) (st : EvalSt), st.isOutput = true →
      (∀ x ∈ xs, ∃ r, envFind st.env x = some r ∧ r.initialized = true) →
      writeIds line xs st =
        (.ok, { st with
                out := st.out ++ xs.map (fun x => x ++ " = " ++ intRepr (valOf st.env x)) })) ∧
    (∀ (line : Nat) (x : String) (xs : List String) (st : EvalSt), st.isOutput = false →
      (∀ y ∈ x :: xs, ∃ r, envFind st.env y = some r ∧ r.initialized = true) →
      writeIds line (x :: xs) st =
        (.ok, { st with
                out := st.out ++ ["", bannerLine] ++ (x :: xs).map (fun y => y ++ " = " ++ intRepr (valOf st.env y)),
                isOutput := true })) := by
  refine ⟨?_, writeIds_emits, writeIds_first⟩
  have hinv := runList_inv (execStmt fuel) (execStmt_inv fuel) p.body
    (initEvalSt env dataFile) (.inl ⟨rfl, rfl⟩)
  rcases hinv with ⟨-, hout⟩ | ⟨-, ws, hws, hall⟩
  · exact .inl hout
  · exact .inr ⟨ws, hws, fun hmem => banner_not_writeline (hall _ hmem), hall⟩

/-- Claim C7, witness: with `X` initialized to 7, a `write X` in the
fresh output state emits the blank line, the banner, and `X = 7`; in a
state where output has begun it appends only `X = 7`. -/
theorem C7_output_banner_witness :
    writeIds 1 ["X"]
      ⟨[{ name := "X", initialized := true, value := 7, lineMap := [] }], [], [], false⟩ =
      (.ok, ⟨[{ name := "X", initialized := true, value := 7, lineMap := [] }], [],
             ["", bannerLine, "X = 7"], true⟩) ∧
    writeIds 1 ["X"]
      ⟨[{ name := "X", initialized := true, value := 7, lineMap := [] }], [],
       ["", bannerLine, "Y = 1"], true⟩ =
      (.ok, ⟨[{ name := "X", initialized := true, value := 7, lineMap := [] }], [],
             ["", bannerLine, "Y = 1", "X = 7"], true⟩) := by
  constructor
  · rw [(C7_output_banner 1 ⟨[], []⟩ [] []).2.2 1 "X" []
      ⟨[{ name := "X", initialized := true, value := 7, lineMap := [] }], [], [], false⟩
      rfl ?_]
    · rfl
    · intro y hy
      fin_cases hy
      exact ⟨{ name := "X", initialized := true, value := 7, lineMap := [] }, rfl, rfl⟩
  · rw [(C7_output_banner 1 ⟨[], []⟩ [] []).2.1 1 ["X"]
      ⟨[{ name := "X", initialized := true, value := 7, lineMap := [] }], [],
       ["", bannerLine, "Y = 1"], true⟩ rfl ?_]
    · rfl
    · intro y hy
      fin_cases hy
      exact ⟨{ name := "X", initialized := true, value := 7, lineMap := [] }, rfl, rfl⟩

/-! ## Parser fuel monotonicity -/

/-- One-step fuel monotonicity for the parser: a successful parse at
fuel `fuel + 1` also succeeds, with the same result, at `g + 1`
whenever every success at `fuel` is a success at `g`. -/
theorem parseStep_succ_mono (fuel g : Nat)
    (hfg : ∀ req ps r, parseStep fuel req ps = .ok r →
      parseStep g req ps = .ok r) :
    ∀ req ps r, parseStep (fuel + 1) req ps = .ok r →
      parseStep (g + 1) req ps = .ok r := by
  intro req ps r h
  cases req with
  | prog =>
      simp only [parseStep, bind, Except.bind] at h ⊢
      split at h
      · exact absurd h (by simp)
      · rename_i ps1 hq1
        split at h
        · exact absurd h (by simp)
        · rename_i v hp1
          split at h
          · split at h
            · exact absurd h (by simp)
            · rename_i ps3 hq2
              split at h
              · exact absurd h (by simp)
              · rename_i v2 hp2
                split at h
                · split at h
                  · exact absurd h (by simp)
                  · rename_i ps5 hq3
                    split at h
                    · exact absurd h (by simp)
                    · rename_i ps6 hq4
                      simp only [hfg _ _ _ hp1, hq2, hfg _ _ _ hp2, hq3, hq4]
                      exact h
                · exact absurd h (by simp)
          · exact absurd h (by simp)
  | declSeq =>
      simp only [parseStep, bind, Except.bind] at h ⊢
      split at h
      · exact absurd h (by simp)
      · rename_i v hp1
        split at h
        · split at h
          · exact absurd h (by simp)
          · rename_i t hg1
            split at h
            · rename_i hc
              split at h
              · exact absurd h (by simp)
              · rename_i v2 hp2
                split at h
                · simp only [hfg _ _ _ hp1, hg1, if_pos hc, hfg _ _ _ hp2]
                  exact h
                · exact absurd h (by simp)
            · rename_i hc
              simp only [hfg _ _ _ hp1, hg1, if_neg hc]
              exact h
        · exact absurd h (by simp)
  | decl =>
      simp only [parseStep, bind, Except.bind] at h ⊢
      split at h
      · exact absurd h (by simp)
      · rename_i ps1 hq1
        split at h
        · exact absurd h (by simp)
        · rename_i v hp1
          split at h
          · split at h
            · exact absurd h (by simp)
            · rename_i ps3 hq2
              simp only [hq1, hfg _ _ _ hp1, hq2]
              exact h
          · exact absurd h (by simp)
  | idList lineArg =>
      simp only [parseStep, bind, Except.bind] at h ⊢
      split at h
      · exact absurd h (by simp)
      · rename_i v hi1
        split at h
        · exact absurd h (by simp)
        · rename_i t hg1
          split at h
          · rename_i hc
            split at h
            · exact absurd h (by simp)
            · rename_i ps2 hs1
              split at h
              · exact absurd h (by simp)
              · rename_i v3 hp1
                split at h
                · simp only [hg1, if_pos hc, hs1, hfg _ _ _ hp1]
                  exact h
                · exact absurd h (by simp)
          · rename_i hc
            simp only [hg1, if_neg hc]
            exact h
  | stmtSeq indent =>
      simp only [parseStep, bind, Except.bind] at h ⊢
      split at h
      · exact absurd h (by simp)
      · rename_i v hp1
        split at h
        · split at h
          · exact absurd h (by simp)
          · rename_i t hg1
            split at h
            · rename_i hc
              split at h
              · exact absurd h (by simp)
              · rename_i v2 hp2
                split at h
                · simp only [hfg _ _ _ hp1, hg1, if_pos hc, hfg _ _ _ hp2]
                  exact h
                · exact absurd h (by simp)
            · rename_i hc
              simp only [hfg _ _ _ hp1, hg1, if_neg hc]
              exact h
        · exact absurd h (by simp)
  | stmt indent =>
      simp only [parseStep, bind, Except.bind] at h ⊢
      split at h
      · exact absurd h (by simp)
      · rename_i t hg1
        split at h
        · rename_i hc
          rw [if_pos hc]
          exact hfg _ _ _ h
        · rename_i hc
          rw [if_neg hc]
          split at h
          · rename_i hc2
            rw [if_pos hc2]
            exact hfg _ _ _ h
          · rename_i hc2
            rw [if_neg hc2]
            split at h
            · rename_i hc3
              rw [if_pos hc3]
              exact hfg _ _ _ h
            · rename_i hc3
              rw [if_neg hc3]
              split at h
              · rename_i hc4
                rw [if_pos hc4]
                exact hfg _ _ _ h
              · rename_i hc4
                rw [if_neg hc4]
                split at h
                · rename_i hc5
                  rw [if_pos hc5]
                  exact hfg _ _ _ h
                · rename_i hc5
                  rw [if_neg hc5]
                  split at h
                  · exact absurd h (by simp)
                  · exact absurd h (by simp)
  | assignS =>
      simp only [parseStep, bind, Except.bind] at h ⊢
      split at h
      · exact absurd h (by simp)
      · rename_i v hi1
        split at h
        · exact absurd h (by simp)
        · rename_i ps1 hq1
          split at h
          · exact absurd h (by simp)
          · rename_i v2 hp1
            split at h
            · split at h
              · exact absurd h (by simp)
              · rename_i ps3 hq2
                simp only [hq1, hfg _ _ _ hp1, hq2]
                exact h
            · exact absurd h (by simp)
  | inS =>
      simp only [parseStep, bind, Except.bind] at h ⊢
      split at h
      · exact absurd h (by simp)
      · rename_i ps1 hq1
        split at h
        · exact absurd h (by simp)
        · rename_i v hp1
          split at h
          · split at h
            · exact absurd h (by simp)
            · rename_i ps3 hq2
              simp only [hq1, hfg _ _ _ hp1, hq2]
              exact h
          · exact absurd h (by simp)
  | outS =>
      simp only [parseStep, bind, Except.bind] at h ⊢
      split at h
      · exact absurd h (by simp)
      · rename_i ps1 hq1
        split at h
        · exact absurd h (by simp)
        · rename_i v hp1
          split at h
          · split at h
            · exact absurd h (by simp)
            · rename_i ps3 hq2
              simp only [hq1, hfg _ _ _ hp1, hq2]
              exact h
          · exact absurd h (by simp)
  | loopS indent =>
      simp only [parseStep, bind, Except.bind] at h ⊢
      split at h
      · exact absurd h (by simp)
      · rename_i ps1 hq1
        split at h
        · exact absurd h (by simp)
        · rename_i v hp1
          split at h
          · split at h
            · exact absurd h (by simp)
            · rename_i ps3 hq2
              split at h
              · exact absurd h (by simp)
              · rename_i v2 hp2
                split at h
                · split at h
                  · exact absurd h (by simp)
                  · rename_i ps5 hq3
                    split at h
                    · exact absurd h (by simp)
                    · rename_i ps6 hq4
                      simp only [hq1, hfg _ _ _ hp1, hq2, hfg _ _ _ hp2,
                        hq3, hq4]
                      exact h
                · exact absurd h (by simp)
          · exact absurd h (by simp)
  | ifS indent =>
      simp only [parseStep, bind, Except.bind] at h ⊢
      split at h
      · exact absurd h (by simp)
      · rename_i ps1 hq1
        split at h
        · exact absurd h (by simp)
        · rename_i v hp1
          split at h
          · split at h
            · exact absurd h (by simp)
            · rename_i ps3 hq2
              split at h
              · exact absurd h (by simp)
              · rename_i v2 hp2
                split at h
                · split at h
                  · exact absurd h (by simp)
                  · rename_i t hg1
                    split at h
                    · rename_i hc
                      split at h
                      · exact absurd h (by simp)
                      · rename_i ps5 hs1
                        split at h
                        · exact absurd h (by simp)
                        · rename_i v3 hp3
                          split at h
                          · split at h
                            · exact absurd h (by simp)
                            · rename_i ps7 hq3
                              split at h
                              · exact absurd h (by simp)
                              · rename_i ps8 hq4
                                simp only [hq1, hfg _ _ _ hp1, hq2,
                                  hfg _ _ _ hp2, hg1, if_pos hc, hs1,
                                  hfg _ _ _ hp3, hq3, hq4]
                                exact h
                          · exact absurd h (by simp)
                    · rename_i hc
                      split at h
                      · exact absurd h (by simp)
                      · rename_i ps5 hq3
                        split at h
                        · exact absurd h (by simp)
                        · rename_i ps6 hq4
                          simp only [hq1, hfg _ _ _ hp1, hq2, hfg _ _ _ hp2,
                            hg1, if_neg hc, hq3, hq4]
                          exact h
                · exact absurd h (by simp)
          · exact absurd h (by simp)
  | cond lineArg =>
      simp only [parseStep, bind, Except.bind] at h ⊢
      split at h
      · exact absurd h (by simp)
      · rename_i t hg1
        split at h
        · rename_i hc
          rw [if_pos hc]
          exact hfg _ _ _ h
        · rename_i hc
          rw [if_neg hc]
          split at h
          · rename_i hc2
            rw [if_pos hc2]
            split at h
            · exact absurd h (by simp)
            · rename_i ps1 hs1
              split at h
              · exact absurd h (by simp)
              · rename_i v hp1
                split at h
                · simp only [hs1, hfg _ _ _ hp1]
                  exact h
                · exact absurd h (by simp)
          · rename_i hc2
            rw [if_neg hc2]
            split at h
            · rename_i hc3
              rw [if_pos hc3]
              split at h
              · exact absurd h (by simp)
              · rename_i ps1 hs1
                split at h
                · exact absurd h (by simp)
                · rename_i v hp1
                  split at h
                  · split at h
                    · exact absurd h (by simp)
                    · rename_i t2 hg2
                      split at h
                      · rename_i hc4
                        split at h
                        · exact absurd h (by simp)
                        · rename_i ps3 hs2
                          split at h
                          · exact absurd h (by simp)
                          · rename_i v2 hp2
                            split at h
                            · split at h
                              · exact absurd h (by simp)
                              · rename_i ps5 hq1
                                simp only [hs1, hfg _ _ _ hp1, hg2,
                                  if_pos hc4, hs2, hfg _ _ _ hp2, hq1]
                                exact h
                            · exact absurd h (by simp)
                      · rename_i hc4
                        split at h
                        · rename_i hc5
                          split at h
                          · exact absurd h (by simp)
                          · rename_i ps3 hs2
                            split at h
                            · exact absurd h (by simp)
                            · rename_i v2 hp2
                              split at h
                              · split at h
                                · exact absurd h (by simp)
                                · rename_i ps5 hq1
                                  simp only [hs1, hfg _ _ _ hp1, hg2,
                                    if_neg hc4, if_pos hc5, hs2,
                                    hfg _ _ _ hp2, hq1]
                                  exact h
                              · exact absurd h (by simp)
                        · split at h
                          · exact absurd h (by simp)
                          · exact absurd h (by simp)
                  · exact absurd h (by simp)
            · rename_i hc3
              rw [if_neg hc3]
              split at h
              · exact absurd h (by simp)
              · exact absurd h (by simp)
  | compC lineArg =>
      simp only [parseStep, bind, Except.bind] at h ⊢
      split at h
      · exact absurd h (by simp)
      · rename_i ps1 hq1
        split at h
        · exact absurd h (by simp)
        · rename_i v hp1
          split at h
          · split at h
            · exact absurd h (by simp)
            · rename_i v2 hp2
              split at h
              · split at h
                · exact absurd h (by simp)
                · rename_i v3 hp3
                  split at h
                  · split at h
                    · exact absurd h (by simp)
                    · rename_i ps5 hq2
                      simp only [hq1, hfg _ _ _ hp1, hfg _ _ _ hp2,
                        hfg _ _ _ hp3, hq2]
                      exact h
                  · exact absurd h (by simp)
              · exact absurd h (by simp)
          · exact absurd h (by simp)
  | compOp =>
      simp only [parseStep, bind, Except.bind] at h ⊢
      split at h
      · exact absurd h (by simp)
      · rename_i t hg1
        split at h
        · rename_i hc
          split at h
          · exact absurd h (by simp)
          · exact absurd h (by simp)
        · rename_i hc
          split at h
          · exact absurd h (by simp)
          · rename_i ps1 hs1
            simp only [hg1, if_neg hc, hs1]
            exact h
  | exp lineArg =>
      simp only [parseStep, bind, Except.bind] at h ⊢
      split at h
      · exact absurd h (by simp)
      · rename_i v hp1
        split at h
        · split at h
          · exact absurd h (by simp)
          · rename_i t hg1
            split at h
            · rename_i hc
              split at h
              · exact absurd h (by simp)
              · rename_i ps1 hs1
                split at h
                · exact absurd h (by simp)
                · rename_i v2 hp2
                  split at h
                  · simp only [hfg _ _ _ hp1, hg1, if_pos hc, hs1,
                      hfg _ _ _ hp2]
                    exact h
                  · exact absurd h (by simp)
            · rename_i hc
              split at h
              · rename_i hc2
                split at h
                · exact absurd h (by simp)
                · rename_i ps1 hs1
                  split at h
                  · exact absurd h (by simp)
                  · rename_i v2 hp2
                    split at h
                    · simp only [hfg _ _ _ hp1, hg1, if_neg hc, if_pos hc2,
                        hs1, hfg _ _ _ hp2]
                      exact h
                    · exact absurd h (by simp)
              · rename_i hc2
                simp only [hfg _ _ _ hp1, hg1, if_neg hc, if_neg hc2]
                exact h
        · exact absurd h (by simp)
  | fac lineArg =>
      simp only [parseStep, bind, Except.bind] at h ⊢
      split at h
      · exact absurd h (by simp)
      · rename_i v hp1
        split at h
        · split at h
          · exact absurd h (by simp)
          · rename_i t hg1
            split at h
            · rename_i hc
              split at h
              · exact absurd h (by simp)
              · rename_i ps1 hs1
                split at h
                · exact absurd h (by simp)
                · rename_i v2 hp2
                  split at h
                  · simp only [hfg _ _ _ hp1, hg1, if_pos hc, hs1,
                      hfg _ _ _ hp2]
                    exact h
                  · exact absurd h (by simp)
            · rename_i hc
              simp only [hfg _ _ _ hp1, hg1, if_neg hc]
              exact h
        · exact absurd h (by simp)
  | op lineArg =>
      simp only [parseStep, bind, Except.bind] at h ⊢
      split at h
      · exact absurd h (by simp)
      · rename_i t hg1
        split at h
        · rename_i hc
          rw [if_pos hc]
          split at h
          · exact absurd h (by simp)
          · rename_i vv hv
            split at h
            · exact absurd h (by simp)
            · exact h
        · rename_i hc
          rw [if_neg hc]
          split at h
          · rename_i hc2
            rw [if_pos hc2]
            split at h
            · exact absurd h (by simp)
            · rename_i v hi1
              exact h
          · rename_i hc2
            rw [if_neg hc2]
            split at h
            · rename_i hc3
              rw [if_pos hc3]
              split at h
              · exact absurd h (by simp)
              · rename_i v hp1
                split at h
                · split at h
                  · exact absurd h (by simp)
                  · rename_i ps2 hq1
                    simp only [hfg _ _ _ hp1, hq1]
                    exact h
                · exact absurd h (by simp)
            · rename_i hc3
              rw [if_neg hc3]
              split at h
              · exact absurd h (by simp)
              · exact absurd h (by simp)
  | parenthExp lineArg =>
      simp only [parseStep, bind, Except.bind] at h ⊢
      split at h
      · exact absurd h (by simp)
      · rename_i ps1 hq1
        split at h
        · exact absurd h (by simp)
        · rename_i v hp1
          split at h
          · simp only [hq1, hfg _ _ _ hp1]
            exact h
          · exact absurd h (by simp)

/-- Fuel monotonicity for the parser. -/
theorem parseStep_mono : ∀ fuel g req ps r, fuel ≤ g →
    parseStep fuel req ps = .ok r → parseStep g req ps = .ok r := by
  intro fuel
  induction fuel with
  | zero => intro g req ps r _ h; simp [parseStep] at h
  | succ fuel ih =>
      intro g req ps r hle h
      obtain ⟨g', rfl⟩ : ∃ g', g = g' + 1 := ⟨g - 1, by omega⟩
      exact parseStep_succ_mono fuel g'
        (fun q p rr hh => ih g' q p rr (by omega) hh) req ps r h

/-! ## Tokenizer payload well-formedness -/

/-- Well-formed identifier text: a capital followed by capitals and
decimal digits. -/
def validIdentChars : List Char → Prop
  | [] => False
  | c :: rest => c ∈ CAPITALS ∧ ∀ d ∈ rest, d ∈ CAPITALS ∨ d ∈ DECIMAL_DIGITS

/-- Payload well-formedness of a token. -/
def PayloadWF : PTok → Prop
  | .INTEGER s => s.data ≠ [] ∧ ∀ c ∈ s.data, c ∈ DECIMAL_DIGITS
  | .IDENTIFIER s => validIdentChars s.data
  | _ => True

/-- The loop invariant of `_tokenize_line` on entry to an iteration:
at most one classification flag is on, a pending token accumulator
belongs to the on flag, and integer (identifier) accumulators are digit
runs (identifier texts) that the next character extends. -/
def DfaInv (st : DfaSt) (cs : List Char) : Prop :=
  (st.isReserved = true →
    st.isSpecial = false ∧ st.isInteger = false ∧ st.isIdentifier = false ∧
    st.token ≠ []) ∧
  (st.isSpecial = true →
    st.isReserved = false ∧ st.isInteger = false ∧ st.isIdentifier = false ∧
    st.token ≠ []) ∧
  (st.isInteger = true →
    st.isReserved = false ∧ st.isSpecial = false ∧ st.isIdentifier = false ∧
    st.token ≠ [] ∧ (∀ d ∈ st.token, d ∈ DECIMAL_DIGITS) ∧
    (∀ c, cs.head? = some c → c ∈ DECIMAL_DIGITS)) ∧
  (st.isIdentifier = true →
    st.isReserved = false ∧ st.isSpecial = false ∧ st.isInteger = false ∧
    validIdentChars st.token ∧
    (∀ c, cs.head? = some c → c ∈ DECIMAL_DIGITS ∨ c ∈ CAPITALS)) ∧
  (st.token ≠ [] →
    st.isReserved = true ∨ st.isSpecial = true ∨ st.isInteger = true ∨
    st.isIdentifier = true)

/-- The invariant holds for any state with an empty accumulator and all
four flags off. -/
theorem DfaInv_cleared (st : DfaSt) (cs : List Char)
    (h0 : st.token = []) (h1 : st.isReserved = false) (h2 : st.isSpecial = false)
    (h3 : st.isInteger = false) (h4 : st.isIdentifier = false) :
    DfaInv st cs := by
  refine ⟨?_, ?_, ?_, ?_, ?_⟩ <;> intro h <;> simp_all

/-- The invariant for a pending integer accumulator. -/
theorem DfaInv_int (tok : List Char) (fin aw : Bool) (cs : List Char)
    (hne : tok ≠ []) (hdig : ∀ d ∈ tok, d ∈ DECIMAL_DIGITS)
    (hhead : ∀ x, cs.head? = some x → x ∈ DECIMAL_DIGITS) :
    DfaInv ⟨tok, false, false, true, false, fin, aw⟩ cs := by
  refine ⟨?_, ?_, ?_, ?_, ?_⟩ <;> intro h
  · simp at h
  · simp at h
  · exact ⟨rfl, rfl, rfl, hne, hdig, hhead⟩
  · simp at h
  · simp

/-- The invariant for a pending identifier accumulator. -/
theorem DfaInv_ident (tok : List Char) (fin aw : Bool) (cs : List Char)
    (hval : validIdentChars tok)
    (hhead : ∀ x, cs.head? = some x → x ∈ DECIMAL_DIGITS ∨ x ∈ CAPITALS) :
    DfaInv ⟨tok, false, false, false, true, fin, aw⟩ cs := by
  refine ⟨?_, ?_, ?_, ?_, ?_⟩ <;> intro h
  · simp at h
  · simp at h
  · simp at h
  · exact ⟨rfl, rfl, rfl, hval, hhead⟩
  · simp

/-- The invariant for a pending reserved-word accumulator. -/
theorem DfaInv_res (tok : List Char) (fin aw : Bool) (cs : List Char)
    (hne : tok ≠ []) :
    DfaInv ⟨tok, true, false, false, false, fin, aw⟩ cs := by
  refine ⟨?_, ?_, ?_, ?_, ?_⟩ <;> intro h
  · exact ⟨rfl, rfl, rfl, hne⟩
  · simp at h
  · simp at h
  · simp at h
  · simp

/-- The invariant for a pending special-symbol accumulator. -/
theorem DfaInv_spec (tok : List Char) (fin aw : Bool) (cs : List Char)
    (hne : tok ≠ []) :
    DfaInv ⟨tok, false, true, false, false, fin, aw⟩ cs := by
  refine ⟨?_, ?_, ?_, ?_, ?_⟩ <;> intro h
  · simp at h
  · exact ⟨rfl, rfl, rfl, hne⟩
  · simp at h
  · simp at h
  · simp

theorem payloadWF_reservedTok (s : List Char) : PayloadWF (reservedTok s) := by
  unfold reservedTok
  by_cases h0 : s = "program".data
  · rw [if_pos h0]; exact trivial
  · rw [if_neg h0]
    by_cases h1 : s = "begin".data
    · rw [if_pos h1]; exact trivial
    · rw [if_neg h1]
      by_cases h2 : s = "end".data
      · rw [if_pos h2]; exact trivial
      · rw [if_neg h2]
        by_cases h3 : s = "int".data
        · rw [if_pos h3]; exact trivial
        · rw [if_neg h3]
          by_cases h4 : s = "if".data
          · rw [if_pos h4]; exact trivial
          · rw [if_neg h4]
            by_cases h5 : s = "then".data
            · rw [if_pos h5]; exact trivial
            · rw [if_neg h5]
              by_cases h6 : s = "else".data
              · rw [if_pos h6]; exact trivial
              · rw [if_neg h6]
                by_cases h7 : s = "while".data
                · rw [if_pos h7]; exact trivial
                · rw [if_neg h7]
                  by_cases h8 : s = "loop".data
                  · rw [if_pos h8]; exact trivial
                  · rw [if_neg h8]
                    by_cases h9 : s = "read".data
                    · rw [if_pos h9]; exact trivial
                    · rw [if_neg h9]
                      by_cases h10 : s = "write".data
                      · rw [if_pos h10]; exact trivial
                      · rw [if_neg h10]
                        exact trivial

theorem payloadWF_specialTok (s : List Char) : PayloadWF (specialTok s) := by
  unfold specialTok
  by_cases h0 : s = ";".data
  · rw [if_pos h0]; exact trivial
  · rw [if_neg h0]
    by_cases h1 : s = ",".data
    · rw [if_pos h1]; exact trivial
    · rw [if_neg h1]
      by_cases h2 : s = "=".data
      · rw [if_pos h2]; exact trivial
      · rw [if_neg h2]
        by_cases h3 : s = "!".data
        · rw [if_pos h3]; exact trivial
        · rw [if_neg h3]
          by_cases h4 : s = "[".data
          · rw [if_pos h4]; exact trivial
          · rw [if_neg h4]
            by_cases h5 : s = "]".data
            · rw [if_pos h5]; exact trivial
            · rw [if_neg h5]
              by_cases h6 : s = "&&".data
              · rw [if_pos h6]; exact trivial
              · rw [if_neg h6]
                by_cases h7 : s = "||".data
                · rw [if_pos h7]; exact trivial
                · rw [if_neg h7]
                  by_cases h8 : s = "(".data
                  · rw [if_pos h8]; exact trivial
                  · rw [if_neg h8]
                    by_cases h9 : s = ")".data
                    · rw [if_pos h9]; exact trivial
                    · rw [if_neg h9]
                      by_cases h10 : s = "+".data
                      · rw [if_pos h10]; exact trivial
                      · rw [if_neg h10]
                        by_cases h11 : s = "-".data
                        · rw [if_pos h11]; exact trivial
                        · rw [if_neg h11]
                          by_cases h12 : s = "*".data
                          · rw [if_pos h12]; exact trivial
                          · rw [if_neg h12]
                            by_cases h13 : s = "!=".data
                            · rw [if_pos h13]; exact trivial
                            · rw [if_neg h13]
                              by_cases h14 : s = "==".data
                              · rw [if_pos h14]; exact trivial
                              · rw [if_neg h14]
                                by_cases h15 : s = "<".data
                                · rw [if_pos h15]; exact trivial
                                · rw [if_neg h15]
                                  by_cases h16 : s = ">".data
                                  · rw [if_pos h16]; exact trivial
                                  · rw [if_neg h16]
                                    by_cases h17 : s = "<=".data
                                    · rw [if_pos h17]; exact trivial
                                    · rw [if_neg h17]
                                      by_cases h18 : s = ">=".data
                                      · rw [if_pos h18]; exact trivial
                                      · rw [if_neg h18]
                                        exact trivial

theorem digit_not_rf : ∀ c ∈ DECIMAL_DIGITS, c ∉ reservedFirstChars := by decide
theorem digit_not_sf : ∀ c ∈ DECIMAL_DIGITS, c ∉ specialFirstChars := by decide
theorem digit_not_cap : ∀ c ∈ DECIMAL_DIGITS, c ∉ CAPITALS := by decide
theorem digit_not_ws : ∀ c ∈ DECIMAL_DIGITS, c ∉ WHITE_SPACE := by decide
theorem cap_not_rf : ∀ c ∈ CAPITALS, c ∉ reservedFirstChars := by decide
theorem cap_not_sf : ∀ c ∈ CAPITALS, c ∉ specialFirstChars := by decide
theorem cap_not_digit : ∀ c ∈ CAPITALS, c ∉ DECIMAL_DIGITS := by decide
theorem cap_not_ws : ∀ c ∈ CAPITALS, c ∉ WHITE_SPACE := by decide

/-- `specialBlock` on a state whose integer and identifier flags are
off and whose accumulator is nonempty: every emitted token is
payload-well-formed, and the result is either fully cleared or a
nonempty pending accumulator with the flags still off. -/
theorem specialBlock_desc (tok : List Char) (r sp fin aw : Bool)
    (eol : Bool) (next : Char) (htok : tok ≠ []) :
    (∀ t ∈ (specialBlock ⟨tok, r, sp, false, false, fin, aw⟩ eol next).1, PayloadWF t) ∧
    (((specialBlock ⟨tok, r, sp, false, false, fin, aw⟩ eol next).2.token = [] ∧
      (specialBlock ⟨tok, r, sp, false, false, fin, aw⟩ eol next).2.isReserved = false ∧
      (specialBlock ⟨tok, r, sp, false, false, fin, aw⟩ eol next).2.isSpecial = false ∧
      (specialBlock ⟨tok, r, sp, false, false, fin, aw⟩ eol next).2.isInteger = false ∧
      (specialBlock ⟨tok, r, sp, false, false, fin, aw⟩ eol next).2.isIdentifier = false) ∨
     ((specialBlock ⟨tok, r, sp, false, false, fin, aw⟩ eol next).2.token ≠ [] ∧
      (specialBlock ⟨tok, r, sp, false, false, fin, aw⟩ eol next).2.isReserved = r ∧
      (specialBlock ⟨tok, r, sp, false, false, fin, aw⟩ eol next).2.isInteger = false ∧
      (specialBlock ⟨tok, r, sp, false, false, fin, aw⟩ eol next).2.isIdentifier = false)) := by
  cases fin with
  | false => simp [specialBlock, legal_token, payloadWF_specialTok]
  | true =>
    by_cases hA : tok = ['&'] ∨ tok = ['|']
    · have hE : ¬(tok = ['='] ∨ tok = ['!'] ∨ tok = ['<'] ∨ tok = ['>']) := by
        rcases hA with h | h <;> subst h <;> simp
      cases eol with
      | true => simp [specialBlock, legal_token, if_pos hA, if_neg hE, htok]
      | false =>
        by_cases hN : tok = [next]
        · simp [specialBlock, legal_token, if_pos hA, if_pos hN, if_neg hE, htok]
        · have hE2 : ¬(tok ++ [next] = ['='] ∨ tok ++ [next] = ['!'] ∨
              tok ++ [next] = ['<'] ∨ tok ++ [next] = ['>']) := by
            rcases hA with h | h <;> subst h <;> simp
          simp [specialBlock, legal_token, if_pos hA, if_neg hN, if_neg hE2]
    · by_cases hE : tok = ['='] ∨ tok = ['!'] ∨ tok = ['<'] ∨ tok = ['>']
      · cases eol with
        | true =>
          simp [specialBlock, legal_token, if_neg hA, if_pos hE, payloadWF_specialTok]
        | false =>
          by_cases hQ : next = '='
          · simp [specialBlock, legal_token, if_neg hA, if_pos hE, if_pos hQ, htok]
          · simp [specialBlock, legal_token, if_neg hA, if_pos hE, if_neg hQ,
              payloadWF_specialTok]
      · simp [specialBlock, legal_token, if_neg hA, if_neg hE, payloadWF_specialTok]

/-- With an empty accumulator the classification flags are dead state:
the loop overwrites them before any use. -/
theorem lineLoop_freshFlags (cs : List Char) :
    ∀ (f1 f2 f3 f4 g1 g2 g3 g4 fin aw : Bool),
    lineLoop ⟨[], f1, f2, f3, f4, fin, aw⟩ cs =
    lineLoop ⟨[], g1, g2, g3, g4, fin, aw⟩ cs := by
  induction cs with
  | nil => intros; rfl
  | cons c rest ih =>
    intro f1 f2 f3 f4 g1 g2 g3 g4 fin aw
    by_cases hw : c ∈ WHITE_SPACE
    · rw [lineLoop, lineLoop]
      simp only [List.isEmpty_nil, true_and, hw, if_pos]
      exact ih f1 f2 f3 f4 g1 g2 g3 g4 fin aw
    · rw [lineLoop, lineLoop]
      simp [hw]

theorem lineLoop_wf_int (acc : List Char) (fin aw : Bool) (c : Char)
    (rest : List Char)
    (hacc : ∀ d ∈ acc, d ∈ DECIMAL_DIGITS) (hc : c ∈ DECIMAL_DIGITS)
    (hcont : ∀ st', DfaInv st' rest → ∀ t ∈ (lineLoop st' rest).1, PayloadWF t) :
    ∀ t ∈ (lineLoop ⟨acc, false, false, true, false, fin, aw⟩ (c :: rest)).1,
      PayloadWF t := by
  cases acc with
  | nil =>
    have hall : ∀ d ∈ [c], d ∈ DECIMAL_DIGITS := by
      intro d hd
      simp at hd
      subst hd
      exact hc
    cases rest with
    | nil =>
        simp [lineLoop, token_delimiter, legal_token, PayloadWF, decide_eq_true hc, decide_eq_false (digit_not_rf c hc), decide_eq_false (digit_not_sf c hc), decide_eq_false (digit_not_cap c hc), digit_not_ws c hc, hc, hall, hacc]
        all_goals try constructor
        all_goals (try (refine hcont _ ?_; exact DfaInv_cleared _ _ rfl rfl rfl rfl rfl))
        all_goals (try (intro a ha))
        all_goals (try (rcases ha with h | h))
        all_goals try first
        | (subst h; exact hc)
        | exact hacc a (List.mem_cons_of_mem _ h)
    | cons c2 rest2 =>
        rw [lineLoop]
        by_cases h2 : c2 ∈ DECIMAL_DIGITS
        · simp [decide_eq_true hc, decide_eq_false (digit_not_rf c hc), decide_eq_false (digit_not_sf c hc), decide_eq_false (digit_not_cap c hc), digit_not_ws c hc, hc, hall, hacc, h2]
          refine hcont _ (DfaInv_int _ _ _ _ (by simp) ?_ ?_)
          · exact hall
          · intro x hx
            simp at hx
            subst hx
            exact h2
        · by_cases hw2 : c2 ∈ WHITE_SPACE
          · simp [token_delimiter, legal_token, PayloadWF, decide_eq_true hc, decide_eq_false (digit_not_rf c hc), decide_eq_false (digit_not_sf c hc), decide_eq_false (digit_not_cap c hc), digit_not_ws c hc, hc, hall, hacc, h2, hw2]
            all_goals try constructor
            all_goals (try (refine hcont _ ?_; exact DfaInv_cleared _ _ rfl rfl rfl rfl rfl))
            all_goals (try (intro a ha))
            all_goals (try (rcases ha with h | h))
            all_goals try first
            | (subst h; exact hc)
            | exact hacc a (List.mem_cons_of_mem _ h)
          · by_cases hs2 : c2 ∈ specialFirstChars
            · by_cases hi2 : c2 ∈ SPECIAL_INTERMEDIATE_STATES
              · cases rest2 with
                | nil =>
                    simp [token_delimiter, legal_token, PayloadWF, decide_eq_true hc, decide_eq_false (digit_not_rf c hc), decide_eq_false (digit_not_sf c hc), decide_eq_false (digit_not_cap c hc), digit_not_ws c hc, hc, hall, hacc,
                      h2, hw2, hs2, hi2]
                    all_goals try constructor
                    all_goals (try (refine hcont _ ?_; exact DfaInv_cleared _ _ rfl rfl rfl rfl rfl))
                    all_goals (try (intro a ha))
                    all_goals (try (rcases ha with h | h))
                    all_goals try first
                    | (subst h; exact hc)
                    | exact hacc a (List.mem_cons_of_mem _ h)
                | cons c3 rest3 =>
                    by_cases he : c2 = c3
                    · subst he
                      simp [token_delimiter, legal_token, PayloadWF, decide_eq_true hc, decide_eq_false (digit_not_rf c hc), decide_eq_false (digit_not_sf c hc), decide_eq_false (digit_not_cap c hc), digit_not_ws c hc, hc, hall, hacc,
                        h2, hw2, hs2, hi2]
                      all_goals try constructor
                      all_goals (try (refine hcont _ ?_; exact DfaInv_cleared _ _ rfl rfl rfl rfl rfl))
                      all_goals (try (intro a ha))
                      all_goals (try (rcases ha with h | h))
                      all_goals try first
                      | (subst h; exact hc)
                      | exact hacc a (List.mem_cons_of_mem _ h)
                    · simp [token_delimiter, legal_token, PayloadWF, decide_eq_true hc, decide_eq_false (digit_not_rf c hc), decide_eq_false (digit_not_sf c hc), decide_eq_false (digit_not_cap c hc), digit_not_ws c hc, hc, hall, hacc,
                        h2, hw2, hs2, hi2, he]
                      all_goals try constructor
                      all_goals (try (refine hcont _ ?_; exact DfaInv_cleared _ _ rfl rfl rfl rfl rfl))
                      all_goals (try (intro a ha))
                      all_goals (try (rcases ha with h | h))
                      all_goals try first
                      | (subst h; exact hc)
                      | exact hacc a (List.mem_cons_of_mem _ h)
              · simp [token_delimiter, legal_token, PayloadWF, decide_eq_true hc, decide_eq_false (digit_not_rf c hc), decide_eq_false (digit_not_sf c hc), decide_eq_false (digit_not_cap c hc), digit_not_ws c hc, hc, hall, hacc,
                  h2, hw2, hs2, hi2]
                all_goals try constructor
                all_goals (try (refine hcont _ ?_; exact DfaInv_cleared _ _ rfl rfl rfl rfl rfl))
                all_goals (try (intro a ha))
                all_goals (try (rcases ha with h | h))
                all_goals try first
                | (subst h; exact hc)
                | exact hacc a (List.mem_cons_of_mem _ h)
            · simp [token_delimiter, legal_token, PayloadWF, decide_eq_true hc, decide_eq_false (digit_not_rf c hc), decide_eq_false (digit_not_sf c hc), decide_eq_false (digit_not_cap c hc), digit_not_ws c hc, hc, hall, hacc,
                h2, hw2, hs2]
              all_goals try constructor
              all_goals (try (refine hcont _ ?_; exact DfaInv_cleared _ _ rfl rfl rfl rfl rfl))
              all_goals (try (intro a ha))
              all_goals (try (rcases ha with h | h))
              all_goals try first
              | (subst h; exact hc)
              | exact hacc a (List.mem_cons_of_mem _ h)
  | cons a0 acc0 =>
    have hall : ∀ d ∈ a0 :: (acc0 ++ [c]), d ∈ DECIMAL_DIGITS := by
      intro d hd
      simp at hd
      rcases hd with h | h | h
      · exact hacc d (by simp [h])
      · exact hacc d (by simp [h])
      · simp [h, hc]
    cases rest with
    | nil =>
        simp [lineLoop, token_delimiter, legal_token, PayloadWF, decide_eq_true hc, decide_eq_false (digit_not_rf c hc), decide_eq_false (digit_not_sf c hc), decide_eq_false (digit_not_cap c hc), digit_not_ws c hc, hc, hall, hacc]
        all_goals try constructor
        all_goals (try (refine hcont _ ?_; exact DfaInv_cleared _ _ rfl rfl rfl rfl rfl))
        all_goals (try (intro a ha))
        all_goals (try (rcases ha with h | h))
        all_goals try first
        | (subst h; exact hc)
        | exact hacc a (List.mem_cons_of_mem _ h)
    | cons c2 rest2 =>
        rw [lineLoop]
        by_cases h2 : c2 ∈ DECIMAL_DIGITS
        · simp [decide_eq_true hc, decide_eq_false (digit_not_rf c hc), decide_eq_false (digit_not_sf c hc), decide_eq_false (digit_not_cap c hc), digit_not_ws c hc, hc, hall, hacc, h2]
          refine hcont _ (DfaInv_int _ _ _ _ (by simp) ?_ ?_)
          · exact hall
          · intro x hx
            simp at hx
            subst hx
            exact h2
        · by_cases hw2 : c2 ∈ WHITE_SPACE
          · simp [token_delimiter, legal_token, PayloadWF, decide_eq_true hc, decide_eq_false (digit_not_rf c hc), decide_eq_false (digit_not_sf c hc), decide_eq_false (digit_not_cap c hc), digit_not_ws c hc, hc, hall, hacc, h2, hw2]
            all_goals try constructor
            all_goals (try (refine hcont _ ?_; exact DfaInv_cleared _ _ rfl rfl rfl rfl rfl))
            all_goals (try (intro a ha))
            all_goals (try (rcases ha with h | h))
            all_goals try first
            | (subst h; exact hc)
            | exact hacc a (List.mem_cons_of_mem _ h)
          · by_cases hs2 : c2 ∈ specialFirstChars
            · by_cases hi2 : c2 ∈ SPECIAL_INTERMEDIATE_STATES
              · cases rest2 with
                | nil =>
                    simp [token_delimiter, legal_token, PayloadWF, decide_eq_true hc, decide_eq_false (digit_not_rf c hc), decide_eq_false (digit_not_sf c hc), decide_eq_false (digit_not_cap c hc), digit_not_ws c hc, hc, hall, hacc,
                      h2, hw2, hs2, hi2]
                    all_goals try constructor
                    all_goals (try (refine hcont _ ?_; exact DfaInv_cleared _ _ rfl rfl rfl rfl rfl))
                    all_goals (try (intro a ha))
                    all_goals (try (rcases ha with h | h))
                    all_goals try first
                    | (subst h; exact hc)
                    | exact hacc a (List.mem_cons_of_mem _ h)
                | cons c3 rest3 =>
                    by_cases he : c2 = c3
                    · subst he
                      simp [token_delimiter, legal_token, PayloadWF, decide_eq_true hc, decide_eq_false (digit_not_rf c hc), decide_eq_false (digit_not_sf c hc), decide_eq_false (digit_not_cap c hc), digit_not_ws c hc, hc, hall, hacc,
                        h2, hw2, hs2, hi2]
                      all_goals try constructor
                      all_goals (try (refine hcont _ ?_; exact DfaInv_cleared _ _ rfl rfl rfl rfl rfl))
                      all_goals (try (intro a ha))
                      all_goals (try (rcases ha with h | h))
                      all_goals try first
                      | (subst h; exact hc)
                      | exact hacc a (List.mem_cons_of_mem _ h)
                    · simp [token_delimiter, legal_token, PayloadWF, decide_eq_true hc, decide_eq_false (digit_not_rf c hc), decide_eq_false (digit_not_sf c hc), decide_eq_false (digit_not_cap c hc), digit_not_ws c hc, hc, hall, hacc,
                        h2, hw2, hs2, hi2, he]
                      all_goals try constructor
                      all_goals (try (refine hcont _ ?_; exact DfaInv_cleared _ _ rfl rfl rfl rfl rfl))
                      all_goals (try (intro a ha))
                      all_goals (try (rcases ha with h | h))
                      all_goals try first
                      | (subst h; exact hc)
                      | exact hacc a (List.mem_cons_of_mem _ h)
              · simp [token_delimiter, legal_token, PayloadWF, decide_eq_true hc, decide_eq_false (digit_not_rf c hc), decide_eq_false (digit_not_sf c hc), decide_eq_false (digit_not_cap c hc), digit_not_ws c hc, hc, hall, hacc,
                  h2, hw2, hs2, hi2]
                all_goals try constructor
                all_goals (try (refine hcont _ ?_; exact DfaInv_cleared _ _ rfl rfl rfl rfl rfl))
                all_goals (try (intro a ha))
                all_goals (try (rcases ha with h | h))
                all_goals try first
                | (subst h; exact hc)
                | exact hacc a (List.mem_cons_of_mem _ h)
            · simp [token_delimiter, legal_token, PayloadWF, decide_eq_true hc, decide_eq_false (digit_not_rf c hc), decide_eq_false (digit_not_sf c hc), decide_eq_false (digit_not_cap c hc), digit_not_ws c hc, hc, hall, hacc,
                h2, hw2, hs2]
              all_goals try constructor
              all_goals (try (refine hcont _ ?_; exact DfaInv_cleared _ _ rfl rfl rfl rfl rfl))
              all_goals (try (intro a ha))
              all_goals (try (rcases ha with h | h))
              all_goals try first
              | (subst h; exact hc)
              | exact hacc a (List.mem_cons_of_mem _ h)

theorem lineLoop_wf_ident (acc : List Char) (fin aw : Bool) (c : Char)
    (rest : List Char)
    (hfresh : acc = [] → c ∈ CAPITALS)
    (hmid : ∀ a0 acc0, acc = a0 :: acc0 →
      a0 ∈ CAPITALS ∧ (∀ d ∈ acc0, d ∈ CAPITALS ∨ d ∈ DECIMAL_DIGITS) ∧
      (c ∈ CAPITALS ∨ c ∈ DECIMAL_DIGITS))
    (hcont : ∀ st', DfaInv st' rest → ∀ t ∈ (lineLoop st' rest).1, PayloadWF t) :
    ∀ t ∈ (lineLoop ⟨acc, false, false, false, true, fin, aw⟩ (c :: rest)).1,
      PayloadWF t := by
  cases acc with
  | nil =>
    have hc := hfresh rfl
    have hvalid : validIdentChars [c] := ⟨hc, by simp⟩
    have hcend : c ∈ CAPITALS ∨ c ∈ DECIMAL_DIGITS := Or.inl hc
    have hwsc := cap_not_ws c hc
    cases rest with
    | nil =>
        simp [lineLoop, token_delimiter, legal_token, PayloadWF, validIdentChars, decide_eq_true hc, decide_eq_false (cap_not_rf c hc), decide_eq_false (cap_not_sf c hc), decide_eq_false (cap_not_digit c hc), hwsc, hc, hvalid]
        all_goals try constructor
        all_goals (try (refine hcont _ ?_; exact DfaInv_cleared _ _ rfl rfl rfl rfl rfl))
        all_goals (try (intro a ha))
        all_goals (try (rcases ha with h | h))
        all_goals try first
        | (subst h; exact hcend)
        | (subst h; exact hcend.symm)
        | exact hrest a h
    | cons c2 rest2 =>
        rw [lineLoop]
        by_cases h2 : c2 ∈ DECIMAL_DIGITS ++ CAPITALS
        · simp [decide_eq_true hc, decide_eq_false (cap_not_rf c hc), decide_eq_false (cap_not_sf c hc), decide_eq_false (cap_not_digit c hc), hwsc, hc, hvalid, h2]
          refine hcont _ (DfaInv_ident _ _ _ _ hvalid ?_)
          intro x hx
          simp at hx
          subst hx
          rcases List.mem_append.mp h2 with h | h
          · exact Or.inl h
          · exact Or.inr h
        · by_cases hw2 : c2 ∈ WHITE_SPACE
          · simp [token_delimiter, legal_token, PayloadWF, validIdentChars, decide_eq_true hc, decide_eq_false (cap_not_rf c hc), decide_eq_false (cap_not_sf c hc), decide_eq_false (cap_not_digit c hc), hwsc, hc, hvalid, h2, hw2]
            all_goals try constructor
            all_goals (try (refine hcont _ ?_; exact DfaInv_cleared _ _ rfl rfl rfl rfl rfl))
            all_goals (try (intro a ha))
            all_goals (try (rcases ha with h | h))
            all_goals try first
            | (subst h; exact hcend)
            | (subst h; exact hcend.symm)
            | exact hrest a h
          · by_cases hs2 : c2 ∈ specialFirstChars
            · by_cases hi2 : c2 ∈ SPECIAL_INTERMEDIATE_STATES
              · cases rest2 with
                | nil =>
                    simp [token_delimiter, legal_token, PayloadWF, validIdentChars, decide_eq_true hc, decide_eq_false (cap_not_rf c hc), decide_eq_false (cap_not_sf c hc), decide_eq_false (cap_not_digit c hc), hwsc, hc, hvalid,
                      h2, hw2, hs2, hi2]
                    all_goals try constructor
                    all_goals (try (refine hcont _ ?_; exact DfaInv_cleared _ _ rfl rfl rfl rfl rfl))
                    all_goals (try (intro a ha))
                    all_goals (try (rcases ha with h | h))
                    all_goals try first
                    | (subst h; exact hcend)
                    | (subst h; exact hcend.symm)
                    | exact hrest a h
                | cons c3 rest3 =>
                    by_cases he : c2 = c3
                    · subst he
                      simp [token_delimiter, legal_token, PayloadWF, validIdentChars, decide_eq_true hc, decide_eq_false (cap_not_rf c hc), decide_eq_false (cap_not_sf c hc), decide_eq_false (cap_not_digit c hc), hwsc, hc, hvalid,
                        h2, hw2, hs2, hi2]
                      all_goals try constructor
                      all_goals (try (refine hcont _ ?_; exact DfaInv_cleared _ _ rfl rfl rfl rfl rfl))
                      all_goals (try (intro a ha))
                      all_goals (try (rcases ha with h | h))
                      all_goals try first
                      | (subst h; exact hcend)
                      | (subst h; exact hcend.symm)
                      | exact hrest a h
                    · simp [token_delimiter, legal_token, PayloadWF, validIdentChars, decide_eq_true hc, decide_eq_false (cap_not_rf c hc), decide_eq_false (cap_not_sf c hc), decide_eq_false (cap_not_digit c hc), hwsc, hc, hvalid,
                        h2, hw2, hs2, hi2, he]
                      all_goals try constructor
                      all_goals (try (refine hcont _ ?_; exact DfaInv_cleared _ _ rfl rfl rfl rfl rfl))
                      all_goals (try (intro a ha))
                      all_goals (try (rcases ha with h | h))
                      all_goals try first
                      | (subst h; exact hcend)
                      | (subst h; exact hcend.symm)
                      | exact hrest a h
              · simp [token_delimiter, legal_token, PayloadWF, validIdentChars, decide_eq_true hc, decide_eq_false (cap_not_rf c hc), decide_eq_false (cap_not_sf c hc), decide_eq_false (cap_not_digit c hc), hwsc, hc, hvalid,
                  h2, hw2, hs2, hi2]
                all_goals try constructor
                all_goals (try (refine hcont _ ?_; exact DfaInv_cleared _ _ rfl rfl rfl rfl rfl))
                all_goals (try (intro a ha))
                all_goals (try (rcases ha with h | h))
                all_goals try first
                | (subst h; exact hcend)
                | (subst h; exact hcend.symm)
                | exact hrest a h
            · simp [token_delimiter, legal_token, PayloadWF, validIdentChars, decide_eq_true hc, decide_eq_false (cap_not_rf c hc), decide_eq_false (cap_not_sf c hc), decide_eq_false (cap_not_digit c hc), hwsc, hc, hvalid,
                h2, hw2, hs2]
              all_goals try constructor
              all_goals (try (refine hcont _ ?_; exact DfaInv_cleared _ _ rfl rfl rfl rfl rfl))
              all_goals (try (intro a ha))
              all_goals (try (rcases ha with h | h))
              all_goals try first
              | (subst h; exact hcend)
              | (subst h; exact hcend.symm)
              | exact hrest a h
  | cons a0 acc0 =>
    obtain ⟨hca, hrest, hcend⟩ := hmid a0 acc0 rfl
    have hvalid : validIdentChars (a0 :: (acc0 ++ [c])) := by
      refine ⟨hca, ?_⟩
      intro d hd
      rcases List.mem_append.mp hd with h | h
      · exact hrest d h
      · simp at h
        subst h
        exact hcend
    cases rest with
    | nil =>
        simp [lineLoop, token_delimiter, legal_token, PayloadWF, validIdentChars, hvalid, hca, hrest, hcend]
        all_goals try constructor
        all_goals (try (refine hcont _ ?_; exact DfaInv_cleared _ _ rfl rfl rfl rfl rfl))
        all_goals (try (intro a ha))
        all_goals (try (rcases ha with h | h))
        all_goals try first
        | (subst h; exact hcend)
        | (subst h; exact hcend.symm)
        | exact hrest a h
    | cons c2 rest2 =>
        rw [lineLoop]
        by_cases h2 : c2 ∈ DECIMAL_DIGITS ++ CAPITALS
        · simp [hvalid, hca, hrest, hcend, h2]
          refine hcont _ (DfaInv_ident _ _ _ _ hvalid ?_)
          intro x hx
          simp at hx
          subst hx
          rcases List.mem_append.mp h2 with h | h
          · exact Or.inl h
          · exact Or.inr h
        · by_cases hw2 : c2 ∈ WHITE_SPACE
          · simp [token_delimiter, legal_token, PayloadWF, validIdentChars, hvalid, hca, hrest, hcend, h2, hw2]
            all_goals try constructor
            all_goals (try (refine hcont _ ?_; exact DfaInv_cleared _ _ rfl rfl rfl rfl rfl))
            all_goals (try (intro a ha))
            all_goals (try (rcases ha with h | h))
            all_goals try first
            | (subst h; exact hcend)
            | (subst h; exact hcend.symm)
            | exact hrest a h
          · by_cases hs2 : c2 ∈ specialFirstChars
            · by_cases hi2 : c2 ∈ SPECIAL_INTERMEDIATE_STATES
              · cases rest2 with
                | nil =>
                    simp [token_delimiter, legal_token, PayloadWF, validIdentChars, hvalid, hca, hrest, hcend,
                      h2, hw2, hs2, hi2]
                    all_goals try constructor
                    all_goals (try (refine hcont _ ?_; exact DfaInv_cleared _ _ rfl rfl rfl rfl rfl))
                    all_goals (try (intro a ha))
                    all_goals (try (rcases ha with h | h))
                    all_goals try first
                    | (subst h; exact hcend)
                    | (subst h; exact hcend.symm)
                    | exact hrest a h
                | cons c3 rest3 =>
                    by_cases he : c2 = c3
                    · subst he
                      simp [token_delimiter, legal_token, PayloadWF, validIdentChars, hvalid, hca, hrest, hcend,
                        h2, hw2, hs2, hi2]
                      all_goals try constructor
                      all_goals (try (refine hcont _ ?_; exact DfaInv_cleared _ _ rfl rfl rfl rfl rfl))
                      all_goals (try (intro a ha))
                      all_goals (try (rcases ha with h | h))
                      all_goals try first
                      | (subst h; exact hcend)
                      | (subst h; exact hcend.symm)
                      | exact hrest a h
                    · simp [token_delimiter, legal_token, PayloadWF, validIdentChars, hvalid, hca, hrest, hcend,
                        h2, hw2, hs2, hi2, he]
                      all_goals try constructor
                      all_goals (try (refine hcont _ ?_; exact DfaInv_cleared _ _ rfl rfl rfl rfl rfl))
                      all_goals (try (intro a ha))
                      all_goals (try (rcases ha with h | h))
                      all_goals try first
                      | (subst h; exact hcend)
                      | (subst h; exact hcend.symm)
                      | exact hrest a h
              · simp [token_delimiter, legal_token, PayloadWF, validIdentChars, hvalid, hca, hrest, hcend,
                  h2, hw2, hs2, hi2]
                all_goals try constructor
                all_goals (try (refine hcont _ ?_; exact DfaInv_cleared _ _ rfl rfl rfl rfl rfl))
                all_goals (try (intro a ha))
                all_goals (try (rcases ha with h | h))
                all_goals try first
                | (subst h; exact hcend)
                | (subst h; exact hcend.symm)
                | exact hrest a h
            · simp [token_delimiter, legal_token, PayloadWF, validIdentChars, hvalid, hca, hrest, hcend,
                h2, hw2, hs2]
              all_goals try constructor
              all_goals (try (refine hcont _ ?_; exact DfaInv_cleared _ _ rfl rfl rfl rfl rfl))
              all_goals (try (intro a ha))
              all_goals (try (rcases ha with h | h))
              all_goals try first
              | (subst h; exact hcend)
              | (subst h; exact hcend.symm)
              | exact hrest a h

/-- `_token_delimiter` either legalizes the pending token or leaves the
state untouched. -/
theorem token_delimiter_cases (st : DfaSt) (ttype : String) (eol : Bool)
    (next : Char) (look2 : Option Char) :
    token_delimiter st ttype eol next look2 =
      (some (legal_token st ttype).1, (legal_token st ttype).2) ∨
    token_delimiter st ttype eol next look2 = (none, st) := by
  unfold token_delimiter
  repeat' split
  all_goals simp_all

theorem rf_not_sf : ∀ x ∈ reservedFirstChars, x ∉ specialFirstChars := by decide
theorem rf_not_ws : ∀ x ∈ reservedFirstChars, x ∉ WHITE_SPACE := by decide
theorem rf_not_digit : ∀ x ∈ reservedFirstChars, x ∉ DECIMAL_DIGITS := by decide
theorem rf_not_cap : ∀ x ∈ reservedFirstChars, x ∉ CAPITALS := by decide
theorem sf_not_ws : ∀ x ∈ specialFirstChars, x ∉ WHITE_SPACE := by decide
theorem sf_not_digit : ∀ x ∈ specialFirstChars, x ∉ DECIMAL_DIGITS := by decide
theorem sf_not_cap : ∀ x ∈ specialFirstChars, x ∉ CAPITALS := by decide

/-- Invariant from field equations: special-symbol pending. -/
theorem DfaInv_of_spec (st : DfaSt) (cs : List Char)
    (h1 : st.isReserved = false) (h2 : st.isSpecial = true)
    (h3 : st.isInteger = false) (h4 : st.isIdentifier = false)
    (h5 : st.token ≠ []) : DfaInv st cs := by
  refine ⟨?_, ?_, ?_, ?_, ?_⟩ <;> intro h <;> simp_all

theorem payloadWF_ILLEGAL (s : String) : PayloadWF (.ILLEGAL s) := trivial

theorem payloadWF_EOF : PayloadWF .EOF := trivial

/-- One loop iteration from a reserved-word pending state: all tokens
emitted are payload-well-formed. -/
theorem lineLoop_wf_res (t0 : Char) (tok0 : List Char) (fin aw : Bool)
    (c : Char) (rest : List Char)
    (hcont : ∀ st', DfaInv st' rest → ∀ t ∈ (lineLoop st' rest).1, PayloadWF t) :
    ∀ t ∈ (lineLoop ⟨t0 :: tok0, true, false, false, false, fin, aw⟩ (c :: rest)).1,
      PayloadWF t := by
  rw [lineLoop]
  by_cases hp : ∃ x ∈ RESERVED_WORDS,
      t0 :: (tok0 ++ [c]) = List.take (tok0.length + 1 + 1) x.data
  · by_cases hf : ∃ x ∈ RESERVED_WORDS, t0 :: (tok0 ++ [c]) = x.data
    · cases rest with
      | nil =>
          rcases token_delimiter_cases
            ⟨t0 :: (tok0 ++ [c]), true, false, false, false, fin, false⟩
            "reserved" true ' ' none with hdel | hdel
          · simp [lineLoop, hp, hf, hdel, legal_token, payloadWF_reservedTok,
              payloadWF_ILLEGAL]
          · simp [lineLoop, hp, hf, hdel, payloadWF_ILLEGAL]
      | cons r0 rs =>
          rcases token_delimiter_cases
            ⟨t0 :: (tok0 ++ [c]), true, false, false, false, fin, false⟩
            "reserved" false r0 rs.head? with hdel | hdel
          · simp [hp, hf, hdel, legal_token, payloadWF_reservedTok, payloadWF_ILLEGAL]
            all_goals try constructor
            all_goals try exact payloadWF_reservedTok _
            all_goals (try (refine hcont _ ?_; exact DfaInv_cleared _ _ rfl rfl rfl rfl rfl))
          · simp [hp, hf, hdel, payloadWF_ILLEGAL]
            all_goals (try (refine hcont _ ?_; exact DfaInv_res _ _ _ _ (by simp)))
    · cases rest with
      | nil =>
          simp [lineLoop, hp, hf, payloadWF_ILLEGAL]
      | cons r0 rs =>
          simp [hp, hf, payloadWF_ILLEGAL]
          all_goals (try (refine hcont _ ?_; exact DfaInv_res _ _ _ _ (by simp)))
  · simp [hp, payloadWF_ILLEGAL]

theorem sf_not_rf : ∀ x ∈ specialFirstChars, x ∉ reservedFirstChars := by decide

set_option maxHeartbeats 3200000 in
/-- One loop iteration from a special-symbol pending state. -/
theorem lineLoop_wf_spec (t0 : Char) (tok0 : List Char) (fin aw : Bool)
    (c : Char) (rest : List Char)
    (hcont : ∀ st', DfaInv st' rest → ∀ t ∈ (lineLoop st' rest).1, PayloadWF t) :
    ∀ t ∈ (lineLoop ⟨t0 :: tok0, false, true, false, false, fin, aw⟩ (c :: rest)).1,
      PayloadWF t := by
  rw [lineLoop]
  rcases hsb : specialBlock ⟨(t0 :: (tok0 ++ [c])), false, true, false, false, fin, false⟩
      rest.isEmpty (rest.headD ' ') with ⟨acc4, st4⟩
  have hdesc := specialBlock_desc (t0 :: (tok0 ++ [c])) false true fin false
      rest.isEmpty (rest.headD ' ') (by simp)
  simp only [hsb] at hdesc
  obtain ⟨hwf4, hst4⟩ := hdesc
  rcases hst4 with ⟨he0, he1, he2, he3, he4⟩ | ⟨hne, hr4, hi4, hd4⟩
  · cases rest with
    | nil =>
        simp only [List.isEmpty_nil, List.headD_nil] at hsb
        simp [lineLoop, hsb, he0, he1, he2, he3, he4]
        all_goals try exact hwf4
        all_goals (try (intro t ht; rcases ht with ht | ht))
        all_goals try first
        | exact hwf4 t ht
        | (subst ht; exact trivial)
        | exact hcont _ (DfaInv_cleared _ _ he0 he1 he2 he3 he4) t ht
        | exact hcont _ (DfaInv_of_spec _ _ hr4 hS hi4 hd4 hne) t ht
    | cons r0 rs =>
        simp only [List.isEmpty_cons, List.headD_cons] at hsb
        simp [hsb, he0, he1, he2, he3, he4]
        all_goals try exact hwf4
        all_goals (try (intro t ht; rcases ht with ht | ht))
        all_goals try first
        | exact hwf4 t ht
        | (subst ht; exact trivial)
        | exact hcont _ (DfaInv_cleared _ _ he0 he1 he2 he3 he4) t ht
        | exact hcont _ (DfaInv_of_spec _ _ hr4 hS hi4 hd4 hne) t ht
  · by_cases hS : st4.isSpecial = true
    · cases rest with
      | nil =>
          simp only [List.isEmpty_nil, List.headD_nil] at hsb
          simp [lineLoop, hsb, hne, hr4, hi4, hd4, hS]
          all_goals try exact hwf4
          all_goals (try (intro t ht; rcases ht with ht | ht))
          all_goals try first
          | exact hwf4 t ht
          | (subst ht; exact trivial)
          | exact hcont _ (DfaInv_cleared _ _ he0 he1 he2 he3 he4) t ht
          | exact hcont _ (DfaInv_of_spec _ _ hr4 hS hi4 hd4 hne) t ht
      | cons r0 rs =>
          simp only [List.isEmpty_cons, List.headD_cons] at hsb
          simp [hsb, hne, hr4, hi4, hd4, hS]
          all_goals try exact hwf4
          all_goals (try (intro t ht; rcases ht with ht | ht))
          all_goals try first
          | exact hwf4 t ht
          | (subst ht; exact trivial)
          | exact hcont _ (DfaInv_cleared _ _ he0 he1 he2 he3 he4) t ht
          | exact hcont _ (DfaInv_of_spec _ _ hr4 hS hi4 hd4 hne) t ht
    · simp only [Bool.not_eq_true] at hS
      cases rest with
      | nil =>
          simp only [List.isEmpty_nil, List.headD_nil] at hsb
          simp [lineLoop, hsb, hne, hr4, hi4, hd4, hS, payloadWF_ILLEGAL]
          all_goals try exact hwf4
          all_goals (try (intro t ht; rcases ht with ht | ht))
          all_goals try first
          | exact hwf4 t ht
          | (subst ht; exact trivial)
          | exact hcont _ (DfaInv_cleared _ _ he0 he1 he2 he3 he4) t ht
          | exact hcont _ (DfaInv_of_spec _ _ hr4 hS hi4 hd4 hne) t ht
      | cons r0 rs =>
          simp only [List.isEmpty_cons, List.headD_cons] at hsb
          simp [hsb, hne, hr4, hi4, hd4, hS, payloadWF_ILLEGAL]
          all_goals try exact hwf4
          all_goals (try (intro t ht; rcases ht with ht | ht))
          all_goals try first
          | exact hwf4 t ht
          | (subst ht; exact trivial)
          | exact hcont _ (DfaInv_cleared _ _ he0 he1 he2 he3 he4) t ht
          | exact hcont _ (DfaInv_of_spec _ _ hr4 hS hi4 hd4 hne) t ht

set_option maxHeartbeats 3200000 in
/-- One loop iteration from the clean inter-token state on a character
that starts no integer or identifier. -/
theorem lineLoop_wf_fresh (fin aw : Bool) (c : Char) (rest : List Char)
    (hd : c ∉ DECIMAL_DIGITS) (hcap : c ∉ CAPITALS) (hws : c ∉ WHITE_SPACE)
    (hcont : ∀ st', DfaInv st' rest → ∀ t ∈ (lineLoop st' rest).1, PayloadWF t) :
    ∀ t ∈ (lineLoop ⟨[], false, false, false, false, fin, aw⟩ (c :: rest)).1,
      PayloadWF t := by
  rw [lineLoop]
  by_cases hr : c ∈ reservedFirstChars
  · have hsf := rf_not_sf c hr
    have hp : ∃ x ∈ RESERVED_WORDS, [c] = List.take 1 x.data := by
      fin_cases hr <;> decide
    have hf : ¬∃ x ∈ RESERVED_WORDS, [c] = x.data := by
      fin_cases hr <;> decide
    cases rest with
    | nil =>
        simp [hws, decide_eq_false hd, decide_eq_false hcap, decide_eq_true hr,
          decide_eq_false hsf, hp, hf, payloadWF_ILLEGAL]
    | cons r0 rs =>
        simp [hws, decide_eq_false hd, decide_eq_false hcap, decide_eq_true hr,
          decide_eq_false hsf, hp, hf, payloadWF_ILLEGAL]
        all_goals (try (refine hcont _ ?_; exact DfaInv_res _ _ _ _ (by simp)))
  · by_cases hsp : c ∈ specialFirstChars
    · have hnr := sf_not_rf c hsp
      rcases hsb : specialBlock ⟨[c], false, true, false, false, fin, false⟩
          rest.isEmpty (rest.headD ' ') with ⟨acc4, st4⟩
      have hdesc := specialBlock_desc [c] false true fin false
          rest.isEmpty (rest.headD ' ') (by simp)
      simp only [hsb] at hdesc
      obtain ⟨hwf4, hst4⟩ := hdesc
      rcases hst4 with ⟨he0, he1, he2, he3, he4⟩ | ⟨hne, hr4, hi4, hd4⟩
      · cases rest with
        | nil =>
            simp only [List.isEmpty_nil, List.headD_nil] at hsb
            simp [lineLoop, hws, decide_eq_false hd, decide_eq_false hcap, decide_eq_true hsp, decide_eq_false hnr, hsb, he0, he1, he2, he3, he4]
            all_goals try exact hwf4
            all_goals (try (intro t ht; rcases ht with ht | ht))
            all_goals try first
            | exact hwf4 t ht
            | (subst ht; exact trivial)
            | exact hcont _ (DfaInv_cleared _ _ he0 he1 he2 he3 he4) t ht
            | exact hcont _ (DfaInv_of_spec _ _ hr4 hS hi4 hd4 hne) t ht
        | cons r0 rs =>
            simp only [List.isEmpty_cons, List.headD_cons] at hsb
            simp [hws, decide_eq_false hd, decide_eq_false hcap, decide_eq_true hsp, decide_eq_false hnr, hsb, he0, he1, he2, he3, he4]
            all_goals try exact hwf4
            all_goals (try (intro t ht; rcases ht with ht | ht))
            all_goals try first
            | exact hwf4 t ht
            | (subst ht; exact trivial)
            | exact hcont _ (DfaInv_cleared _ _ he0 he1 he2 he3 he4) t ht
            | exact hcont _ (DfaInv_of_spec _ _ hr4 hS hi4 hd4 hne) t ht
      · by_cases hS : st4.isSpecial = true
        · cases rest with
          | nil =>
              simp only [List.isEmpty_nil, List.headD_nil] at hsb
              simp [lineLoop, hws, decide_eq_false hd, decide_eq_false hcap, decide_eq_true hsp, decide_eq_false hnr, hsb, hne, hr4, hi4, hd4, hS]
              all_goals try exact hwf4
              all_goals (try (intro t ht; rcases ht with ht | ht))
              all_goals try first
              | exact hwf4 t ht
              | (subst ht; exact trivial)
              | exact hcont _ (DfaInv_cleared _ _ he0 he1 he2 he3 he4) t ht
              | exact hcont _ (DfaInv_of_spec _ _ hr4 hS hi4 hd4 hne) t ht
          | cons r0 rs =>
              simp only [List.isEmpty_cons, List.headD_cons] at hsb
              simp [hws, decide_eq_false hd, decide_eq_false hcap, decide_eq_true hsp, decide_eq_false hnr, hsb, hne, hr4, hi4, hd4, hS]
              all_goals try exact hwf4
              all_goals (try (intro t ht; rcases ht with ht | ht))
              all_goals try first
              | exact hwf4 t ht
              | (subst ht; exact trivial)
              | exact hcont _ (DfaInv_cleared _ _ he0 he1 he2 he3 he4) t ht
              | exact hcont _ (DfaInv_of_spec _ _ hr4 hS hi4 hd4 hne) t ht
        · simp only [Bool.not_eq_true] at hS
          cases rest with
          | nil =>
              simp only [List.isEmpty_nil, List.headD_nil] at hsb
              simp [lineLoop, hws, decide_eq_false hd, decide_eq_false hcap, decide_eq_true hsp, decide_eq_false hnr, hsb, hne, hr4, hi4, hd4, hS, payloadWF_ILLEGAL]
              all_goals try exact hwf4
              all_goals (try (intro t ht; rcases ht with ht | ht))
              all_goals try first
              | exact hwf4 t ht
              | (subst ht; exact trivial)
              | exact hcont _ (DfaInv_cleared _ _ he0 he1 he2 he3 he4) t ht
              | exact hcont _ (DfaInv_of_spec _ _ hr4 hS hi4 hd4 hne) t ht
          | cons r0 rs =>
              simp only [List.isEmpty_cons, List.headD_cons] at hsb
              simp [hws, decide_eq_false hd, decide_eq_false hcap, decide_eq_true hsp, decide_eq_false hnr, hsb, hne, hr4, hi4, hd4, hS, payloadWF_ILLEGAL]
              all_goals try exact hwf4
              all_goals (try (intro t ht; rcases ht with ht | ht))
              all_goals try first
              | exact hwf4 t ht
              | (subst ht; exact trivial)
              | exact hcont _ (DfaInv_cleared _ _ he0 he1 he2 he3 he4) t ht
              | exact hcont _ (DfaInv_of_spec _ _ hr4 hS hi4 hd4 hne) t ht
    · simp [hd, hcap, hws, hr, hsp, payloadWF_ILLEGAL]

/-- Skipping leading whitespace preserves the invariant. -/
theorem DfaInv_tail (st : DfaSt) (c : Char) (cs : List Char)
    (htok : st.token = []) (h : DfaInv st (c :: cs)) : DfaInv st cs := by
  obtain ⟨h1, h2, h3, h4, h5⟩ := h
  have k1 : st.isReserved = false := by
    cases hv : st.isReserved
    · rfl
    · exact absurd htok (h1 hv).2.2.2
  have k2 : st.isSpecial = false := by
    cases hv : st.isSpecial
    · rfl
    · exact absurd htok (h2 hv).2.2.2
  have k3 : st.isInteger = false := by
    cases hv : st.isInteger
    · rfl
    · exact absurd htok (h3 hv).2.2.2.1
  have k4 : st.isIdentifier = false := by
    cases hv : st.isIdentifier
    · rfl
    · have hval := (h4 hv).2.2.2.1
      rw [htok] at hval
      simpa [validIdentChars] using hval
  exact DfaInv_cleared st cs htok k1 k2 k3 k4

/-- Every integer or identifier token the character loop emits from an
invariant-respecting state has a well-formed payload. -/
theorem lineLoop_payloadWF : ∀ (cs : List Char) (st : DfaSt), DfaInv st cs →
    ∀ t ∈ (lineLoop st cs).1, PayloadWF t := by
  intro cs
  induction cs with
  | nil =>
      intro st _ t ht
      simp [lineLoop] at ht
  | cons c rest ih =>
    intro st hInv
    by_cases hws : st.token = [] ∧ c ∈ WHITE_SPACE
    · obtain ⟨h1, h2⟩ := hws
      have hInv2 := DfaInv_tail st c rest h1 hInv
      rw [lineLoop]
      have hcond : (st.token.isEmpty = true ∧ c ∈ WHITE_SPACE) := ⟨by simp [h1], h2⟩
      rw [if_pos hcond]
      exact ih st hInv2
    · by_cases hTok : st.token = []
      · have hwsc : c ∉ WHITE_SPACE := fun hw => hws ⟨hTok, hw⟩
        obtain ⟨tok, f1, f2, f3, f4, fin, aw⟩ := st
        simp only at hTok
        subst hTok
        by_cases hd : c ∈ DECIMAL_DIGITS
        · rw [lineLoop_freshFlags (c :: rest) f1 f2 f3 f4 false false true false fin aw]
          exact lineLoop_wf_int [] fin aw c rest (by simp) hd (fun st' hi => ih st' hi)
        · by_cases hcap : c ∈ CAPITALS
          · rw [lineLoop_freshFlags (c :: rest) f1 f2 f3 f4 false false false true fin aw]
            exact lineLoop_wf_ident [] fin aw c rest (fun _ => hcap)
              (fun a0 acc0 h => nomatch h) (fun st' hi => ih st' hi)
          · rw [lineLoop_freshFlags (c :: rest) f1 f2 f3 f4 false false false false fin aw]
            exact lineLoop_wf_fresh fin aw c rest hd hcap hwsc (fun st' hi => ih st' hi)
      · obtain ⟨tok, f1, f2, f3, f4, fin, aw⟩ := st
        obtain ⟨h1, h2, h3, h4, h5⟩ := hInv
        simp only at hTok h1 h2 h3 h4 h5
        obtain ⟨t0, tok0, htok⟩ : ∃ t0 tok0, tok = t0 :: tok0 := by
          cases hx : tok
          · exact absurd hx hTok
          · exact ⟨_, _, rfl⟩
        subst htok
        rcases h5 hTok with hv | hv | hv | hv
        · obtain ⟨k2, k3, k4, -⟩ := h1 hv
          subst hv
          subst k2
          subst k3
          subst k4
          exact lineLoop_wf_res t0 tok0 fin aw c rest (fun st' hi => ih st' hi)
        · obtain ⟨k1, k3, k4, -⟩ := h2 hv
          subst hv
          subst k1
          subst k3
          subst k4
          exact lineLoop_wf_spec t0 tok0 fin aw c rest (fun st' hi => ih st' hi)
        · obtain ⟨k1, k2, k4, -, hdig, hhead⟩ := h3 hv
          subst hv
          subst k1
          subst k2
          subst k4
          exact lineLoop_wf_int (t0 :: tok0) fin aw c rest hdig
            (hhead c rfl) (fun st' hi => ih st' hi)
        · obtain ⟨k1, k2, k3, hval, hhead⟩ := h4 hv
          subst hv
          subst k1
          subst k2
          subst k3
          exact lineLoop_wf_ident (t0 :: tok0) fin aw c rest
            (fun h => nomatch h)
            (fun a0 acc0 h => by
              cases h
              exact ⟨hval.1, hval.2, (hhead c rfl).symm⟩)
            (fun st' hi => ih st' hi)

/-- All tokens of the current line of a tokenizer state are
payload-well-formed. -/
def TokWF (tk : TokSt) : Prop := ∀ t ∈ tk.toks, PayloadWF t

/-- Any line tokenizes to payload-well-formed tokens. -/
theorem lineWF_all (l : String) : ∀ t ∈ (lineLoop dfaStart l.data).1, PayloadWF t :=
  lineLoop_payloadWF l.data dfaStart (DfaInv_cleared _ _ rfl rfl rfl rfl rfl)

/-- `_tokenize_line` always yields payload-well-formed tokens. -/
theorem tokenizeLines_TokWF : ∀ (lines : List String) (n : Nat) (closed : Bool)
    (tk : TokSt), tokenizeLines lines n closed = .ok tk → TokWF tk := by
  intro lines
  induction lines with
  | nil =>
      intro n closed tk h
      cases closed
      · simp only [tokenizeLines] at h
        cases h
        intro t ht
        simp at ht
        subst ht
        exact trivial
      · simp [tokenizeLines] at h
  | cons l rest ih =>
      intro n closed tk h
      cases closed
      · simp only [tokenizeLines] at h
        split at h
        · exact ih _ _ _ h
        · cases h
          exact lineWF_all l
      · simp [tokenizeLines] at h

/-- `skip_token` preserves payload well-formedness. -/
theorem skip_TokWF (tk tk' : TokSt) (h : TokWF tk)
    (hs : skip_token tk = .ok tk') : TokWF tk' := by
  unfold skip_token at hs
  split at hs
  · cases hs
    exact h
  · exact tokenizeLines_TokWF _ _ _ _ hs

/-- `get_token` returns a payload-well-formed token. -/
theorem get_TokWF (tk : TokSt) (t : PTok) (h : TokWF tk)
    (hg : get_token tk = .ok t) : PayloadWF t := by
  unfold get_token at hg
  split at hg
  · cases hg
  · cases hg
  · cases hg
    exact h _ (List.get?_mem (by assumption))

/-- `Tokenizer.__init__` yields payload-well-formed tokens. -/
theorem mkTokenizer_TokWF (file : List String) (tk : TokSt)
    (h : mkTokenizer file = .ok tk) : TokWF tk :=
  tokenizeLines_TokWF file 0 false tk h

/-! ## Well-formedness of parsed syntax trees -/

/-- Stratified well-formedness of expressions relative to the declared
names `D`: level 0 is `<op>`, level 1 is `<fac>`, level 2 is `<exp>` of
the grammar.  Integer literals are nonnegative, identifiers are valid
declared names, and the tree is exactly as the recursive-descent parser
builds it. -/
inductive WFE (D : List String) : Nat → Exp → Prop where
  | intOp (v : Int) : 0 ≤ v → WFE D 0 (.intL v)
  | idOp (x : String) : validIdentChars x.data → x ∈ D → WFE D 0 (.idL x)
  | parenOp (e : Exp) : WFE D 2 e → WFE D 0 (.paren e)
  | mulFac (l r : Exp) : WFE D 0 l → WFE D 1 r → WFE D 1 (.mul l r)
  | opFac (e : Exp) : WFE D 0 e → WFE D 1 e
  | addExp (l r : Exp) : WFE D 1 l → WFE D 2 r → WFE D 2 (.add l r)
  | subExp (l r : Exp) : WFE D 1 l → WFE D 2 r → WFE D 2 (.sub l r)
  | facExp (e : Exp) : WFE D 1 e → WFE D 2 e

/-- Well-formedness of conditions relative to the declared names. -/
inductive WFC (D : List String) : Cond → Prop where
  | comp (l : Exp) (o : CmpOp) (r : Exp) :
      WFE D 0 l → WFE D 0 r → WFC D (.comp l o r)
  | notC (c : Cond) : WFC D c → WFC D (.notC c)
  | andC (l r : Cond) : WFC D l → WFC D r → WFC D (.andC l r)
  | orC (l r : Cond) : WFC D l → WFC D r → WFC D (.orC l r)

/-- Well-formedness of statements relative to the declared names. -/
inductive WFS (D : List String) : Stmt → Prop where
  | assign (line : Nat) (x : String) (e : Exp) :
      validIdentChars x.data → x ∈ D → WFE D 2 e → WFS D (.assign line x e)
  | readS (line : Nat) (ns : List String) : ns ≠ [] →
      (∀ x ∈ ns, validIdentChars x.data ∧ x ∈ D) → WFS D (.readS line ns)
  | writeS (line : Nat) (ns : List String) : ns ≠ [] →
      (∀ x ∈ ns, validIdentChars x.data ∧ x ∈ D) → WFS D (.writeS line ns)
  | ifS (line : Nat) (c : Cond) (tb : List Stmt) (eb : Option (List Stmt)) :
      WFC D c → tb ≠ [] → (∀ s ∈ tb, WFS D s) →
      (∀ el, eb = some el → el ≠ []) →
      (∀ el, eb = some el → ∀ s ∈ el, WFS D s) →
      WFS D (.ifS line c tb eb)
  | whileS (line : Nat) (c : Cond) (b : List Stmt) :
      WFC D c → b ≠ [] → (∀ s ∈ b, WFS D s) → WFS D (.whileS line c b)

/-- Well-formedness of a parsed program: nonempty declarations of
pairwise-distinct valid names, and a nonempty well-formed body. -/
def WFProgP (p : ProgA) : Prop :=
  p.decls ≠ [] ∧ (∀ d ∈ p.decls, d ≠ []) ∧
  (∀ x ∈ p.decls.flatten, validIdentChars x.data) ∧ p.decls.flatten.Nodup ∧
  p.body ≠ [] ∧ ∀ s ∈ p.body, WFS p.decls.flatten s

/-- The declared names of a parser symbol table, in declaration order. -/
def namesOf (e : Env) : List String := e.map (·.name)

/-! ## Lift lemmas for the parser's primitive state operations -/

theorem namesOf_envSetLine (env : Env) (x : String) (k : Option Nat) (v : Nat) :
    namesOf (envSetLine env x k v) = namesOf env := by
  unfold namesOf envSetLine
  rw [List.map_map]
  apply List.map_congr_left
  intro r _
  simp only [Function.comp]
  split <;> rfl

theorem pGetTok_wf (ps : ParseSt) (t : PTok) (htw : TokWF ps.tk)
    (h : pGetTok ps = .ok t) : PayloadWF t := by
  unfold pGetTok at h
  split at h
  · cases h
  · cases h
  · rename_i hg
    cases h
    exact get_TokWF _ _ htw hg

theorem pSkip_post (ps ps1 : ParseSt) (h : pSkip ps = .ok ps1) :
    ps1.ids = ps.ids ∧ ps1.declPath = ps.declPath ∧
    (TokWF ps.tk → TokWF ps1.tk) := by
  unfold pSkip at h
  split at h
  · cases h
  · rename_i tk' hs
    cases h
    exact ⟨rfl, rfl, fun htw => skip_TokWF _ _ htw hs⟩

theorem checker_post (n : Nat) (s : String) (ps ps1 : ParseSt)
    (h : checker n s ps = .ok ps1) :
    ps1.ids = ps.ids ∧ ps1.declPath = ps.declPath ∧
    (TokWF ps.tk → TokWF ps1.tk) := by
  unfold checker at h
  simp only [bind, Except.bind] at h
  split at h
  · cases h
  · split at h
    · cases h
    · split at h
      · exact pSkip_post ps ps1 h
      · cases h
        exact ⟨rfl, rfl, fun htw => htw⟩

theorem id_name_wf (tk : TokSt) (name : String) (htw : TokWF tk)
    (h : id_name tk = some name) : validIdentChars name.data := by
  unfold id_name at h
  split at h
  · rename_i s hget
    cases h
    exact htw _ (List.get?_mem hget)
  · cases h

theorem checker_noskip (n : Nat) (ps ps1 : ParseSt)
    (h : checker n "identifier" ps = .ok ps1) : ps1 = ps := by
  unfold checker at h
  simp only [bind, Except.bind] at h
  split at h
  · cases h
  · split at h
    · cases h
    · split at h
      · rename_i hcond
        exact absurd hcond (by simp)
      · cases h
        rfl

theorem idParse_post (ps : ParseSt) (name : String) (ps1 : ParseSt)
    (htw : TokWF ps.tk) (h : idParse ps = .ok (name, ps1)) :
    validIdentChars name.data ∧ TokWF ps1.tk ∧ ps1.declPath = ps.declPath ∧
    (ps.declPath = true → namesOf ps1.ids = namesOf ps.ids ++ [name] ∧
      name ∉ namesOf ps.ids) ∧
    (ps.declPath = false → ps1.ids = ps.ids ∧ name ∈ namesOf ps.ids) := by
  unfold idParse at h
  simp only [bind, Except.bind] at h
  split at h
  · cases h
  · rename_i psc hch
    have hpsc := checker_noskip _ _ _ hch
    subst hpsc
    split at h
    · cases h
    · rename_i nm hnm
      have hval : validIdentChars nm.data := id_name_wf _ _ htw hnm
      split at h
      · rename_i hdp
        split at h
        · cases h
        · rename_i hnotin
          split at h
          · cases h
          · rename_i ps2 hskp
            cases h
            obtain ⟨hi2, hd2, hw2⟩ := pSkip_post _ _ hskp
            have hnin : name ∉ namesOf psc.ids := by
              intro hmem
              apply hnotin
              unfold namesOf at hmem
              simpa using hmem
            refine ⟨hval, hw2 htw, by rw [hd2], fun _ => ⟨?_, hnin⟩, fun hf =>
              absurd hdp (by simp [hf])⟩
            rw [hi2]
            simp [namesOf]
      · rename_i hdp
        split at h
        · rename_i rec hfind
          split at h
          · cases h
          · rename_i ps2 hskp
            cases h
            obtain ⟨hi2, hd2, hw2⟩ := pSkip_post _ _ hskp
            have hmem : name ∈ namesOf psc.ids := by
              have h1 := List.mem_of_find?_eq_some hfind
              have h2 := List.find?_some hfind
              simp only [decide_eq_true_eq] at h2
              unfold namesOf
              rw [← h2]
              exact List.mem_map_of_mem _ h1
            refine ⟨hval, hw2 htw, by rw [hd2], fun ht =>
              absurd ht (by simp [hdp]), fun _ => ⟨hi2, hmem⟩⟩
        · cases h

theorem digit_not_pyWs : ∀ c ∈ DECIMAL_DIGITS, c ∉ pyWs := by decide
theorem digit_ne_plus : ∀ c ∈ DECIMAL_DIGITS, c ≠ '+' := by decide
theorem digit_ne_minus : ∀ c ∈ DECIMAL_DIGITS, c ≠ '-' := by decide

theorem dropWhile_of_none {p : Char → Bool} (l : List Char)
    (h : ∀ c ∈ l, ¬p c) : l.dropWhile p = l := by
  cases l with
  | nil => rfl
  | cons c rest =>
      rw [List.dropWhile_cons, if_neg]
      simp only [Bool.not_eq_true] at h
      simp [h c (by simp)]

/-- Python `int()` of a nonempty digit string yields a nonnegative
value. -/
theorem pyInt_digits_nonneg (s : String) (h1 : s.data ≠ [])
    (h2 : ∀ c ∈ s.data, c ∈ DECIMAL_DIGITS) (v : Int)
    (h : pyInt s = some v) : 0 ≤ v := by
  unfold pyInt at h
  rw [dropWhile_of_none s.data
    (fun c hc => by simp [digit_not_pyWs c (h2 c hc)])] at h
  rw [dropWhile_of_none s.data.reverse
    (fun c hc => by simp [digit_not_pyWs c (h2 c (List.mem_reverse.mp hc))]),
    List.reverse_reverse] at h
  rcases hx : s.data with - | ⟨c, rest⟩
  · exact absurd hx h1
  · rw [hx] at h
    have hcd := h2 c (by rw [hx]; simp)
    simp only [if_neg (show ¬c = '+' by simp [digit_ne_plus c hcd]),
      if_neg (show ¬c = '-' by simp [digit_ne_minus c hcd])] at h
    obtain ⟨n, -, hv⟩ := Option.map_eq_some'.mp h
    rw [← hv]
    exact Int.ofNat_nonneg n

/-- `int_val` on a payload-well-formed cursor yields a nonnegative
value. -/
theorem int_val_nonneg (tk : TokSt) (v : Int) (htw : TokWF tk)
    (h : int_val tk = some v) : 0 ≤ v := by
  unfold int_val at h
  split at h
  · rename_i s hget
    have hwf := htw _ (List.get?_mem hget)
    exact pyInt_digits_nonneg s hwf.1 hwf.2 v h
  · cases h

/-- Preconditions of the parse requests: the statement path requires
`decl_seq_path` off, the declaration path requires it on, and `Prog`
additionally starts from an empty symbol table. -/
def PPre : PReq → ParseSt → Prop
  | .prog, ps => ps.declPath = true ∧ ps.ids = []
  | .declSeq, ps => ps.declPath = true
  | .decl, ps => ps.declPath = true
  | .idList _, _ => True
  | .compOp, _ => True
  | _, ps => ps.declPath = false

/-- Postcondition of a successful parse request: shape and
well-formedness of the result, and evolution of the symbol table. -/
def PPost : PReq → PRes → ParseSt → ParseSt → Prop
  | .prog, .prog p, _, ps' => WFProgP p ∧ ps'.declPath = false
  | .declSeq, .declSeq ds, ps, ps' =>
      ds ≠ [] ∧ (∀ d ∈ ds, d ≠ []) ∧ (∀ x ∈ ds.flatten, validIdentChars x.data) ∧
      namesOf ps'.ids = namesOf ps.ids ++ ds.flatten ∧
      ((namesOf ps.ids).Nodup → (namesOf ps'.ids).Nodup) ∧
      ps'.declPath = ps.declPath
  | .decl, .decl ns, ps, ps' =>
      ns ≠ [] ∧ (∀ x ∈ ns, validIdentChars x.data) ∧
      namesOf ps'.ids = namesOf ps.ids ++ ns ∧
      ((namesOf ps.ids).Nodup → (namesOf ps'.ids).Nodup) ∧
      ps'.declPath = ps.declPath
  | .idList _, .idList ns, ps, ps' =>
      ns ≠ [] ∧ (∀ x ∈ ns, validIdentChars x.data) ∧ ps'.declPath = ps.declPath ∧
      (ps.declPath = true → namesOf ps'.ids = namesOf ps.ids ++ ns ∧
        ((namesOf ps.ids).Nodup → (namesOf ps'.ids).Nodup)) ∧
      (ps.declPath = false → namesOf ps'.ids = namesOf ps.ids ∧
        ∀ x ∈ ns, x ∈ namesOf ps.ids)
  | .stmtSeq _, .stmtSeq ss, ps, ps' =>
      ss ≠ [] ∧ (∀ s ∈ ss, WFS (namesOf ps.ids) s) ∧
      namesOf ps'.ids = namesOf ps.ids ∧ ps'.declPath = ps.declPath
  | .stmt _, .stmt s, ps, ps' =>
      WFS (namesOf ps.ids) s ∧ namesOf ps'.ids = namesOf ps.ids ∧
      ps'.declPath = ps.declPath
  | .assignS, .stmt s, ps, ps' =>
      WFS (namesOf ps.ids) s ∧ namesOf ps'.ids = namesOf ps.ids ∧
      ps'.declPath = ps.declPath
  | .inS, .stmt s, ps, ps' =>
      WFS (namesOf ps.ids) s ∧ namesOf ps'.ids = namesOf ps.ids ∧
      ps'.declPath = ps.declPath
  | .outS, .stmt s, ps, ps' =>
      WFS (namesOf ps.ids) s ∧ namesOf ps'.ids = namesOf ps.ids ∧
      ps'.declPath = ps.declPath
  | .loopS _, .stmt s, ps, ps' =>
      WFS (namesOf ps.ids) s ∧ namesOf ps'.ids = namesOf ps.ids ∧
      ps'.declPath = ps.declPath
  | .ifS _, .stmt s, ps, ps' =>
      WFS (namesOf ps.ids) s ∧ namesOf ps'.ids = namesOf ps.ids ∧
      ps'.declPath = ps.declPath
  | .cond _, .cond c, ps, ps' =>
      WFC (namesOf ps.ids) c ∧ namesOf ps'.ids = namesOf ps.ids ∧
      ps'.declPath = ps.declPath
  | .compC _, .cond c, ps, ps' =>
      WFC (namesOf ps.ids) c ∧ namesOf ps'.ids = namesOf ps.ids ∧
      ps'.declPath = ps.declPath
  | .compOp, .compOp _, ps, ps' =>
      namesOf ps'.ids = namesOf ps.ids ∧ ps'.declPath = ps.declPath
  | .exp _, .exp e, ps, ps' =>
      WFE (namesOf ps.ids) 2 e ∧ namesOf ps'.ids = namesOf ps.ids ∧
      ps'.declPath = ps.declPath
  | .fac _, .exp e, ps, ps' =>
      WFE (namesOf ps.ids) 1 e ∧ namesOf ps'.ids = namesOf ps.ids ∧
      ps'.declPath = ps.declPath
  | .op _, .exp e, ps, ps' =>
      WFE (namesOf ps.ids) 0 e ∧ namesOf ps'.ids = namesOf ps.ids ∧
      ps'.declPath = ps.declPath
  | .parenthExp _, .exp e, ps, ps' =>
      WFE (namesOf ps.ids) 2 e ∧ namesOf ps'.ids = namesOf ps.ids ∧
      ps'.declPath = ps.declPath
  | _, _, _, _ => True

/-- A successful parse request establishes its postcondition: the
resulting syntax tree is well-formed relative to the declared
identifiers, and the symbol-table names and path flag evolve as
specified. -/
theorem parse_wf : ∀ fuel req ps res ps',
    parseStep fuel req ps = .ok (res, ps') → PPre req ps → TokWF ps.tk →
    PPost req res ps ps' ∧ TokWF ps'.tk := by
  intro fuel
  induction fuel with
  | zero =>
      intro req ps res ps' h
      simp [parseStep] at h
  | succ fuel ih =>
    intro req ps res ps' h hpre htw
    cases req with
    | prog =>
        obtain ⟨hdp, hids⟩ := hpre
        simp only [parseStep, bind, Except.bind] at h
        split at h
        · cases h
        · rename_i ps1 hq1
          obtain ⟨hi1, hd1, hw1⟩ := checker_post _ _ _ _ hq1
          split at h
          · cases h
          · rename_i v hp1
            split at h
            · rename_i p ds ps2
              obtain ⟨post1, htw2⟩ := ih _ _ _ _ hp1
                (by simp only [PPre]; rw [hd1, hdp]) (hw1 htw)
              obtain ⟨hds0, hds1, hds2, hnm2, hnd2, hdp2⟩ := post1
              split at h
              · cases h
              · rename_i ps3 hq2
                obtain ⟨hi3, hd3, hw3⟩ := checker_post _ _ _ _ hq2
                split at h
                · cases h
                · rename_i v2 hp2
                  split at h
                  · rename_i p2 body ps4
                    obtain ⟨post2, htw4⟩ := ih _ _ _ _ hp2
                      (by simp only [PPre]; rw [hd3]) (hw3 htw2)
                    obtain ⟨hb0, hb1, hnm4, hdp4⟩ := post2
                    split at h
                    · cases h
                    · rename_i ps5 hq3
                      obtain ⟨hi5, hd5, hw5⟩ := checker_post _ _ _ _ hq3
                      split at h
                      · cases h
                      · rename_i ps6 hq4
                        obtain ⟨hi6, hd6, hw6⟩ := checker_post _ _ _ _ hq4
                        cases h
                        have hflat : namesOf ps2.ids = ds.flatten := by
                          rw [hnm2, hi1, hids]
                          simp [namesOf]
                        refine ⟨⟨⟨hds0, hds1, ?_, ?_, hb0, ?_⟩, ?_⟩,
                          hw6 (hw5 htw4)⟩
                        · exact hds2
                        · show ds.flatten.Nodup
                          rw [← hflat]
                          exact hnd2 (by rw [hi1, hids]; simp [namesOf])
                        · show ∀ s ∈ body, WFS ds.flatten s
                          intro s hs
                          have hw := hb1 s hs
                          have hn3 : namesOf ps3.ids = namesOf ps2.ids := by
                            rw [hi3]
                          rw [hn3, hflat] at hw
                          exact hw
                        · rw [hd6, hd5, hdp4, hd3]
                  · cases h
            · cases h
    | declSeq =>
        simp only [parseStep, bind, Except.bind] at h
        split at h
        · cases h
        · rename_i v hp1
          split at h
          · rename_i p ns ps1
            obtain ⟨post1, htw1⟩ := ih _ _ _ _ hp1 (by exact hpre) htw
            obtain ⟨hq0, hq1, hq2, hq3, hq4⟩ := post1
            split at h
            · cases h
            · rename_i t hg1
              split at h
              · rename_i hc
                split at h
                · cases h
                · rename_i v2 hp2
                  split at h
                  · rename_i p2 ds2 ps2
                    obtain ⟨post2, htw2⟩ := ih _ _ _ _ hp2
                      (show PPre .declSeq ps1 by
                        simp only [PPre]
                        rw [hq4]
                        exact hpre) htw1
                    obtain ⟨hd0, hd1, hd2, hd3, hd4, hd5⟩ := post2
                    cases h
                    refine ⟨⟨by simp, ?_, ?_, ?_, ?_, ?_⟩, htw2⟩
                    · intro d hd
                      rcases List.mem_cons.mp hd with rfl | hd
                      · exact hq0
                      · exact hd1 d hd
                    · intro x hx
                      rw [List.flatten_cons] at hx
                      rcases List.mem_append.mp hx with hx | hx
                      · exact hq1 x hx
                      · exact hd2 x hx
                    · rw [List.flatten_cons, hd3, hq2, List.append_assoc]
                    · intro hnd
                      exact hd4 (hq3 hnd)
                    · rw [hd5, hq4]
                  · cases h
              · rename_i hc
                cases h
                refine ⟨⟨by simp, ?_, ?_, ?_, hq3, hq4⟩, htw1⟩
                · intro d hd
                  rcases List.mem_cons.mp hd with rfl | hd
                  · exact hq0
                  · simp at hd
                · intro x hx
                  simp only [List.flatten_cons, List.flatten_nil,
                    List.append_nil] at hx
                  exact hq1 x hx
                · rw [hq2]
                  simp
          · cases h
    | decl =>
        simp only [parseStep, bind, Except.bind] at h
        split at h
        · cases h
        · rename_i ps1 hck1
          obtain ⟨hi1, hd1, hw1⟩ := checker_post _ _ _ _ hck1
          split at h
          · cases h
          · rename_i v hp1
            split at h
            · rename_i p ns ps2
              obtain ⟨post1, htw2⟩ := ih _ _ _ _ hp1 trivial (hw1 htw)
              obtain ⟨hq0, hq1v, hqdp, hqT, hqF⟩ := post1
              have hdptrue : ps1.declPath = true := by
                rw [hd1]
                exact hpre
              obtain ⟨hnm, hnd⟩ := hqT hdptrue
              split at h
              · cases h
              · rename_i ps3 hck2
                obtain ⟨hi3, hd3, hw3⟩ := checker_post _ _ _ _ hck2
                cases h
                refine ⟨⟨hq0, hq1v, ?_, ?_, ?_⟩, hw3 htw2⟩
                · unfold namesOf
                  rw [hi3, hi1] at *
                  rw [← hi1]
                  exact hnm
                · intro hnd0
                  unfold namesOf
                  rw [hi3]
                  exact hnd (by unfold namesOf; rw [hi1]; exact hnd0)
                · rw [hd3, hqdp, hd1]
            · cases h
    | idList lineArg =>
        simp only [parseStep, bind, Except.bind] at h
        split at h
        · cases h
        · rename_i v hi1
          obtain ⟨hval, htwv, hdpv, hTv, hFv⟩ := idParse_post _ _ _ htw hi1
          split at h
          · cases h
          · rename_i t hg1
            split at h
            · rename_i hc
              split at h
              · cases h
              · rename_i ps3 hskp
                obtain ⟨hi3, hd3, hw3⟩ := pSkip_post _ _ hskp
                split at h
                · cases h
                · rename_i v3 hp1
                  split at h
                  · rename_i p ns2 ps4
                    obtain ⟨post2, htw4⟩ := ih _ _ _ _ hp1 trivial
                      (hw3 (by exact htwv))
                    obtain ⟨hn0, hn1, hndp, hnT, hnF⟩ := post2
                    cases h
                    have hnm3 : namesOf ps3.ids = namesOf v.2.ids := by
                      rw [hi3]
                      exact namesOf_envSetLine _ _ _ _
                    have hdp3 : ps3.declPath = ps.declPath := by
                      rw [hd3]
                      exact hdpv
                    refine ⟨⟨by simp, ?_, ?_, ?_, ?_⟩, htw4⟩
                    · intro x hx
                      rcases List.mem_cons.mp hx with rfl | hx
                      · exact hval
                      · exact hn1 x hx
                    · rw [hndp, hdp3]
                    · intro hdT
                      obtain ⟨hnmA, hfreshA⟩ := hTv hdT
                      obtain ⟨hnm4, hnd4⟩ := hnT (by rw [hdp3]; exact hdT)
                      constructor
                      · rw [hnm4, hnm3, hnmA, List.append_assoc]
                        rfl
                      · intro hnd0
                        apply hnd4
                        rw [hnm3, hnmA]
                        rw [List.nodup_append]
                        refine ⟨hnd0, by simp, ?_⟩
                        intro a ha hb
                        simp at hb
                        subst hb
                        exact hfreshA ha
                    · intro hdF
                      obtain ⟨hidsF, hmemF⟩ := hFv hdF
                      obtain ⟨hnm4, hsub4⟩ := hnF (by rw [hdp3]; exact hdF)
                      have hnmv : namesOf v.2.ids = namesOf ps.ids := by
                        rw [hidsF]
                      constructor
                      · rw [hnm4, hnm3, hnmv]
                      · intro x hx
                        rcases List.mem_cons.mp hx with rfl | hx
                        · exact hmemF
                        · have := hsub4 x hx
                          rw [hnm3, hnmv] at this
                          exact this
                  · cases h
            · rename_i hc
              cases h
              have hnm2 : namesOf (envSetLine v.2.ids v.1 lineArg
                  v.2.tk.lineNumber) = namesOf v.2.ids :=
                namesOf_envSetLine _ _ _ _
              refine ⟨⟨by simp, ?_, ?_, ?_, ?_⟩, by exact htwv⟩
              · intro x hx
                simp at hx
                subst hx
                exact hval
              · exact hdpv
              · intro hdT
                obtain ⟨hnmA, hfrA⟩ := hTv hdT
                constructor
                · show namesOf (envSetLine v.2.ids v.1 lineArg
                    v.2.tk.lineNumber) = _
                  rw [hnm2, hnmA]
                · intro hnd0
                  show (namesOf (envSetLine v.2.ids v.1 lineArg
                    v.2.tk.lineNumber)).Nodup
                  rw [hnm2, hnmA, List.nodup_append]
                  refine ⟨hnd0, by simp, ?_⟩
                  intro a ha hb
                  simp at hb
                  subst hb
                  exact hfrA ha
              · intro hdF
                obtain ⟨hidsF, hmemF⟩ := hFv hdF
                constructor
                · show namesOf (envSetLine v.2.ids v.1 lineArg
                    v.2.tk.lineNumber) = _
                  rw [hnm2, hidsF]
                · intro x hx
                  simp at hx
                  subst hx
                  exact hmemF
    | stmtSeq indent =>
        simp only [parseStep, bind, Except.bind] at h
        split at h
        · cases h
        · rename_i v hp1
          split at h
          · rename_i p s1 ps1
            obtain ⟨post1, htw1⟩ := ih _ _ _ _ hp1 (by exact hpre) htw
            obtain ⟨hs1, hnm1, hdp1⟩ := post1
            split at h
            · cases h
            · rename_i t hg1
              split at h
              · rename_i hc
                split at h
                · cases h
                · rename_i v2 hp2
                  split at h
                  · rename_i p2 ss2 ps2
                    obtain ⟨post2, htw2⟩ := ih _ _ _ _ hp2
                      (by show ps1.declPath = false; rw [hdp1]; exact hpre) htw1
                    obtain ⟨hss0, hss1, hnm2, hdp2⟩ := post2
                    cases h
                    refine ⟨⟨by simp, ?_, ?_, ?_⟩, htw2⟩
                    · intro s hs
                      rcases List.mem_cons.mp hs with rfl | hs
                      · exact hs1
                      · rw [← hnm1]
                        exact hss1 s hs
                    · rw [hnm2, hnm1]
                    · rw [hdp2, hdp1]
                  · cases h
              · rename_i hc
                cases h
                refine ⟨⟨by simp, ?_, hnm1, hdp1⟩, htw1⟩
                intro s hs
                simp at hs
                subst hs
                exact hs1
          · cases h
    | stmt indent =>
        simp only [parseStep, bind, Except.bind] at h
        split at h
        · cases h
        · rename_i t hg1
          split at h
          · obtain ⟨post1, htw1⟩ := ih _ _ _ _ h (by exact hpre) htw
            refine ⟨?_, htw1⟩
            cases res
            all_goals try exact trivial
            exact post1
          · split at h
            · obtain ⟨post1, htw1⟩ := ih _ _ _ _ h (by exact hpre) htw
              refine ⟨?_, htw1⟩
              cases res
              all_goals try exact trivial
              exact post1
            · split at h
              · obtain ⟨post1, htw1⟩ := ih _ _ _ _ h (by exact hpre) htw
                refine ⟨?_, htw1⟩
                cases res
                all_goals try exact trivial
                exact post1
              · split at h
                · obtain ⟨post1, htw1⟩ := ih _ _ _ _ h (by exact hpre) htw
                  refine ⟨?_, htw1⟩
                  cases res
                  all_goals try exact trivial
                  exact post1
                · split at h
                  · obtain ⟨post1, htw1⟩ := ih _ _ _ _ h (by exact hpre) htw
                    refine ⟨?_, htw1⟩
                    cases res
                    all_goals try exact trivial
                    exact post1
                  · split at h
                    · cases h
                    · cases h
    | assignS =>
        simp only [parseStep, bind, Except.bind] at h
        split at h
        · cases h
        · rename_i v hi1
          obtain ⟨hval, htwv, hdpv, hTv, hFv⟩ := idParse_post _ _ _ htw hi1
          obtain ⟨hids, hmem⟩ := hFv (by exact hpre)
          split at h
          · cases h
          · rename_i ps1 hck1
            obtain ⟨hi1c, hd1, hw1⟩ := checker_post _ _ _ _ hck1
            split at h
            · cases h
            · rename_i v2 hp1
              split at h
              · rename_i p e ps2
                obtain ⟨post1, htw2⟩ := ih _ _ _ _ hp1
                  (by show ps1.declPath = false; rw [hd1, hdpv]; exact hpre)
                  (hw1 htwv)
                obtain ⟨hwe, hnm2, hdp2⟩ := post1
                split at h
                · cases h
                · rename_i ps3 hck2
                  obtain ⟨hi3, hd3, hw3⟩ := checker_post _ _ _ _ hck2
                  cases h
                  have hnm1 : namesOf ps1.ids = namesOf ps.ids := by
                    rw [hi1c, hids]
                  refine ⟨⟨?_, ?_, ?_⟩, hw3 htw2⟩
                  · refine WFS.assign _ _ _ hval hmem ?_
                    rw [← hnm1]
                    exact hwe
                  · rw [hi3, hnm2, hnm1]
                  · rw [hd3, hdp2, hd1]
                    exact hdpv
              · cases h
    | inS =>
        simp only [parseStep, bind, Except.bind] at h
        split at h
        · cases h
        · rename_i ps1 hck1
          obtain ⟨hi1, hd1, hw1⟩ := checker_post _ _ _ _ hck1
          split at h
          · cases h
          · rename_i v hp1
            split at h
            · rename_i p ns ps2
              obtain ⟨post1, htw2⟩ := ih _ _ _ _ hp1 trivial (hw1 htw)
              obtain ⟨hn0, hn1, hdp2, hnT, hnF⟩ := post1
              have hdpf : ps1.declPath = false := by
                rw [hd1]
                exact hpre
              obtain ⟨hnm2, hsub2⟩ := hnF hdpf
              split at h
              · cases h
              · rename_i ps3 hck2
                obtain ⟨hi3, hd3, hw3⟩ := checker_post _ _ _ _ hck2
                cases h
                have hnm1 : namesOf ps1.ids = namesOf ps.ids := by
                  rw [hi1]
                refine ⟨⟨?_, ?_, ?_⟩, hw3 htw2⟩
                · refine WFS.readS _ _ hn0 ?_
                  intro x hx
                  refine ⟨hn1 x hx, ?_⟩
                  have hxm := hsub2 x hx
                  rw [hnm1] at hxm
                  exact hxm
                · rw [hi3, hnm2, hnm1]
                · rw [hd3, hdp2, hd1]
            · cases h
    | outS =>
        simp only [parseStep, bind, Except.bind] at h
        split at h
        · cases h
        · rename_i ps1 hck1
          obtain ⟨hi1, hd1, hw1⟩ := checker_post _ _ _ _ hck1
          split at h
          · cases h
          · rename_i v hp1
            split at h
            · rename_i p ns ps2
              obtain ⟨post1, htw2⟩ := ih _ _ _ _ hp1 trivial (hw1 htw)
              obtain ⟨hn0, hn1, hdp2, hnT, hnF⟩ := post1
              have hdpf : ps1.declPath = false := by
                rw [hd1]
                exact hpre
              obtain ⟨hnm2, hsub2⟩ := hnF hdpf
              split at h
              · cases h
              · rename_i ps3 hck2
                obtain ⟨hi3, hd3, hw3⟩ := checker_post _ _ _ _ hck2
                cases h
                have hnm1 : namesOf ps1.ids = namesOf ps.ids := by
                  rw [hi1]
                refine ⟨⟨?_, ?_, ?_⟩, hw3 htw2⟩
                · refine WFS.writeS _ _ hn0 ?_
                  intro x hx
                  refine ⟨hn1 x hx, ?_⟩
                  have hxm := hsub2 x hx
                  rw [hnm1] at hxm
                  exact hxm
                · rw [hi3, hnm2, hnm1]
                · rw [hd3, hdp2, hd1]
            · cases h
    | loopS indent =>
        simp only [parseStep, bind, Except.bind] at h
        split at h
        · cases h
        · rename_i ps1 hck1
          obtain ⟨hi1, hd1, hw1⟩ := checker_post _ _ _ _ hck1
          split at h
          · cases h
          · rename_i v hp1
            split at h
            · rename_i p c ps2
              obtain ⟨post1, htw2⟩ := ih _ _ _ _ hp1
                (by show ps1.declPath = false; rw [hd1]; exact hpre) (hw1 htw)
              obtain ⟨hwc, hnm2, hdp2⟩ := post1
              split at h
              · cases h
              · rename_i ps3 hck2
                obtain ⟨hi3, hd3, hw3⟩ := checker_post _ _ _ _ hck2
                split at h
                · cases h
                · rename_i v2 hp2
                  split at h
                  · rename_i p2 b ps4
                    obtain ⟨post2, htw4⟩ := ih _ _ _ _ hp2
                      (by show ps3.declPath = false
                          rw [hd3, hdp2, hd1]
                          exact hpre) (hw3 htw2)
                    obtain ⟨hb0, hb1, hnm4, hdp4⟩ := post2
                    split at h
                    · cases h
                    · rename_i ps5 hck3
                      obtain ⟨hi5, hd5, hw5⟩ := checker_post _ _ _ _ hck3
                      split at h
                      · cases h
                      · rename_i ps6 hck4
                        obtain ⟨hi6, hd6, hw6⟩ := checker_post _ _ _ _ hck4
                        cases h
                        have hnm1 : namesOf ps1.ids = namesOf ps.ids := by
                          rw [hi1]
                        have hnm3 : namesOf ps3.ids = namesOf ps2.ids := by
                          rw [hi3]
                        refine ⟨⟨?_, ?_, ?_⟩, hw6 (hw5 htw4)⟩
                        · refine WFS.whileS _ _ _ ?_ hb0 ?_
                          · rw [← hnm1]
                            exact hwc
                          · intro s hs
                            have hsw := hb1 s hs
                            rw [hnm3, hnm2, hnm1] at hsw
                            exact hsw
                        · rw [hi6, hi5, hnm4, hnm3, hnm2, hnm1]
                        · rw [hd6, hd5, hdp4, hd3, hdp2, hd1]
                  · cases h
            · cases h
    | ifS indent =>
        simp only [parseStep, bind, Except.bind] at h
        split at h
        · cases h
        · rename_i ps1 hck1
          obtain ⟨hi1, hd1, hw1⟩ := checker_post _ _ _ _ hck1
          split at h
          · cases h
          · rename_i v hp1
            split at h
            · rename_i p c ps2
              obtain ⟨post1, htw2⟩ := ih _ _ _ _ hp1
                (by show ps1.declPath = false; rw [hd1]; exact hpre) (hw1 htw)
              obtain ⟨hwc, hnm2, hdp2⟩ := post1
              split at h
              · cases h
              · rename_i ps3 hck2
                obtain ⟨hi3, hd3, hw3⟩ := checker_post _ _ _ _ hck2
                split at h
                · cases h
                · rename_i v2 hp2
                  split at h
                  · rename_i p2 tb ps4
                    obtain ⟨post2, htw4⟩ := ih _ _ _ _ hp2
                      (by show ps3.declPath = false
                          rw [hd3, hdp2, hd1]
                          exact hpre) (hw3 htw2)
                    obtain ⟨htb0, htb1, hnm4, hdp4⟩ := post2
                    split at h
                    · cases h
                    · rename_i t hg1
                      split at h
                      · rename_i hcE
                        split at h
                        · cases h
                        · rename_i ps5 hskp
                          obtain ⟨hi5, hd5, hw5⟩ := pSkip_post _ _ hskp
                          split at h
                          · cases h
                          · rename_i v3 hp3
                            split at h
                            · rename_i p3 eb ps6
                              obtain ⟨post3, htw6⟩ := ih _ _ _ _ hp3
                                (by show ps5.declPath = false
                                    rw [hd5, hdp4, hd3, hdp2, hd1]
                                    exact hpre)
                                (hw5 htw4)
                              obtain ⟨heb0, heb1, hnm6, hdp6⟩ := post3
                              split at h
                              · cases h
                              · rename_i ps7 hck3
                                obtain ⟨hi7, hd7, hw7⟩ :=
                                  checker_post _ _ _ _ hck3
                                split at h
                                · cases h
                                · rename_i ps8 hck4
                                  obtain ⟨hi8, hd8, hw8⟩ :=
                                    checker_post _ _ _ _ hck4
                                  cases h
                                  have hnm1 : namesOf ps1.ids =
                                      namesOf ps.ids := by rw [hi1]
                                  have hnm3 : namesOf ps3.ids =
                                      namesOf ps2.ids := by rw [hi3]
                                  have hnm5 : namesOf ps5.ids =
                                      namesOf ps4.ids := by rw [hi5]
                                  refine ⟨⟨?_, ?_, ?_⟩, hw8 (hw7 htw6)⟩
                                  · refine WFS.ifS _ _ _ _ ?_ htb0 ?_ ?_ ?_
                                    · rw [← hnm1]
                                      exact hwc
                                    · intro s hs
                                      have hsw := htb1 s hs
                                      rw [hnm3, hnm2, hnm1] at hsw
                                      exact hsw
                                    · intro el hel
                                      cases hel
                                      exact heb0
                                    · intro el hel s hs
                                      cases hel
                                      have hsw := heb1 s hs
                                      rw [hnm5, hnm4, hnm3, hnm2, hnm1] at hsw
                                      exact hsw
                                  · rw [hi8, hi7, hnm6, hnm5, hnm4, hnm3,
                                      hnm2, hnm1]
                                  · rw [hd8, hd7, hdp6, hd5, hdp4, hd3,
                                      hdp2, hd1]
                            · cases h
                      · split at h
                        · cases h
                        · rename_i ps5 hck3
                          obtain ⟨hi5, hd5, hw5⟩ := checker_post _ _ _ _ hck3
                          split at h
                          · cases h
                          · rename_i ps6 hck4
                            obtain ⟨hi6, hd6, hw6⟩ :=
                              checker_post _ _ _ _ hck4
                            cases h
                            have hnm1 : namesOf ps1.ids = namesOf ps.ids := by
                              rw [hi1]
                            have hnm3 : namesOf ps3.ids = namesOf ps2.ids := by
                              rw [hi3]
                            refine ⟨⟨?_, ?_, ?_⟩, hw6 (hw5 htw4)⟩
                            · refine WFS.ifS _ _ _ _ ?_ htb0 ?_ ?_ ?_
                              · rw [← hnm1]
                                exact hwc
                              · intro s hs
                                have hsw := htb1 s hs
                                rw [hnm3, hnm2, hnm1] at hsw
                                exact hsw
                              · intro el hel
                                cases hel
                              · intro el hel s hs
                                cases hel
                            · rw [hi6, hi5, hnm4, hnm3, hnm2, hnm1]
                            · rw [hd6, hd5, hdp4, hd3, hdp2, hd1]
                  · cases h
            · cases h
    | cond lineArg =>
        simp only [parseStep, bind, Except.bind] at h
        split at h
        · cases h
        · rename_i t hg1
          split at h
          · obtain ⟨post1, htw1⟩ := ih _ _ _ _ h (by exact hpre) htw
            refine ⟨?_, htw1⟩
            cases res
            all_goals try exact trivial
            exact post1
          · split at h
            · split at h
              · cases h
              · rename_i ps1 hskp
                obtain ⟨hi1, hd1, hw1⟩ := pSkip_post _ _ hskp
                split at h
                · cases h
                · rename_i v hp1
                  split at h
                  · rename_i p c ps2
                    obtain ⟨post1, htw2⟩ := ih _ _ _ _ hp1
                      (by show ps1.declPath = false; rw [hd1]; exact hpre)
                      (hw1 htw)
                    obtain ⟨hwc, hnm2, hdp2⟩ := post1
                    cases h
                    have hnm1 : namesOf ps1.ids = namesOf ps.ids := by
                      rw [hi1]
                    refine ⟨⟨?_, ?_, ?_⟩, htw2⟩
                    · refine WFC.notC _ ?_
                      rw [← hnm1]
                      exact hwc
                    · rw [hnm2, hnm1]
                    · rw [hdp2, hd1]
                  · cases h
            · split at h
              · split at h
                · cases h
                · rename_i ps1 hskp
                  obtain ⟨hi1, hd1, hw1⟩ := pSkip_post _ _ hskp
                  split at h
                  · cases h
                  · rename_i v hp1
                    split at h
                    · rename_i p l ps2
                      obtain ⟨post1, htw2⟩ := ih _ _ _ _ hp1
                        (by show ps1.declPath = false; rw [hd1]; exact hpre)
                        (hw1 htw)
                      obtain ⟨hwl, hnm2, hdp2⟩ := post1
                      split at h
                      · cases h
                      · rename_i t2 hg2
                        split at h
                        · split at h
                          · cases h
                          · rename_i ps3 hskp2
                            obtain ⟨hi3, hd3, hw3⟩ := pSkip_post _ _ hskp2
                            split at h
                            · cases h
                            · rename_i v2 hp2
                              split at h
                              · rename_i p2 r ps4
                                obtain ⟨post2, htw4⟩ := ih _ _ _ _ hp2
                                  (by show ps3.declPath = false
                                      rw [hd3, hdp2, hd1]
                                      exact hpre)
                                  (hw3 htw2)
                                obtain ⟨hwr, hnm4, hdp4⟩ := post2
                                split at h
                                · cases h
                                · rename_i ps5 hck1
                                  obtain ⟨hi5, hd5, hw5⟩ := checker_post _ _ _ _ hck1
                                  cases h
                                  have hnm1 : namesOf ps1.ids = namesOf ps.ids := by
                                    rw [hi1]
                                  have hnm3 : namesOf ps3.ids = namesOf ps2.ids := by
                                    rw [hi3]
                                  refine ⟨⟨?_, ?_, ?_⟩, hw5 htw4⟩
                                  · refine WFC.andC _ _ ?_ ?_
                                    · rw [← hnm1]
                                      exact hwl
                                    · have hrw := hwr
                                      rw [hnm3, hnm2, hnm1] at hrw
                                      exact hrw
                                  · rw [hi5, hnm4, hnm3, hnm2, hnm1]
                                  · rw [hd5, hdp4, hd3, hdp2, hd1]
                              · cases h
                        · split at h
                          · split at h
                            · cases h
                            · rename_i ps3 hskp2
                              obtain ⟨hi3, hd3, hw3⟩ := pSkip_post _ _ hskp2
                              split at h
                              · cases h
                              · rename_i v2 hp2
                                split at h
                                · rename_i p2 r ps4
                                  obtain ⟨post2, htw4⟩ := ih _ _ _ _ hp2
                                    (by show ps3.declPath = false
                                        rw [hd3, hdp2, hd1]
                                        exact hpre)
                                    (hw3 htw2)
                                  obtain ⟨hwr, hnm4, hdp4⟩ := post2
                                  split at h
                                  · cases h
                                  · rename_i ps5 hck1
                                    obtain ⟨hi5, hd5, hw5⟩ := checker_post _ _ _ _ hck1
                                    cases h
                                    have hnm1 : namesOf ps1.ids = namesOf ps.ids := by
                                      rw [hi1]
                                    have hnm3 : namesOf ps3.ids = namesOf ps2.ids := by
                                      rw [hi3]
                                    refine ⟨⟨?_, ?_, ?_⟩, hw5 htw4⟩
                                    · refine WFC.orC _ _ ?_ ?_
                                      · rw [← hnm1]
                                        exact hwl
                                      · have hrw := hwr
                                        rw [hnm3, hnm2, hnm1] at hrw
                                        exact hrw
                                    · rw [hi5, hnm4, hnm3, hnm2, hnm1]
                                    · rw [hd5, hdp4, hd3, hdp2, hd1]
                                · cases h
                          · split at h
                            · cases h
                            · cases h
                    · cases h
              · split at h
                · cases h
                · cases h
    | compC lineArg =>
        simp only [parseStep, bind, Except.bind] at h
        split at h
        · cases h
        · rename_i ps1 hck1
          obtain ⟨hi1, hd1, hw1⟩ := checker_post _ _ _ _ hck1
          split at h
          · cases h
          · rename_i v hp1
            split at h
            · rename_i p l ps2
              obtain ⟨post1, htw2⟩ := ih _ _ _ _ hp1
                (by show ps1.declPath = false; rw [hd1]; exact hpre) (hw1 htw)
              obtain ⟨hwl, hnm2, hdp2⟩ := post1
              split at h
              · cases h
              · rename_i v2 hp2
                split at h
                · rename_i p2 o ps3
                  obtain ⟨post2, htw3⟩ := ih _ _ _ _ hp2 trivial htw2
                  obtain ⟨hnm3, hdp3⟩ := post2
                  split at h
                  · cases h
                  · rename_i v3 hp3
                    split at h
                    · rename_i p3 r ps4
                      obtain ⟨post3, htw4⟩ := ih _ _ _ _ hp3
                        (by show ps3.declPath = false
                            rw [hdp3, hdp2, hd1]
                            exact hpre) htw3
                      obtain ⟨hwr, hnm4, hdp4⟩ := post3
                      split at h
                      · cases h
                      · rename_i ps5 hck2
                        obtain ⟨hi5, hd5, hw5⟩ := checker_post _ _ _ _ hck2
                        cases h
                        have hnm1 : namesOf ps1.ids = namesOf ps.ids := by
                          rw [hi1]
                        refine ⟨⟨?_, ?_, ?_⟩, hw5 htw4⟩
                        · refine WFC.comp _ _ _ ?_ ?_
                          · rw [← hnm1]
                            exact hwl
                          · have hrw := hwr
                            rw [hnm3, hnm2, hnm1] at hrw
                            exact hrw
                        · rw [hi5, hnm4, hnm3, hnm2, hnm1]
                        · rw [hd5, hdp4, hdp3, hdp2, hd1]
                    · cases h
                · cases h
            · cases h
    | compOp =>
        simp only [parseStep, bind, Except.bind] at h
        split at h
        · cases h
        · rename_i t hg1
          split at h
          · split at h
            · cases h
            · cases h
          · split at h
            · cases h
            · rename_i ps1 hskp
              obtain ⟨hi1, hd1, hw1⟩ := pSkip_post _ _ hskp
              cases h
              refine ⟨⟨?_, hd1⟩, hw1 htw⟩
              rw [hi1]
    | exp lineArg =>
        simp only [parseStep, bind, Except.bind] at h
        split at h
        · cases h
        · rename_i v hp1
          split at h
          · rename_i p f ps1
            obtain ⟨post1, htw1⟩ := ih _ _ _ _ hp1 (by exact hpre) htw
            obtain ⟨hwf, hnm1, hdp1⟩ := post1
            split at h
            · cases h
            · rename_i t hg1
              split at h
              · split at h
                · cases h
                · rename_i ps2 hskp
                  obtain ⟨hi2, hd2, hw2⟩ := pSkip_post _ _ hskp
                  split at h
                  · cases h
                  · rename_i v2 hp2
                    split at h
                    · rename_i p2 e2 ps3
                      obtain ⟨post2, htw3⟩ := ih _ _ _ _ hp2
                        (by show ps2.declPath = false
                            rw [hd2, hdp1]
                            exact hpre)
                        (hw2 htw1)
                      obtain ⟨hwe2, hnm3, hdp3⟩ := post2
                      cases h
                      have hnm2 : namesOf ps2.ids = namesOf ps1.ids := by
                        rw [hi2]
                      refine ⟨⟨?_, ?_, ?_⟩, htw3⟩
                      · refine WFE.addExp _ _ hwf ?_
                        have hrw := hwe2
                        rw [hnm2, hnm1] at hrw
                        exact hrw
                      · rw [hnm3, hnm2, hnm1]
                      · rw [hdp3, hd2, hdp1]
                    · cases h
              · split at h
                · split at h
                  · cases h
                  · rename_i ps2 hskp
                    obtain ⟨hi2, hd2, hw2⟩ := pSkip_post _ _ hskp
                    split at h
                    · cases h
                    · rename_i v2 hp2
                      split at h
                      · rename_i p2 e2 ps3
                        obtain ⟨post2, htw3⟩ := ih _ _ _ _ hp2
                          (by show ps2.declPath = false
                              rw [hd2, hdp1]
                              exact hpre)
                          (hw2 htw1)
                        obtain ⟨hwe2, hnm3, hdp3⟩ := post2
                        cases h
                        have hnm2 : namesOf ps2.ids = namesOf ps1.ids := by
                          rw [hi2]
                        refine ⟨⟨?_, ?_, ?_⟩, htw3⟩
                        · refine WFE.subExp _ _ hwf ?_
                          have hrw := hwe2
                          rw [hnm2, hnm1] at hrw
                          exact hrw
                        · rw [hnm3, hnm2, hnm1]
                        · rw [hdp3, hd2, hdp1]
                      · cases h
                · cases h
                  exact ⟨⟨WFE.facExp _ hwf, hnm1, hdp1⟩, htw1⟩
          · cases h
    | fac lineArg =>
        simp only [parseStep, bind, Except.bind] at h
        split at h
        · cases h
        · rename_i v hp1
          split at h
          · rename_i p o ps1
            obtain ⟨post1, htw1⟩ := ih _ _ _ _ hp1 (by exact hpre) htw
            obtain ⟨hwo, hnm1, hdp1⟩ := post1
            split at h
            · cases h
            · rename_i t hg1
              split at h
              · split at h
                · cases h
                · rename_i ps2 hskp
                  obtain ⟨hi2, hd2, hw2⟩ := pSkip_post _ _ hskp
                  split at h
                  · cases h
                  · rename_i v2 hp2
                    split at h
                    · rename_i p2 f2 ps3
                      obtain ⟨post2, htw3⟩ := ih _ _ _ _ hp2
                        (by show ps2.declPath = false
                            rw [hd2, hdp1]
                            exact hpre)
                        (hw2 htw1)
                      obtain ⟨hwf2, hnm3, hdp3⟩ := post2
                      cases h
                      have hnm2 : namesOf ps2.ids = namesOf ps1.ids := by
                        rw [hi2]
                      refine ⟨⟨?_, ?_, ?_⟩, htw3⟩
                      · refine WFE.mulFac _ _ hwo ?_
                        have hrw := hwf2
                        rw [hnm2, hnm1] at hrw
                        exact hrw
                      · rw [hnm3, hnm2, hnm1]
                      · rw [hdp3, hd2, hdp1]
                    · cases h
              · cases h
                exact ⟨⟨WFE.opFac _ hwo, hnm1, hdp1⟩, htw1⟩
          · cases h
    | op lineArg =>
        simp only [parseStep, bind, Except.bind] at h
        split at h
        · cases h
        · rename_i t hg1
          split at h
          · split at h
            · cases h
            · rename_i vI hIv
              split at h
              · cases h
              · rename_i ps1 hck1
                obtain ⟨hi1, hd1, hw1⟩ := checker_post _ _ _ _ hck1
                cases h
                refine ⟨⟨?_, ?_, hd1⟩, hw1 htw⟩
                · exact WFE.intOp _ (int_val_nonneg _ _ htw hIv)
                · rw [hi1]
          · split at h
            · split at h
              · cases h
              · rename_i v hiP
                obtain ⟨hval, htwv, hdpv, hTv, hFv⟩ :=
                  idParse_post _ _ _ htw hiP
                obtain ⟨hids, hmem⟩ := hFv (by exact hpre)
                cases h
                refine ⟨⟨?_, ?_, ?_⟩, by exact htwv⟩
                · exact WFE.idOp _ hval hmem
                · show namesOf (envSetLine v.2.ids v.1 (some lineArg)
                    v.2.tk.lineNumber) = _
                  rw [namesOf_envSetLine, hids]
                · show v.2.declPath = ps.declPath
                  exact hdpv
            · split at h
              · split at h
                · cases h
                · rename_i v hp1
                  split at h
                  · rename_i p e ps1
                    obtain ⟨post1, htw1⟩ := ih _ _ _ _ hp1 (by exact hpre) htw
                    obtain ⟨hwe, hnm1, hdp1⟩ := post1
                    split at h
                    · cases h
                    · rename_i ps2 hck1
                      obtain ⟨hi2, hd2, hw2⟩ := checker_post _ _ _ _ hck1
                      cases h
                      refine ⟨⟨?_, ?_, ?_⟩, hw2 htw1⟩
                      · exact WFE.parenOp _ hwe
                      · rw [hi2, hnm1]
                      · rw [hd2, hdp1]
                  · cases h
              · split at h
                · cases h
                · cases h
    | parenthExp lineArg =>
        simp only [parseStep, bind, Except.bind] at h
        split at h
        · cases h
        · rename_i ps1 hck1
          obtain ⟨hi1, hd1, hw1⟩ := checker_post _ _ _ _ hck1
          split at h
          · cases h
          · rename_i v hp1
            split at h
            · rename_i p e ps2
              obtain ⟨post1, htw2⟩ := ih _ _ _ _ hp1
                (by show ps1.declPath = false; rw [hd1]; exact hpre) (hw1 htw)
              obtain ⟨hwe, hnm2, hdp2⟩ := post1
              cases h
              have hnm1 : namesOf ps1.ids = namesOf ps.ids := by
                rw [hi1]
              refine ⟨⟨?_, ?_, ?_⟩, htw2⟩
              · rw [← hnm1]
                exact hwe
              · rw [hnm2, hnm1]
              · rw [hdp2, hd1]
            · cases h
